import Mathlib

/-!
# nakama-rpc-function: the `VersionChecker` RPC handler

A shallow embedding of `serverinfo.go`.  The handler decodes a JSON payload,
substitutes defaults, builds a file path, stats and reads the file, hashes it
with SHA-256, blanks the content unless the caller supplied the same hash,
encodes the response as JSON and hands one record to the host's storage API.

Go strings and byte slices are lists of bytes.  The standard-library
functions the handler calls (`crypto/sha256`, `fmt`, `unicode/utf8`,
`encoding/json`, `path/filepath` on a Unix host) are modelled as executable
functions; the file system, the storage API and the logger belong to the host
and are parameters or recorded events.
-/

set_option autoImplicit false

/-- A Go `string` or `[]byte`: a finite sequence of bytes. -/
abbrev Bytes := List UInt8

deriving instance DecidableEq for Except

/-! ## `crypto/sha256` -/

namespace Sha256

/-- Word size of the hash: all arithmetic is modulo `2 ^ 32`. -/
def wordMod : Nat := 4294967296

/-- `bits.RotateLeft32 x (-n)`: rotate a 32-bit word right by `n` bits. -/
def rotr (x n : Nat) : Nat :=
  ((x >>> n) ||| (x <<< (32 - n))) % wordMod

/-- The round constants `_K`. -/
def K : List Nat :=
  [0x428a2f98, 0x71374491, 0xb5c0fbcf, 0xe9b5dba5, 0x3956c25b, 0x59f111f1, 0x923f82a4, 0xab1c5ed5,
   0xd807aa98, 0x12835b01, 0x243185be, 0x550c7dc3, 0x72be5d74, 0x80deb1fe, 0x9bdc06a7, 0xc19bf174,
   0xe49b69c1, 0xefbe4786, 0x0fc19dc6, 0x240ca1cc, 0x2de92c6f, 0x4a7484aa, 0x5cb0a9dc, 0x76f988da,
   0x983e5152, 0xa831c66d, 0xb00327c8, 0xbf597fc7, 0xc6e00bf3, 0xd5a79147, 0x06ca6351, 0x14292967,
   0x27b70a85, 0x2e1b2138, 0x4d2c6dfc, 0x53380d13, 0x650a7354, 0x766a0abb, 0x81c2c92e, 0x92722c85,
   0xa2bfe8a1, 0xa81a664b, 0xc24b8b70, 0xc76c51a3, 0xd192e819, 0xd6990624, 0xf40e3585, 0x106aa070,
   0x19a4c116, 0x1e376c08, 0x2748774c, 0x34b0bcb5, 0x391c0cb3, 0x4ed8aa4a, 0x5b9cca4f, 0x682e6ff3,
   0x748f82ee, 0x78a5636f, 0x84c87814, 0x8cc70208, 0x90befffa, 0xa4506ceb, 0xbef9a3f7, 0xc67178f2]

/-- The eight chaining words `h0 .. h7` of a digest. -/
structure State where
  h0 : Nat
  h1 : Nat
  h2 : Nat
  h3 : Nat
  h4 : Nat
  h5 : Nat
  h6 : Nat
  h7 : Nat
deriving DecidableEq, Repr

/-- The initial chaining value `init0 .. init7`. -/
def init : State :=
  ⟨0x6a09e667, 0xbb67ae85, 0x3c6ef372, 0xa54ff53a, 0x510e527f, 0x9b05688c, 0x1f83d9ab, 0x5be0cd19⟩

/-- Big-endian 32-bit words of a block: `w[i]` for `i < 16`. -/
def blockWords : Bytes → List Nat
  | a :: b :: c :: d :: rest =>
      (a.toNat * 16777216 + b.toNat * 65536 + c.toNat * 256 + d.toNat) :: blockWords rest
  | _ => []

/-- Extend the message schedule by `n` words: `w[i]` for `16 ≤ i`.  The list
is kept newest-first, so `w[i-2]` is at index 1, `w[i-7]` at 6, `w[i-15]` at
14 and `w[i-16]` at 15. -/
def extend : Nat → List Nat → List Nat
  | 0, rev => rev
  | n + 1, rev =>
      let v1 := rev.getD 1 0
      let t1 := (rotr v1 17 ^^^ rotr v1 19) ^^^ (v1 >>> 10)
      let v2 := rev.getD 14 0
      let t2 := (rotr v2 7 ^^^ rotr v2 18) ^^^ (v2 >>> 3)
      extend n (((t1 + rev.getD 6 0 + t2 + rev.getD 15 0) % wordMod) :: rev)

/-- The 64-word message schedule of one 64-byte block. -/
def schedule (block : Bytes) : List Nat :=
  (extend 48 (blockWords block).reverse).reverse

/-- One round of the compression loop on the working variables `a .. h`. -/
def round (s : State) (k w : Nat) : State :=
  let t1 := (s.h7 + ((rotr s.h4 6 ^^^ rotr s.h4 11) ^^^ rotr s.h4 25)
              + ((s.h4 &&& s.h5) ^^^ ((s.h4 ^^^ 4294967295) &&& s.h6)) + k + w) % wordMod
  let t2 := (((rotr s.h0 2 ^^^ rotr s.h0 13) ^^^ rotr s.h0 22)
              + (((s.h0 &&& s.h1) ^^^ (s.h0 &&& s.h2)) ^^^ (s.h1 &&& s.h2))) % wordMod
  ⟨(t1 + t2) % wordMod, s.h0, s.h1, s.h2, (s.h3 + t1) % wordMod, s.h4, s.h5, s.h6⟩

/-- The 64 rounds, over the round constants paired with the schedule. -/
def rounds : State → List Nat → List Nat → State
  | s, k :: ks, w :: ws => rounds (round s k w) ks ws
  | s, _, _ => s

/-- The function `blockGeneric` on one 64-byte block. -/
def block (d : State) (p : Bytes) : State :=
  let r := rounds d K (schedule p)
  ⟨(d.h0 + r.h0) % wordMod, (d.h1 + r.h1) % wordMod, (d.h2 + r.h2) % wordMod,
   (d.h3 + r.h3) % wordMod, (d.h4 + r.h4) % wordMod, (d.h5 + r.h5) % wordMod,
   (d.h6 + r.h6) % wordMod, (d.h7 + r.h7) % wordMod⟩

/-- Feed `n` consecutive 64-byte blocks of `p` to `block`. -/
def blocks : Nat → State → Bytes → State
  | 0, d, _ => d
  | n + 1, d, p => blocks n (block d (p.take 64)) (p.drop 64)

/-- Big-endian bytes of a 64-bit length. -/
def be64 (n : Nat) : Bytes :=
  [UInt8.ofNat (n / 72057594037927936), UInt8.ofNat (n / 281474976710656),
   UInt8.ofNat (n / 1099511627776), UInt8.ofNat (n / 4294967296),
   UInt8.ofNat (n / 16777216), UInt8.ofNat (n / 65536), UInt8.ofNat (n / 256), UInt8.ofNat n]

/-- Big-endian bytes of a 32-bit word. -/
def be32 (n : Nat) : Bytes :=
  [UInt8.ofNat (n / 16777216), UInt8.ofNat (n / 65536), UInt8.ofNat (n / 256), UInt8.ofNat n]

/-- The padded message: the data, a `0x80` byte, zeros up to 56 modulo 64,
and the bit length as a 64-bit big-endian number. -/
def pad (data : Bytes) : Bytes :=
  data ++ [128] ++ List.replicate ((119 - data.length % 64) % 64) 0
    ++ be64 (data.length * 8 % 18446744073709551616)

/-- The function `sha256.Sum256`: the 32-byte digest of `data`. -/
def Sum256 (data : Bytes) : Bytes :=
  let p := pad data
  let d := blocks (p.length / 64) init p
  be32 d.h0 ++ be32 d.h1 ++ be32 d.h2 ++ be32 d.h3
    ++ be32 d.h4 ++ be32 d.h5 ++ be32 d.h6 ++ be32 d.h7

end Sha256

/-! ## `fmt` -/

/-- The digit table `0123456789abcdef` of the lower-case hexadecimal verbs. -/
def hexDigit (n : Nat) : UInt8 :=
  if n < 10 then UInt8.ofNat (48 + n) else UInt8.ofNat (87 + n)

/-- The call `fmt.Sprintf("%x", b)` on a byte array: two lower-case
hexadecimal digits per byte, high nibble first. -/
def sprintfHex : Bytes → Bytes
  | [] => []
  | b :: rest => hexDigit (b.toNat / 16) :: hexDigit (b.toNat % 16) :: sprintfHex rest

/-- The bytes of an ASCII string literal. -/
def asc (s : String) : Bytes :=
  s.toList.map fun c => UInt8.ofNat c.toNat

/-! ## `unicode/utf8` -/

namespace Utf8

/-- The replacement character `utf8.RuneError`, U+FFFD. -/
def RuneError : Nat := 65533

/-- The largest code point `utf8.MaxRune`, U+10FFFF. -/
def MaxRune : Nat := 1114111

/-- The table `first` together with `acceptRanges`, for a leading byte of at
least `0x80`: the length of the sequence and the accepted range of its second
byte, or `none` for a byte that cannot start a sequence. -/
def first (p0 : Nat) : Option (Nat × Nat × Nat) :=
  if p0 < 194 then none
  else if p0 < 224 then some (2, 128, 191)
  else if p0 = 224 then some (3, 160, 191)
  else if p0 < 237 then some (3, 128, 191)
  else if p0 = 237 then some (3, 128, 159)
  else if p0 < 240 then some (3, 128, 191)
  else if p0 = 240 then some (4, 144, 191)
  else if p0 < 244 then some (4, 128, 191)
  else if p0 = 244 then some (4, 128, 143)
  else none

/-- The function `utf8.DecodeRune`: the first rune of `p` and its width in
bytes; `(RuneError, 0)` on empty input and `(RuneError, 1)` on an invalid
encoding.  The masks and shifts are written as `%` and `*`. -/
def DecodeRune (p : Bytes) : Nat × Nat :=
  match p with
  | [] => (RuneError, 0)
  | p0 :: rest =>
    if p0.toNat < 128 then (p0.toNat, 1)
    else
      match first p0.toNat with
      | none => (RuneError, 1)
      | some (sz, lo, hi) =>
        if p.length < sz then (RuneError, 1)
        else
          let b1 := (rest.getD 0 0).toNat
          if b1 < lo ∨ hi < b1 then (RuneError, 1)
          else if sz ≤ 2 then (p0.toNat % 32 * 64 + b1 % 64, 2)
          else
            let b2 := (rest.getD 1 0).toNat
            if b2 < 128 ∨ 191 < b2 then (RuneError, 1)
            else if sz ≤ 3 then (p0.toNat % 16 * 4096 + b1 % 64 * 64 + b2 % 64, 3)
            else
              let b3 := (rest.getD 2 0).toNat
              if b3 < 128 ∨ 191 < b3 then (RuneError, 1)
              else (p0.toNat % 8 * 262144 + b1 % 64 * 4096 + b2 % 64 * 64 + b3 % 64, 4)

/-- The function `utf8.EncodeRune`: the UTF-8 encoding of rune `r`; a
surrogate or a value above `MaxRune` is encoded as `RuneError`. -/
def EncodeRune (r : Nat) : Bytes :=
  if r ≤ 127 then [UInt8.ofNat r]
  else if r ≤ 2047 then [UInt8.ofNat (192 + r / 64), UInt8.ofNat (128 + r % 64)]
  else if MaxRune < r ∨ (55296 ≤ r ∧ r ≤ 57343) then [239, 191, 189]
  else if r ≤ 65535 then
    [UInt8.ofNat (224 + r / 4096), UInt8.ofNat (128 + r / 64 % 64), UInt8.ofNat (128 + r % 64)]
  else
    [UInt8.ofNat (240 + r / 262144), UInt8.ofNat (128 + r / 4096 % 64),
     UInt8.ofNat (128 + r / 64 % 64), UInt8.ofNat (128 + r % 64)]

/-- The loop of `utf8.Valid` with a step bound: every rune of `p` decodes. -/
def validLoop : Nat → Bytes → Bool
  | _, [] => true
  | 0, _ :: _ => false
  | fuel + 1, b :: rest =>
    let d := DecodeRune (b :: rest)
    if d.1 = RuneError ∧ d.2 = 1 then false
    else validLoop fuel (rest.drop (d.2 - 1))

/-- The function `utf8.Valid`: `p` consists entirely of valid UTF-8. -/
def Valid (p : Bytes) : Bool := validLoop p.length p

/-- A string with every byte that does not start a valid encoding replaced by
the encoding of U+FFFD, one replacement per byte (with a step bound). -/
def coerceLoop : Nat → Bytes → Bytes
  | _, [] => []
  | 0, _ :: _ => []
  | fuel + 1, b :: rest =>
    let d := DecodeRune (b :: rest)
    EncodeRune d.1 ++ coerceLoop fuel (rest.drop (d.2 - 1))

/-- The well-formed UTF-8 string that JSON encoding and decoding turn `p`
into: valid runes are kept, every other byte becomes U+FFFD. -/
def coerce (p : Bytes) : Bytes := coerceLoop p.length p

end Utf8

/-! ## `encoding/json`: encoding -/

namespace Json

/-- The table `htmlSafeSet`: the ASCII bytes that `json.Marshal` copies into a
string literal unescaped. -/
def htmlSafe (b : UInt8) : Bool :=
  decide (32 ≤ b.toNat ∧ b.toNat < 128 ∧ b.toNat ≠ 34 ∧ b.toNat ≠ 38 ∧ b.toNat ≠ 60
    ∧ b.toNat ≠ 62 ∧ b.toNat ≠ 92)

/-- The escape that `appendString` writes for an ASCII byte outside
`htmlSafeSet`.  Backspace and form feed get the short escapes of current Go
releases; older ones wrote `\u0008` and `\u000c`, which decode to the same
bytes. -/
def escapeByte (b : UInt8) : Bytes :=
  if b.toNat = 92 ∨ b.toNat = 34 then [92, b]
  else if b.toNat = 8 then [92, 98]
  else if b.toNat = 12 then [92, 102]
  else if b.toNat = 10 then [92, 110]
  else if b.toNat = 13 then [92, 114]
  else if b.toNat = 9 then [92, 116]
  else [92, 117, 48, 48, hexDigit (b.toNat / 16), hexDigit (b.toNat % 16)]

/-- The loop of `appendString` with HTML escaping on, as `json.Marshal` runs
it, writing the text between the quotes of the literal.  `fuel` bounds the
number of iterations; each consumes at least one byte. -/
def stringLoop : Nat → Bytes → Bytes
  | _, [] => []
  | 0, _ :: _ => []
  | fuel + 1, b :: rest =>
    if b.toNat < 128 then
      (if htmlSafe b then [b] else escapeByte b) ++ stringLoop fuel rest
    else
      let d := Utf8.DecodeRune ((b :: rest).take 4)
      if d.1 = Utf8.RuneError ∧ d.2 = 1 then
        [92, 117, 102, 102, 102, 100] ++ stringLoop fuel rest
      else if d.1 = 8232 ∨ d.1 = 8233 then
        [92, 117, 50, 48, 50, hexDigit (d.1 % 16)] ++ stringLoop fuel (rest.drop (d.2 - 1))
      else
        (b :: rest).take d.2 ++ stringLoop fuel (rest.drop (d.2 - 1))

/-- The text between the quotes of the JSON string literal for `src`. -/
def stringBody (src : Bytes) : Bytes :=
  stringLoop src.length src

/-- The function `appendString`: the JSON string literal for `src`. -/
def appendString (src : Bytes) : Bytes :=
  34 :: (stringBody src ++ [34])

end Json

/-! ## `encoding/json`: the scanner (`scanner.go`) -/

namespace Json

/-- What the scanner is inside of: the stack entries `parseObjectKey`,
`parseObjectValue` and `parseArrayValue`. -/
inductive ParseState where
  | parseObjectKey
  | parseObjectValue
  | parseArrayValue
deriving DecidableEq, Repr

/-- The step functions of the scanner. -/
inductive Step where
  | stateBeginValueOrEmpty
  | stateBeginValue
  | stateBeginStringOrEmpty
  | stateBeginString
  | stateEndValue
  | stateEndTop
  | stateInString
  | stateInStringEsc
  | stateInStringEscU
  | stateInStringEscU1
  | stateInStringEscU12
  | stateInStringEscU123
  | stateNeg
  | state1
  | state0
  | stateDot
  | stateDot0
  | stateE
  | stateESign
  | stateE0
  | stateT
  | stateTr
  | stateTru
  | stateF
  | stateFa
  | stateFal
  | stateFals
  | stateN
  | stateNu
  | stateNul
  | stateError
deriving DecidableEq, Repr

/-- A `json.SyntaxError`: the offending byte with the context named in the
message (or the end of input), and the offset of the error. -/
structure SyntaxError where
  char : Option UInt8
  context : String
  offset : Nat
deriving DecidableEq, Repr

/-- The scanner: current step function, stack of enclosing composites, the
error once one occurred, whether the top-level value has ended, and the count
of bytes consumed. -/
structure Scanner where
  step : Step
  parseState : List ParseState
  err : Option SyntaxError
  endTop : Bool
  bytes : Nat
deriving DecidableEq, Repr

/-- The nesting limit `maxNestingDepth`. -/
def maxNestingDepth : Nat := 10000

/-- The method `reset`, on a fresh scanner. -/
def Scanner.reset : Scanner :=
  ⟨Step.stateBeginValue, [], none, false, 0⟩

/-- The method `error`: record a syntax error and stop. -/
def Scanner.error (s : Scanner) (c : UInt8) (context : String) : Scanner :=
  { s with step := Step.stateError, err := some ⟨some c, context, s.bytes⟩ }

/-- The method `pushParseState`; the stack grows at its head. -/
def Scanner.pushParseState (s : Scanner) (c : UInt8) (p : ParseState) (next : Step) : Scanner :=
  let s1 := { s with step := next, parseState := p :: s.parseState }
  if s1.parseState.length ≤ maxNestingDepth then s1 else s1.error c "exceeded max depth"

/-- The method `popParseState`. -/
def Scanner.popParseState (s : Scanner) : Scanner :=
  let rest := s.parseState.tail
  if rest.length = 0 then { s with parseState := rest, step := Step.stateEndTop, endTop := true }
  else { s with parseState := rest, step := Step.stateEndValue }

/-- The function `isSpace`. -/
def isSpace (c : UInt8) : Bool :=
  decide (c.toNat = 32 ∨ c.toNat = 9 ∨ c.toNat = 13 ∨ c.toNat = 10)

/-- A decimal digit `0 .. 9`. -/
def isDigit (c : UInt8) : Bool :=
  decide (48 ≤ c.toNat ∧ c.toNat ≤ 57)

/-- A hexadecimal digit `0 .. 9`, `a .. f` or `A .. F`. -/
def isHex (c : UInt8) : Bool :=
  decide (48 ≤ c.toNat ∧ c.toNat ≤ 57 ∨ 97 ≤ c.toNat ∧ c.toNat ≤ 102 ∨ 65 ≤ c.toNat ∧ c.toNat ≤ 70)

/-- The step function `stateEndTop`. -/
def stateEndTop (s : Scanner) (c : UInt8) : Scanner :=
  if isSpace c then s else s.error c "after top-level value"

/-- The step function `stateEndValue`. -/
def stateEndValue (s : Scanner) (c : UInt8) : Scanner :=
  match s.parseState with
  | [] => stateEndTop { s with step := Step.stateEndTop, endTop := true } c
  | ps :: rest =>
    if isSpace c then { s with step := Step.stateEndValue }
    else
      match ps with
      | ParseState.parseObjectKey =>
        if c.toNat = 58 then
          { s with parseState := ParseState.parseObjectValue :: rest, step := Step.stateBeginValue }
        else s.error c "after object key"
      | ParseState.parseObjectValue =>
        if c.toNat = 44 then
          { s with parseState := ParseState.parseObjectKey :: rest, step := Step.stateBeginString }
        else if c.toNat = 125 then s.popParseState
        else s.error c "after object key:value pair"
      | ParseState.parseArrayValue =>
        if c.toNat = 44 then { s with step := Step.stateBeginValue }
        else if c.toNat = 93 then s.popParseState
        else s.error c "after array element"

/-- The step function `stateBeginValue`. -/
def stateBeginValue (s : Scanner) (c : UInt8) : Scanner :=
  if isSpace c then s
  else if c.toNat = 123 then
    s.pushParseState c ParseState.parseObjectKey Step.stateBeginStringOrEmpty
  else if c.toNat = 91 then
    s.pushParseState c ParseState.parseArrayValue Step.stateBeginValueOrEmpty
  else if c.toNat = 34 then { s with step := Step.stateInString }
  else if c.toNat = 45 then { s with step := Step.stateNeg }
  else if c.toNat = 48 then { s with step := Step.state0 }
  else if c.toNat = 116 then { s with step := Step.stateT }
  else if c.toNat = 102 then { s with step := Step.stateF }
  else if c.toNat = 110 then { s with step := Step.stateN }
  else if 49 ≤ c.toNat ∧ c.toNat ≤ 57 then { s with step := Step.state1 }
  else s.error c "looking for beginning of value"

/-- The step function `stateBeginString`. -/
def stateBeginString (s : Scanner) (c : UInt8) : Scanner :=
  if isSpace c then s
  else if c.toNat = 34 then { s with step := Step.stateInString }
  else s.error c "looking for beginning of object key string"

/-- A literal spelled letter by letter: `want` moves on, anything else fails. -/
def expectByte (s : Scanner) (c : UInt8) (want : Nat) (next : Step) (context : String) : Scanner :=
  if c.toNat = want then { s with step := next } else s.error c context

/-- The step function `state0`, also the tail of `state1`. -/
def state0 (s : Scanner) (c : UInt8) : Scanner :=
  if c.toNat = 46 then { s with step := Step.stateDot }
  else if c.toNat = 101 ∨ c.toNat = 69 then { s with step := Step.stateE }
  else stateEndValue s c

/-- The step function `stateESign`, also the tail of `stateE`. -/
def stateESign (s : Scanner) (c : UInt8) : Scanner :=
  if isDigit c then { s with step := Step.stateE0 }
  else s.error c "in exponent of numeric literal"

/-- One of the four steps over the digits of a `\u` escape. -/
def hexStep (s : Scanner) (c : UInt8) (next : Step) : Scanner :=
  if isHex c then { s with step := next }
  else s.error c "in \\u hexadecimal character escape"

/-- Dispatch of `s.step(s, c)`: run the current step function on byte `c`. -/
def dispatch (s : Scanner) (c : UInt8) : Scanner :=
  match s.step with
  | Step.stateBeginValueOrEmpty =>
    if isSpace c then s
    else if c.toNat = 93 then stateEndValue s c
    else stateBeginValue s c
  | Step.stateBeginValue => stateBeginValue s c
  | Step.stateBeginStringOrEmpty =>
    if isSpace c then s
    else if c.toNat = 125 then
      stateEndValue { s with parseState := ParseState.parseObjectValue :: s.parseState.tail } c
    else stateBeginString s c
  | Step.stateBeginString => stateBeginString s c
  | Step.stateEndValue => stateEndValue s c
  | Step.stateEndTop => stateEndTop s c
  | Step.stateInString =>
    if c.toNat = 34 then { s with step := Step.stateEndValue }
    else if c.toNat = 92 then { s with step := Step.stateInStringEsc }
    else if c.toNat < 32 then s.error c "in string literal"
    else s
  | Step.stateInStringEsc =>
    if c.toNat = 98 ∨ c.toNat = 102 ∨ c.toNat = 110 ∨ c.toNat = 114 ∨ c.toNat = 116
        ∨ c.toNat = 92 ∨ c.toNat = 47 ∨ c.toNat = 34 then
      { s with step := Step.stateInString }
    else if c.toNat = 117 then { s with step := Step.stateInStringEscU }
    else s.error c "in string escape code"
  | Step.stateInStringEscU => hexStep s c Step.stateInStringEscU1
  | Step.stateInStringEscU1 => hexStep s c Step.stateInStringEscU12
  | Step.stateInStringEscU12 => hexStep s c Step.stateInStringEscU123
  | Step.stateInStringEscU123 => hexStep s c Step.stateInString
  | Step.stateNeg =>
    if c.toNat = 48 then { s with step := Step.state0 }
    else if 49 ≤ c.toNat ∧ c.toNat ≤ 57 then { s with step := Step.state1 }
    else s.error c "in numeric literal"
  | Step.state1 => if isDigit c then { s with step := Step.state1 } else state0 s c
  | Step.state0 => state0 s c
  | Step.stateDot =>
    if isDigit c then { s with step := Step.stateDot0 }
    else s.error c "after decimal point in numeric literal"
  | Step.stateDot0 =>
    if isDigit c then s
    else if c.toNat = 101 ∨ c.toNat = 69 then { s with step := Step.stateE }
    else stateEndValue s c
  | Step.stateE =>
    if c.toNat = 43 ∨ c.toNat = 45 then { s with step := Step.stateESign } else stateESign s c
  | Step.stateESign => stateESign s c
  | Step.stateE0 => if isDigit c then s else stateEndValue s c
  | Step.stateT => expectByte s c 114 Step.stateTr "in literal true (expecting 'r')"
  | Step.stateTr => expectByte s c 117 Step.stateTru "in literal true (expecting 'u')"
  | Step.stateTru => expectByte s c 101 Step.stateEndValue "in literal true (expecting 'e')"
  | Step.stateF => expectByte s c 97 Step.stateFa "in literal false (expecting 'a')"
  | Step.stateFa => expectByte s c 108 Step.stateFal "in literal false (expecting 'l')"
  | Step.stateFal => expectByte s c 115 Step.stateFals "in literal false (expecting 's')"
  | Step.stateFals => expectByte s c 101 Step.stateEndValue "in literal false (expecting 'e')"
  | Step.stateN => expectByte s c 117 Step.stateNu "in literal null (expecting 'u')"
  | Step.stateNu => expectByte s c 108 Step.stateNul "in literal null (expecting 'l')"
  | Step.stateNul => expectByte s c 108 Step.stateEndValue "in literal null (expecting 'l')"
  | Step.stateError => s

/-- The loop of `checkValid`: feed the bytes, counting them, and stop at the
first one after which the scanner holds an error. -/
def scanAll : Scanner → Bytes → Scanner
  | s, [] => s
  | s, c :: rest =>
    let s1 := dispatch { s with bytes := s.bytes + 1 } c
    match s1.err with
    | some _ => s1
    | none => scanAll s1 rest

/-- The method `eof`: the error, if any, with which the input ends. -/
def Scanner.eof (s : Scanner) : Option SyntaxError :=
  match s.err with
  | some e => some e
  | none =>
    if s.endTop then none
    else
      let s1 := dispatch s 32
      if s1.endTop then none
      else
        match s1.err with
        | some e => some e
        | none => some ⟨none, "unexpected end of JSON input", s.bytes⟩

/-- The function `checkValid`: `none` when `data` is one well-formed JSON
value, otherwise the syntax error. -/
def checkValid (data : Bytes) : Option SyntaxError :=
  (scanAll Scanner.reset data).eof

end Json

/-! ## `encoding/json`: decoding (`decode.go`) -/

namespace Json

/-- An error returned by `json.Unmarshal`: a `SyntaxError` of the scanner or
the first saved `UnmarshalTypeError`, with the JSON kind in `Value` and the
JSON name in `Field`.  `outOfSync` stands for the decoder's internal panic,
which validated input does not raise. -/
inductive JsonError where
  | invalidSyntax (e : SyntaxError)
  | unmarshalType (value : String) (field : Bytes)
  | outOfSync
deriving DecidableEq, Repr

/-- The value of one hexadecimal digit. -/
def hexVal (c : UInt8) : Option Nat :=
  if 48 ≤ c.toNat ∧ c.toNat ≤ 57 then some (c.toNat - 48)
  else if 97 ≤ c.toNat ∧ c.toNat ≤ 102 then some (c.toNat - 97 + 10)
  else if 65 ≤ c.toNat ∧ c.toNat ≤ 70 then some (c.toNat - 65 + 10)
  else none

/-- The function `getu4`: the number of a `\uXXXX` escape at the start of
`s`, or `none` (Go: `-1`) if there is none. -/
def getu4 (s : Bytes) : Option Nat :=
  match s with
  | b :: u :: h1 :: h2 :: h3 :: h4 :: _ =>
    if b.toNat = 92 ∧ u.toNat = 117 then
      match hexVal h1, hexVal h2, hexVal h3, hexVal h4 with
      | some a, some b, some c, some d => some (((a * 16 + b) * 16 + c) * 16 + d)
      | _, _, _, _ => none
    else none
  | _ => none

/-- The function `utf16.IsSurrogate`. -/
def isSurrogate (r : Nat) : Bool := decide (55296 ≤ r ∧ r < 57344)

/-- The function `utf16.DecodeRune` on a first half `r1` and what `getu4`
found after it: the rune of a valid surrogate pair, else U+FFFD. -/
def utf16DecodeRune (r1 : Nat) (r2 : Option Nat) : Nat :=
  match r2 with
  | some r2 =>
    if 55296 ≤ r1 ∧ r1 < 56320 ∧ 56320 ≤ r2 ∧ r2 < 57344 then
      (r1 - 55296) * 1024 + (r2 - 56320) + 65536
    else Utf8.RuneError
  | none => Utf8.RuneError

/-- The decoding loop of `unquoteBytes` over the text between the quotes of a
string literal, run from the first byte (the copy Go takes of a prefix without
escapes is what the loop writes for it).  `none` is Go's `ok = false`.
`fuel` bounds the iterations; each consumes at least one byte. -/
def unquoteLoop : Nat → Bytes → Option Bytes
  | _, [] => some []
  | 0, _ :: _ => none
  | fuel + 1, c :: cs =>
    if c.toNat = 92 then
      match cs with
      | [] => none
      | e :: cs1 =>
        if e.toNat = 34 ∨ e.toNat = 92 ∨ e.toNat = 47 ∨ e.toNat = 39 then
          (unquoteLoop fuel cs1).map (e :: ·)
        else if e.toNat = 98 then (unquoteLoop fuel cs1).map (8 :: ·)
        else if e.toNat = 102 then (unquoteLoop fuel cs1).map (12 :: ·)
        else if e.toNat = 110 then (unquoteLoop fuel cs1).map (10 :: ·)
        else if e.toNat = 114 then (unquoteLoop fuel cs1).map (13 :: ·)
        else if e.toNat = 116 then (unquoteLoop fuel cs1).map (9 :: ·)
        else if e.toNat = 117 then
          match getu4 (c :: cs) with
          | none => none
          | some rr =>
            let cs2 := cs1.drop 4
            if isSurrogate rr then
              let dec := utf16DecodeRune rr (getu4 cs2)
              if dec ≠ Utf8.RuneError then
                (unquoteLoop fuel (cs2.drop 6)).map (Utf8.EncodeRune dec ++ ·)
              else (unquoteLoop fuel cs2).map (Utf8.EncodeRune Utf8.RuneError ++ ·)
            else (unquoteLoop fuel cs2).map (Utf8.EncodeRune rr ++ ·)
        else none
    else if c.toNat = 34 ∨ c.toNat < 32 then none
    else if c.toNat < 128 then (unquoteLoop fuel cs).map (c :: ·)
    else
      let d := Utf8.DecodeRune (c :: cs)
      (unquoteLoop fuel (cs.drop (d.2 - 1))).map (Utf8.EncodeRune d.1 ++ ·)

/-- The function `unquoteBytes` on the text between the quotes. -/
def unquoteBytes (body : Bytes) : Option Bytes :=
  unquoteLoop body.length body

/-- The string case of `rescanLiteral`, from the byte after the opening quote:
the text up to the first quote not preceded by a backslash, and the input
after that quote. -/
def rescanString : Bytes → Bytes × Bytes
  | [] => ([], [])
  | c :: cs =>
    if c.toNat = 92 then
      match cs with
      | [] => ([c], [])
      | e :: cs1 => let r := rescanString cs1; (c :: e :: r.1, r.2)
    else if c.toNat = 34 then ([], cs)
    else let r := rescanString cs; (c :: r.1, r.2)

/-- The number case of `rescanLiteral`: skip the bytes of a number. -/
def rescanNumber : Bytes → Bytes
  | [] => []
  | c :: cs =>
    if isDigit c ∨ c.toNat = 46 ∨ c.toNat = 101 ∨ c.toNat = 69 ∨ c.toNat = 43 ∨ c.toNat = 45 then
      rescanNumber cs
    else c :: cs

/-- The method `skip` on a validated array or object, from the byte after its
opening bracket: the input after the matching closing bracket.  `depth` counts
the brackets open inside, `inStr` and `esc` track string literals. -/
def skipNested : Nat → Bool → Bool → Bytes → Option Bytes
  | _, _, _, [] => none
  | depth, true, true, _ :: cs => skipNested depth true false cs
  | depth, true, false, c :: cs =>
    if c.toNat = 92 then skipNested depth true true cs
    else if c.toNat = 34 then skipNested depth false false cs
    else skipNested depth true false cs
  | depth, false, _, c :: cs =>
    if c.toNat = 34 then skipNested depth true false cs
    else if c.toNat = 91 ∨ c.toNat = 123 then skipNested (depth + 1) false false cs
    else if c.toNat = 93 ∨ c.toNat = 125 then
      match depth with
      | 0 => some cs
      | d + 1 => skipNested d false false cs
    else skipNested depth false false cs

/-- Skip the white space the scanner reports as `scanSkipSpace`. -/
def skipSpace : Bytes → Bytes
  | [] => []
  | c :: cs => if isSpace c then skipSpace cs else c :: cs

/-- The rune `foldRune` maps `r` to, as far as names of ASCII letters can
tell: the two runes outside ASCII that fold to an ASCII letter (U+017F to `S`,
U+212A to `K`) are folded; every other rune outside ASCII folds to a rune
outside ASCII and is left as it is. -/
def foldRune (r : Nat) : Nat :=
  if r = 383 then 83 else if r = 8490 then 75 else r

/-- The loop of `foldName`: ASCII letters in upper case, other runes folded. -/
def foldLoop : Nat → Bytes → Bytes
  | _, [] => []
  | 0, _ :: _ => []
  | fuel + 1, c :: cs =>
    if c.toNat < 128 then
      (if 97 ≤ c.toNat ∧ c.toNat ≤ 122 then UInt8.ofNat (c.toNat - 32) else c) :: foldLoop fuel cs
    else
      let d := Utf8.DecodeRune (c :: cs)
      Utf8.EncodeRune (foldRune d.1) ++ foldLoop fuel (cs.drop (d.2 - 1))

/-- The function `foldName`. -/
def foldName (name : Bytes) : Bytes := foldLoop name.length name

/-- The field a key selects: the one of that exact name, else the one whose
name is equal to the key under case folding. -/
def findField (fields : List Bytes) (key : Bytes) : Option Nat :=
  if key ∈ fields then some (fields.indexOf key)
  else if foldName key ∈ fields.map foldName then some ((fields.map foldName).indexOf (foldName key))
  else none

/-- The part of a `decodeState` that decoding into a struct of string fields
changes: the field values, in declaration order, and `savedError`. -/
structure DecodeState where
  vals : List Bytes
  savedError : Option JsonError
deriving DecidableEq, Repr

/-- The method `saveError`: keep the first error. -/
def DecodeState.saveError (st : DecodeState) (e : JsonError) : DecodeState :=
  match st.savedError with
  | some _ => st
  | none => { st with savedError := some e }

/-- A type mismatch at the field `target` selects; nothing is reported for a
value that is skipped. -/
def DecodeState.mismatch (st : DecodeState) (fields : List Bytes) (target : Option Nat)
    (kind : String) : DecodeState :=
  match target with
  | some i => st.saveError (JsonError.unmarshalType kind (fields.getD i []))
  | none => st

/-- The method `value` for a string field (`target = some i`) or a key with no
field (`target = none`), at the first byte of the value: a string is stored,
`null` leaves the field as it is, any other value is skipped and recorded as a
type mismatch.  The result is the new state and the input after the value. -/
def value (fields : List Bytes) (target : Option Nat) (st : DecodeState) (data : Bytes) :
    Option (DecodeState × Bytes) :=
  match data with
  | [] => none
  | c :: cs =>
    if c.toNat = 34 then
      let r := rescanString cs
      match unquoteBytes r.1 with
      | none => none
      | some s =>
        match target with
        | some i => some ({ st with vals := st.vals.set i s }, r.2)
        | none => some (st, r.2)
    else if c.toNat = 123 then
      (skipNested 0 false false cs).map fun rest => (st.mismatch fields target "object", rest)
    else if c.toNat = 91 then
      (skipNested 0 false false cs).map fun rest => (st.mismatch fields target "array", rest)
    else if c.toNat = 110 then some (st, cs.drop 3)
    else if c.toNat = 116 then some (st.mismatch fields target "bool", cs.drop 3)
    else if c.toNat = 102 then some (st.mismatch fields target "bool", cs.drop 4)
    else if c.toNat = 45 ∨ isDigit c then some (st.mismatch fields target "number", rescanNumber cs)
    else none

/-- The loop of the method `object` for a struct, from the byte after the
opening brace: read a key, find its field, decode the value, and go on after a
comma until the closing brace.  `fuel` bounds the number of members. -/
def object (fields : List Bytes) : Nat → DecodeState → Bytes → Option (DecodeState × Bytes)
  | 0, _, _ => none
  | fuel + 1, st, data =>
    match skipSpace data with
    | [] => none
    | c :: cs =>
      if c.toNat = 125 then some (st, cs)
      else if c.toNat ≠ 34 then none
      else
        let r := rescanString cs
        match unquoteBytes r.1 with
        | none => none
        | some key =>
          match skipSpace r.2 with
          | [] => none
          | c2 :: cs2 =>
            if c2.toNat ≠ 58 then none
            else
              match value fields (findField fields key) st (skipSpace cs2) with
              | none => none
              | some (st1, rest) =>
                match skipSpace rest with
                | [] => none
                | c3 :: cs3 =>
                  if c3.toNat = 44 then object fields fuel st1 cs3
                  else if c3.toNat = 125 then some (st1, cs3)
                  else none

/-- The method `unmarshal` on validated input, into a struct whose fields start
out empty: an object fills the fields, `null` changes nothing, any other value
is a type mismatch. -/
def decode (fields : List Bytes) (data : Bytes) : Option DecodeState :=
  let st : DecodeState := ⟨fields.map fun _ => [], none⟩
  match skipSpace data with
  | [] => none
  | c :: cs =>
    if c.toNat = 123 then (object fields data.length st cs).map (·.1)
    else if c.toNat = 110 then some st
    else if c.toNat = 91 then some (st.saveError (JsonError.unmarshalType "array" []))
    else if c.toNat = 34 then some (st.saveError (JsonError.unmarshalType "string" []))
    else if c.toNat = 116 ∨ c.toNat = 102 then
      some (st.saveError (JsonError.unmarshalType "bool" []))
    else some (st.saveError (JsonError.unmarshalType "number" []))

/-- The function `json.Unmarshal` into a zero-valued struct of string fields
with the JSON names `fields`: the field values, or the error. -/
def Unmarshal (fields : List Bytes) (data : Bytes) : Except JsonError (List Bytes) :=
  match checkValid data with
  | some e => Except.error (JsonError.invalidSyntax e)
  | none =>
    match decode fields data with
    | none => Except.error JsonError.outOfSync
    | some st =>
      match st.savedError with
      | some e => Except.error e
      | none => Except.ok st.vals

end Json

/-! ## `path/filepath` (Unix) -/

namespace Filepath

/-- The path separator `filepath.Separator` of a Unix host. -/
def Separator : UInt8 := 47

/-- The backtracking of a `..` element in `Clean`, from write index `w` (the
index after `out.w--`): step back while above `dotdot` and not on a separator. -/
def backtrack (out : Bytes) (dotdot : Nat) : Nat → Nat
  | 0 => 0
  | w + 1 =>
    if dotdot < w + 1 ∧ out.getD (w + 1) 0 ≠ Separator then backtrack out dotdot w else w + 1

/-- The main loop of `Clean` over the unread part `path`, with the output
written so far in `out` and the index `dotdot` below which `..` must not
remove anything.  `fuel` bounds the iterations; each consumes at least one
byte. -/
def cleanLoop (rooted : Bool) : Nat → Bytes → Bytes → Nat → Bytes
  | _, [], out, _ => out
  | 0, _ :: _, out, _ => out
  | fuel + 1, c :: rest, out, dotdot =>
    if c = Separator then cleanLoop rooted fuel rest out dotdot
    else if c.toNat = 46 ∧ (rest = [] ∨ rest.head? = some Separator) then
      cleanLoop rooted fuel rest out dotdot
    else if c.toNat = 46 ∧ rest.head? = some 46
        ∧ (rest.tail = [] ∨ rest.tail.head? = some Separator) then
      if dotdot < out.length then
        cleanLoop rooted fuel rest.tail (out.take (backtrack out dotdot (out.length - 1))) dotdot
      else if ¬ rooted then
        let out1 := (if 0 < out.length then out ++ [Separator] else out) ++ [46, 46]
        cleanLoop rooted fuel rest.tail out1 out1.length
      else cleanLoop rooted fuel rest.tail out dotdot
    else
      let out1 :=
        if (rooted ∧ out.length ≠ 1) ∨ (¬ rooted ∧ out.length ≠ 0) then out ++ [Separator] else out
      cleanLoop rooted fuel ((c :: rest).dropWhile (· ≠ Separator))
        (out1 ++ (c :: rest).takeWhile (· ≠ Separator)) dotdot

/-- The function `filepath.Clean`: the shortest path equivalent to `path` by
lexical processing. -/
def Clean (path : Bytes) : Bytes :=
  match path with
  | [] => [46]
  | c :: rest =>
    let out :=
      if c = Separator then cleanLoop true path.length rest [Separator] 1
      else cleanLoop false path.length path [] 0
    if out.length = 0 then [46] else out

/-- The function `strings.Join` with the separator `/`. -/
def joinSep : List Bytes → Bytes
  | [] => []
  | [e] => e
  | e :: rest => e ++ Separator :: joinSep rest

/-- The function `filepath.Join`: the elements from the first non-empty one
on, joined by separators and cleaned; the empty string if all are empty. -/
def Join : List Bytes → Bytes
  | [] => []
  | e :: rest => if e = [] then Join rest else Clean (joinSep (e :: rest))

/-- The function `filepath.IsAbs` of a Unix host: the path begins with the
separator. -/
def IsAbs (path : Bytes) : Bool :=
  match path with
  | [] => false
  | c :: _ => decide (c = Separator)

/-- The file a path names when a process with working directory `wd` hands it
to `os.Stat` or `os.ReadFile` (path resolution of a Unix host): an absolute
path names itself, any other path is looked up from `wd`. -/
def locate (wd path : Bytes) : Bytes :=
  if IsAbs path then path else wd ++ Separator :: path

end Filepath

/-! ## `serverinfo.go` -/

/-- The payload structure `Payload`; the field `Type` is spelled `Type_`. -/
structure Payload where
  Type_ : Bytes
  Version : Bytes
  Hash : Bytes
deriving DecidableEq, Repr

/-- The response structure `Response`; the field `Type` is spelled `Type_`. -/
structure Response where
  Type_ : Bytes
  Version : Bytes
  Hash : Bytes
  Content : Bytes
deriving DecidableEq, Repr

/-- The constant `collectionName`. -/
def collectionName : Bytes := asc "ZeptoLabVersionChecker"

/-- The JSON names in the field tags of `Payload`. -/
def Payload.jsonNames : List Bytes := [asc "type", asc "version", asc "hash"]

/-- The JSON names in the field tags of `Response`. -/
def Response.jsonNames : List Bytes := [asc "type", asc "version", asc "hash", asc "content"]

/-- The call `json.Unmarshal(data, &p)` on a zero `Payload`. -/
def Payload.Unmarshal (data : Bytes) : Except Json.JsonError Payload :=
  match Json.Unmarshal Payload.jsonNames data with
  | Except.error e => Except.error e
  | Except.ok vals => Except.ok ⟨vals.getD 0 [], vals.getD 1 [], vals.getD 2 []⟩

/-- The call `json.Unmarshal(data, &response)` on a zero `Response`, as the
repository's test makes it on the handler's result. -/
def Response.Unmarshal (data : Bytes) : Except Json.JsonError Response :=
  match Json.Unmarshal Response.jsonNames data with
  | Except.error e => Except.error e
  | Except.ok vals => Except.ok ⟨vals.getD 0 [], vals.getD 1 [], vals.getD 2 [], vals.getD 3 []⟩

/-- The call `json.Marshal(response)`: the object with the four fields in
declaration order, each a string literal.  The error result is kept as the
signature has it. -/
def Response.Marshal (r : Response) : Except String Bytes :=
  Except.ok (asc "\x7b\"type\":" ++ Json.appendString r.Type_
    ++ asc ",\"version\":" ++ Json.appendString r.Version
    ++ asc ",\"hash\":" ++ Json.appendString r.Hash
    ++ asc ",\"content\":" ++ Json.appendString r.Content ++ asc "\x7d")

/-- An error of the `os` package, by the text of its `Error` method. -/
structure OsError where
  msg : String
deriving DecidableEq, Repr

/-- An `error` value the handler returns: the decoder's error as it is, or an
error built by `fmt.Errorf`, by its text. -/
inductive GoError where
  | unmarshal (e : Json.JsonError)
  | errorf (msg : String)
deriving DecidableEq, Repr

/-- The text of an error built by `fmt.Errorf`. -/
def GoError.text : GoError → Option String
  | GoError.unmarshal _ => none
  | GoError.errorf msg => some msg

/-- One object of a storage write, `runtime.StorageWrite`, with the fields the
handler sets. -/
structure StorageWrite where
  Collection : Bytes
  Key : Bytes
  UserID : Bytes
  Value : Bytes
deriving DecidableEq, Repr

/-- An argument of a log call. -/
inductive LogArg where
  | err (e : GoError)
  | osErr (e : OsError)
  | str (s : Bytes)
  | response (r : Response)
deriving DecidableEq, Repr

/-- The calls the handler makes on the host, in order: log lines, the two file
system calls, and the storage write. -/
inductive Event where
  | logError (format : String) (args : List LogArg)
  | logInfo (format : String) (args : List LogArg)
  | logWithFieldError (key : String) (err : String) (format : String)
  | stat (path : Bytes)
  | readFile (path : Bytes)
  | storageWrite (writes : List StorageWrite)
deriving DecidableEq, Repr

/-- The host as the handler sees it during one call: what `os.Stat` and
`os.ReadFile` answer for the path handed to them (the file that path names in
the process is given by `Filepath.locate`), and the error `nk.StorageWrite`
answers with (`none` for `nil`).  Logger calls return normally and are
recorded as events. -/
structure Env where
  stat : Bytes → Option OsError
  readFile : Bytes → Except OsError Bytes
  storageWrite : List StorageWrite → Option String

/-- What a call of the handler amounts to: the two results and the calls made
on the host. -/
structure Outcome where
  out : Bytes
  err : Option GoError
  events : List Event
deriving DecidableEq, Repr

/-- The function `saveToDB`: the events of writing `response` to storage. -/
def saveToDB (env : Env) (p : Payload) (response : Bytes) : List Event :=
  let userID := asc "00000000-0000-0000-0000-000000000000"
  let key := p.Type_ ++ asc "/" ++ p.Version
  let objectIDs : List StorageWrite := [⟨collectionName, key, userID, response⟩]
  match env.storageWrite objectIDs with
  | some err =>
    [Event.storageWrite objectIDs, Event.logWithFieldError "err" err "Storage write error."]
  | none =>
    [Event.storageWrite objectIDs,
     Event.logInfo "Write data to storage successfully: [Collection: %s, Key:%s, Value: %s]"
       [LogArg.str collectionName, LogArg.str key, LogArg.str response]]

/-- The block "Set default values if not provided" of `VersionChecker`: an
empty `Type` becomes `core`, an empty `Version` becomes `1.0.0`. -/
def setDefaults (p0 : Payload) : Payload :=
  let p1 : Payload := if p0.Type_ = [] then { p0 with Type_ := asc "core" } else p0
  if p1.Version = [] then { p1 with Version := asc "1.0.0" } else p1

/-- The line "Construct file path" of `VersionChecker`:
`filepath.Join(p.Type, p.Version+".json")`. -/
def filePath (p : Payload) : Bytes :=
  Filepath.Join [p.Type_, p.Version ++ asc ".json"]

/-- The lines "Calculate content hash" to "set content to null" of
`VersionChecker`: the response for payload `p` (defaults set) and file content
`content`, with the content blanked if `p.Hash` is empty or differs from the
hash. -/
def buildResponse (p : Payload) (content : Bytes) : Response :=
  let hash := sprintfHex (Sha256.Sum256 content)
  let response : Response := ⟨p.Type_, p.Version, hash, content⟩
  if p.Hash = [] ∨ p.Hash ≠ hash then { response with Content := [] } else response

/-- The RPC function `VersionChecker`. -/
def VersionChecker (env : Env) (payload : Bytes) : Outcome :=
  match Payload.Unmarshal payload with
  | Except.error err =>
    ⟨[], some (GoError.unmarshal err),
      [Event.logError "problem with unmarshal: %s" [LogArg.err (GoError.unmarshal err)]]⟩
  | Except.ok p0 =>
    let p := setDefaults p0
    match env.stat (filePath p) with
    | some err =>
      ⟨[], some (GoError.errorf ("file not found: " ++ err.msg)),
        [Event.stat (filePath p), Event.logError "file not found: %s" [LogArg.osErr err]]⟩
    | none =>
      match env.readFile (filePath p) with
      | Except.error err =>
        ⟨[], some (GoError.errorf ("failed to read file: " ++ err.msg)),
          [Event.stat (filePath p), Event.readFile (filePath p),
           Event.logError "failed to read file: %s" [LogArg.osErr err]]⟩
      | Except.ok content =>
        let hash := sprintfHex (Sha256.Sum256 content)
        let before :=
          [Event.stat (filePath p), Event.readFile (filePath p),
           Event.logInfo "File hash is: %s" [LogArg.str hash],
           Event.logInfo "responce: %s" [LogArg.response ⟨p.Type_, p.Version, hash, content⟩]]
        match (buildResponse p content).Marshal with
        | Except.error err =>
          ⟨[], some (GoError.errorf ("failed to marshal response: " ++ err)),
            before ++ [Event.logError "failed to marshal response: %s"
              [LogArg.err (GoError.errorf err)]]⟩
        | Except.ok responseJSON =>
          ⟨responseJSON, none, before ++ saveToDB env p responseJSON⟩

/-- Whether an event is a call of `nk.StorageWrite`. -/
def Event.isStorageWrite : Event → Bool
  | Event.storageWrite _ => true
  | _ => false

/-- Whether an event is a call of `os.Stat` or `os.ReadFile`. -/
def Event.isFileAccess : Event → Bool
  | Event.stat _ => true
  | Event.readFile _ => true
  | _ => false

/-- An example host: the files `test/1.0.0.json`, as the repository's test
writes it, `core/1.0.0.json` and `bin/1.0.0.json`, which holds the single byte
`0xff`; no other path exists; storage writes succeed. -/
def exampleEnv : Env where
  stat path :=
    if path = asc "test/1.0.0.json" ∨ path = asc "core/1.0.0.json"
        ∨ path = asc "bin/1.0.0.json" then none
    else some ⟨"no such file or directory"⟩
  readFile path :=
    if path = asc "test/1.0.0.json" then Except.ok (asc "\x7b\"content\": \"test content\"\x7d")
    else if path = asc "core/1.0.0.json" then Except.ok (asc "\x7b\x7d")
    else if path = asc "bin/1.0.0.json" then Except.ok [255]
    else Except.error ⟨"no such file or directory"⟩
  storageWrite _ := none

/-- The payload `testPayload` of the repository's test: type `test`, version
`1.0.0`, and the hash of the test file. -/
def testPayload : Bytes :=
  asc ("\x7b\"type\": \"test\", \"version\": \"1.0.0\", \"hash\": "
    ++ "\"2f713eb06fb4e9f199cdd7cf3972dea686459f56306ce22d8114008370bf471b\"\x7d")

/-- The content the repository's test writes to `test/1.0.0.json`. -/
def testContent : Bytes := asc "\x7b\"content\": \"test content\"\x7d"

/-- A payload asking for type `bin` with the hash of the single byte `0xff`. -/
def binPayload : Bytes :=
  asc ("\x7b\"type\": \"bin\", \"hash\": "
    ++ "\"a8100ae6aa1940d0b663bb31cd466142ebbdbd5187131b92d93818987832eb89\"\x7d")

/-- The payload of the repository's test case `DifferentHash`. -/
def differentHashPayload : Bytes :=
  asc "\x7b\"type\": \"test\", \"version\": \"1.0.0\", \"hash\": \"different_hash\"\x7d"

/-- A payload asking for the rooted type `/etc` and version `passwd`. -/
def rootedPayload : Bytes :=
  asc "\x7b\"type\": \"/etc\", \"version\": \"passwd\"\x7d"

/-- An example host with a file `/etc/passwd.json`; no other path exists. -/
def rootedEnv : Env where
  stat path := if path = asc "/etc/passwd.json" then none else some ⟨"no such file or directory"⟩
  readFile path :=
    if path = asc "/etc/passwd.json" then Except.ok (asc "root")
    else Except.error ⟨"no such file or directory"⟩
  storageWrite _ := none

/-- A payload asking for type `..` and version `x`. -/
def parentPayload : Bytes :=
  asc "\x7b\"type\": \"..\", \"version\": \"x\"\x7d"

/-- An example host on which `core/1.0.0.json` is a directory: `os.Stat`
succeeds for it and `os.ReadFile` fails; no other path exists. -/
def directoryEnv : Env where
  stat path :=
    if path = asc "core/1.0.0.json" then none else some ⟨"no such file or directory"⟩
  readFile path :=
    if path = asc "core/1.0.0.json" then Except.error ⟨"read core/1.0.0.json: is a directory"⟩
    else Except.error ⟨"no such file or directory"⟩
  storageWrite _ := none

/-- An example host with a file `x.json` in the parent of the working
directory, holding `\x7b\x7d`; no other path exists. -/
def parentEnv : Env where
  stat path := if path = asc "../x.json" then none else some ⟨"no such file or directory"⟩
  readFile path :=
    if path = asc "../x.json" then Except.ok (asc "\x7b\x7d")
    else Except.error ⟨"no such file or directory"⟩
  storageWrite _ := none

/-- The response as the specification words it: the content is the file
content if the payload's hash is the computed hash, and the empty string
otherwise. -/
def buildResponseSpec (p : Payload) (content : Bytes) : Response :=
  ⟨p.Type_, p.Version, sprintfHex (Sha256.Sum256 content),
    if p.Hash = sprintfHex (Sha256.Sum256 content) then content else []⟩

/-- A character of the lower-case hexadecimal alphabet `0-9a-f`. -/
def isLowerHex (c : UInt8) : Bool :=
  decide (48 ≤ c.toNat ∧ c.toNat ≤ 57 ∨ 97 ≤ c.toNat ∧ c.toNat ≤ 102)

/-! ## Predicates used in the proofs -/

namespace Utf8

/-- A string made of encoded runes only. -/
inductive WellFormed : Bytes → Prop where
  | nil : WellFormed []
  | rune (r : Nat) (rest : Bytes) (h : WellFormed rest) : WellFormed (EncodeRune r ++ rest)

end Utf8

namespace Json

/-- One iteration of the encoder's loop: the bytes it writes, and the bytes
they stand for. -/
inductive Piece : Bytes → Bytes → Prop where
  | safe (b : UInt8) (h : htmlSafe b = true) : Piece [b] [b]
  | esc (b : UInt8) (hb : b.toNat < 128) (h : htmlSafe b = false) : Piece (escapeByte b) [b]
  | bad : Piece [92, 117, 102, 102, 102, 100] [239, 191, 189]
  | sep (r : Nat) (h : r = 8232 ∨ r = 8233) :
      Piece [92, 117, 50, 48, 50, hexDigit (r % 16)] (Utf8.EncodeRune r)
  | raw (p : Bytes) (r : Nat) (hlen : 2 ≤ p.length) (hhigh : ∀ x ∈ p, 128 ≤ x.toNat)
      (henc : Utf8.EncodeRune r = p) (hdec : ∀ t, Utf8.DecodeRune (p ++ t) = (r, p.length)) :
      Piece p p

/-- A sequence of pieces: what the encoder writes for a string, and the string
read back from it. -/
inductive Encodes : Bytes → Bytes → Prop where
  | nil : Encodes [] []
  | cons (e d E D : Bytes) (h : Piece e d) (t : Encodes E D) : Encodes (e ++ E) (d ++ D)

/-- Every field value is a well-formed string. -/
def AllWellFormed (vals : List Bytes) : Prop := ∀ v ∈ vals, Utf8.WellFormed v

end Json

/-! ## Bytes -/

theorem UInt8.toNat_lt_256 (b : UInt8) : b.toNat < 256 := UInt8.toNat_lt_size b

theorem UInt8.toNat_ofNat_mod (n : Nat) : (UInt8.ofNat n).toNat = n % 256 := rfl

theorem UInt8.eq_of_toNat {a b : UInt8} (h : a.toNat = b.toNat) : a = b := UInt8.ext_iff.mpr h

theorem UInt8.ofNat_eq_of_toNat (b : UInt8) (n : Nat) (h : n = b.toNat) : UInt8.ofNat n = b := by
  apply UInt8.eq_of_toNat
  rw [UInt8.toNat_ofNat_mod, h]
  exact Nat.mod_eq_of_lt (UInt8.toNat_lt_256 b)

namespace Utf8

theorem first_some (n sz lo hi : Nat) (h : first n = some (sz, lo, hi)) :
    194 ≤ n ∧ n ≤ 244 ∧ 128 ≤ lo ∧ hi ≤ 191 ∧
    ((sz = 2 ∧ n < 224) ∨
     (sz = 3 ∧ 224 ≤ n ∧ n < 240 ∧ (n = 224 → 160 ≤ lo) ∧ (n = 237 → hi ≤ 159)) ∨
     (sz = 4 ∧ 240 ≤ n ∧ (n = 240 → 144 ≤ lo) ∧ (n = 244 → hi ≤ 143))) := by
  unfold first at h
  split_ifs at h <;> simp only [Option.some.injEq, Prod.mk.injEq] at h <;>
    obtain ⟨rfl, rfl, rfl⟩ := h <;> omega

end Utf8

namespace Utf8

theorem DecodeRune_two (b b1 : UInt8) (rest : Bytes) (lo hi : Nat) (hb : 128 ≤ b.toNat)
    (hf : first b.toNat = some (2, lo, hi)) :
    DecodeRune (b :: b1 :: rest) =
      if b1.toNat < lo ∨ hi < b1.toNat then (RuneError, 1)
      else (b.toNat % 32 * 64 + b1.toNat % 64, 2) := by
  have hb' : ¬ b.toNat < 128 := by omega
  simp [DecodeRune, hb', hf]

theorem DecodeRune_three (b b1 b2 : UInt8) (rest : Bytes) (lo hi : Nat) (hb : 128 ≤ b.toNat)
    (hf : first b.toNat = some (3, lo, hi)) :
    DecodeRune (b :: b1 :: b2 :: rest) =
      if b1.toNat < lo ∨ hi < b1.toNat then (RuneError, 1)
      else if b2.toNat < 128 ∨ 191 < b2.toNat then (RuneError, 1)
      else (b.toNat % 16 * 4096 + b1.toNat % 64 * 64 + b2.toNat % 64, 3) := by
  have hb' : ¬ b.toNat < 128 := by omega
  simp [DecodeRune, hb', hf]

theorem DecodeRune_four (b b1 b2 b3 : UInt8) (rest : Bytes) (lo hi : Nat) (hb : 128 ≤ b.toNat)
    (hf : first b.toNat = some (4, lo, hi)) :
    DecodeRune (b :: b1 :: b2 :: b3 :: rest) =
      if b1.toNat < lo ∨ hi < b1.toNat then (RuneError, 1)
      else if b2.toNat < 128 ∨ 191 < b2.toNat then (RuneError, 1)
      else if b3.toNat < 128 ∨ 191 < b3.toNat then (RuneError, 1)
      else (b.toNat % 8 * 262144 + b1.toNat % 64 * 4096 + b2.toNat % 64 * 64 + b3.toNat % 64, 4) := by
  have hb' : ¬ b.toNat < 128 := by omega
  simp [DecodeRune, hb', hf]

theorem DecodeRune_short (b : UInt8) (rest : Bytes) (sz lo hi : Nat) (hb : 128 ≤ b.toNat)
    (hf : first b.toNat = some (sz, lo, hi)) (hlen : (b :: rest).length < sz) :
    DecodeRune (b :: rest) = (RuneError, 1) := by
  have hb' : ¬ b.toNat < 128 := by omega
  simp only [DecodeRune, hb', hf, if_false]
  rw [if_pos hlen]

end Utf8

namespace Utf8

theorem EncodeRune_one (v : Nat) (h : v ≤ 127) : EncodeRune v = [UInt8.ofNat v] := by
  simp [EncodeRune, h]

theorem EncodeRune_two (v : Nat) (h1 : 127 < v) (h2 : v ≤ 2047) :
    EncodeRune v = [UInt8.ofNat (192 + v / 64), UInt8.ofNat (128 + v % 64)] := by
  have : ¬ v ≤ 127 := by omega
  simp [EncodeRune, this, h2]

theorem EncodeRune_three (v : Nat) (h1 : 2047 < v) (h2 : v ≤ 65535)
    (h3 : ¬ (55296 ≤ v ∧ v ≤ 57343)) :
    EncodeRune v = [UInt8.ofNat (224 + v / 4096), UInt8.ofNat (128 + v / 64 % 64),
      UInt8.ofNat (128 + v % 64)] := by
  have a1 : ¬ v ≤ 127 := by omega
  have a2 : ¬ v ≤ 2047 := by omega
  have a3 : ¬ (MaxRune < v ∨ (55296 ≤ v ∧ v ≤ 57343)) := by unfold MaxRune; omega
  simp only [EncodeRune, a1, a2, a3, h2, if_false, if_true]

theorem EncodeRune_four (v : Nat) (h1 : 65535 < v) (h2 : v ≤ 1114111) :
    EncodeRune v = [UInt8.ofNat (240 + v / 262144), UInt8.ofNat (128 + v / 4096 % 64),
      UInt8.ofNat (128 + v / 64 % 64), UInt8.ofNat (128 + v % 64)] := by
  have a1 : ¬ v ≤ 127 := by omega
  have a2 : ¬ v ≤ 2047 := by omega
  have a3 : ¬ (MaxRune < v ∨ (55296 ≤ v ∧ v ≤ 57343)) := by unfold MaxRune; omega
  have a4 : ¬ v ≤ 65535 := by omega
  simp only [EncodeRune, a1, a2, a3, a4, if_false]

theorem EncodeRune_bad (v : Nat) (h : 1114111 < v ∨ (55296 ≤ v ∧ v ≤ 57343)) :
    EncodeRune v = [239, 191, 189] := by
  have a1 : ¬ v ≤ 127 := by omega
  have a2 : ¬ v ≤ 2047 := by omega
  have a3 : MaxRune < v ∨ (55296 ≤ v ∧ v ≤ 57343) := by unfold MaxRune; omega
  simp only [EncodeRune, a1, a2, a3, if_false, if_true]

theorem DecodeRune_valid (b : UInt8) (rest : Bytes) (hb : 128 ≤ b.toNat)
    (h : ¬ ((DecodeRune (b :: rest)).1 = RuneError ∧ (DecodeRune (b :: rest)).2 = 1)) :
    2 ≤ (DecodeRune (b :: rest)).2 ∧ (DecodeRune (b :: rest)).2 ≤ (b :: rest).length
      ∧ EncodeRune (DecodeRune (b :: rest)).1 = (b :: rest).take (DecodeRune (b :: rest)).2
      ∧ (∀ x ∈ (b :: rest).take (DecodeRune (b :: rest)).2, 128 ≤ x.toNat)
      ∧ ∀ t, DecodeRune ((b :: rest).take (DecodeRune (b :: rest)).2 ++ t)
          = DecodeRune (b :: rest) := by
  have hb' : ¬ b.toNat < 128 := by omega
  rcases hf : first b.toNat with _ | ⟨sz, lo, hi⟩
  · simp [DecodeRune, hb', hf] at h
  · have hs := first_some _ _ _ _ hf
    obtain ⟨h194, h244, hlo, hhi, hsz⟩ := hs
    rcases hsz with ⟨rfl, hn⟩ | ⟨rfl, hn1, hn2, he0, hed⟩ | ⟨rfl, hn1, hf0, hf4⟩
    · -- two bytes
      rcases rest with _ | ⟨b1, rest1⟩
      · exact absurd (by rw [DecodeRune_short b [] 2 lo hi hb hf (by simp)]; exact ⟨rfl, rfl⟩) h
      · rw [DecodeRune_two b b1 rest1 lo hi hb hf] at h ⊢
        by_cases hc : b1.toNat < lo ∨ hi < b1.toNat
        · rw [if_pos hc] at h; exact absurd ⟨rfl, rfl⟩ h
        · rw [if_neg hc]
          have e : EncodeRune (b.toNat % 32 * 64 + b1.toNat % 64) = [b, b1] := by
            rw [EncodeRune_two _ (by omega) (by omega)]
            rw [UInt8.ofNat_eq_of_toNat b _ (by omega), UInt8.ofNat_eq_of_toNat b1 _ (by omega)]
          refine ⟨by simp, by simp, by simpa using e, ?_, ?_⟩
          · intro x hx
            simp at hx
            rcases hx with rfl | rfl <;> omega
          · intro t
            simp only [List.take_succ_cons, List.take_zero, List.cons_append, List.nil_append]
            rw [DecodeRune_two b b1 t lo hi hb hf, if_neg hc]
    · -- three bytes
      rcases rest with _ | ⟨b1, _ | ⟨b2, rest2⟩⟩
      · exact absurd (by rw [DecodeRune_short b [] 3 lo hi hb hf (by simp)]; exact ⟨rfl, rfl⟩) h
      · exact absurd (by rw [DecodeRune_short b [b1] 3 lo hi hb hf (by simp)]; exact ⟨rfl, rfl⟩) h
      · rw [DecodeRune_three b b1 b2 rest2 lo hi hb hf] at h ⊢
        by_cases hc : b1.toNat < lo ∨ hi < b1.toNat
        · rw [if_pos hc] at h; exact absurd ⟨rfl, rfl⟩ h
        · rw [if_neg hc] at h ⊢
          by_cases hc2 : b2.toNat < 128 ∨ 191 < b2.toNat
          · rw [if_pos hc2] at h; exact absurd ⟨rfl, rfl⟩ h
          · rw [if_neg hc2]
            have e : EncodeRune (b.toNat % 16 * 4096 + b1.toNat % 64 * 64 + b2.toNat % 64)
                = [b, b1, b2] := by
              rw [EncodeRune_three _ (by omega) (by omega) (by omega)]
              rw [UInt8.ofNat_eq_of_toNat b _ (by omega), UInt8.ofNat_eq_of_toNat b1 _ (by omega),
                UInt8.ofNat_eq_of_toNat b2 _ (by omega)]
            refine ⟨by simp, by simp, by simpa using e, ?_, ?_⟩
            · intro x hx
              simp at hx
              rcases hx with rfl | rfl | rfl <;> omega
            · intro t
              simp only [List.take_succ_cons, List.take_zero, List.cons_append, List.nil_append]
              rw [DecodeRune_three b b1 b2 t lo hi hb hf, if_neg hc, if_neg hc2]
    · -- four bytes
      rcases rest with _ | ⟨b1, _ | ⟨b2, _ | ⟨b3, rest3⟩⟩⟩
      · exact absurd (by rw [DecodeRune_short b [] 4 lo hi hb hf (by simp)]; exact ⟨rfl, rfl⟩) h
      · exact absurd (by rw [DecodeRune_short b [b1] 4 lo hi hb hf (by simp)]; exact ⟨rfl, rfl⟩) h
      · exact absurd
          (by rw [DecodeRune_short b [b1, b2] 4 lo hi hb hf (by simp)]; exact ⟨rfl, rfl⟩) h
      · rw [DecodeRune_four b b1 b2 b3 rest3 lo hi hb hf] at h ⊢
        by_cases hc : b1.toNat < lo ∨ hi < b1.toNat
        · rw [if_pos hc] at h; exact absurd ⟨rfl, rfl⟩ h
        · rw [if_neg hc] at h ⊢
          by_cases hc2 : b2.toNat < 128 ∨ 191 < b2.toNat
          · rw [if_pos hc2] at h; exact absurd ⟨rfl, rfl⟩ h
          · rw [if_neg hc2] at h ⊢
            by_cases hc3 : b3.toNat < 128 ∨ 191 < b3.toNat
            · rw [if_pos hc3] at h; exact absurd ⟨rfl, rfl⟩ h
            · rw [if_neg hc3]
              have e : EncodeRune (b.toNat % 8 * 262144 + b1.toNat % 64 * 4096
                  + b2.toNat % 64 * 64 + b3.toNat % 64) = [b, b1, b2, b3] := by
                rw [EncodeRune_four _ (by omega) (by omega)]
                rw [UInt8.ofNat_eq_of_toNat b _ (by omega),
                  UInt8.ofNat_eq_of_toNat b1 _ (by omega),
                  UInt8.ofNat_eq_of_toNat b2 _ (by omega),
                  UInt8.ofNat_eq_of_toNat b3 _ (by omega)]
              refine ⟨by simp, by simp, by simpa using e, ?_, ?_⟩
              · intro x hx
                simp at hx
                rcases hx with rfl | rfl | rfl | rfl <;> omega
              · intro t
                simp only [List.take_succ_cons, List.take_zero, List.cons_append, List.nil_append]
                rw [DecodeRune_four b b1 b2 b3 t lo hi hb hf, if_neg hc, if_neg hc2, if_neg hc3]

end Utf8

/-! ## The step bounds of the loops are enough -/

namespace Utf8

theorem coerceLoop_fuel (n m : Nat) (s : Bytes) (hn : s.length ≤ n) (hm : s.length ≤ m) :
    coerceLoop n s = coerceLoop m s := by
  induction n generalizing m s with
  | zero =>
    cases s with
    | nil => cases m <;> rfl
    | cons b rest => simp at hn
  | succ n ih =>
    cases s with
    | nil => cases m <;> rfl
    | cons b rest =>
      cases m with
      | zero => simp at hm
      | succ m =>
        simp only [List.length_cons, Nat.add_le_add_iff_right] at hn hm
        simp only [coerceLoop]
        rw [ih m (rest.drop _) (by simp; omega) (by simp; omega)]

theorem validLoop_fuel (n m : Nat) (s : Bytes) (hn : s.length ≤ n) (hm : s.length ≤ m) :
    validLoop n s = validLoop m s := by
  induction n generalizing m s with
  | zero =>
    cases s with
    | nil => cases m <;> rfl
    | cons b rest => simp at hn
  | succ n ih =>
    cases s with
    | nil => cases m <;> rfl
    | cons b rest =>
      cases m with
      | zero => simp at hm
      | succ m =>
        simp only [List.length_cons, Nat.add_le_add_iff_right] at hn hm
        simp only [validLoop]
        rw [ih m (rest.drop _) (by simp; omega) (by simp; omega)]

theorem coerce_nil : coerce [] = [] := rfl

theorem coerce_cons (b : UInt8) (rest : Bytes) :
    coerce (b :: rest) = EncodeRune (DecodeRune (b :: rest)).1
      ++ coerce (rest.drop ((DecodeRune (b :: rest)).2 - 1)) := by
  simp only [coerce, List.length_cons, coerceLoop]
  rw [coerceLoop_fuel rest.length _ (rest.drop _) (by simp) (Nat.le_refl _)]

theorem Valid_cons (b : UInt8) (rest : Bytes) :
    Valid (b :: rest) =
      if (DecodeRune (b :: rest)).1 = RuneError ∧ (DecodeRune (b :: rest)).2 = 1 then false
      else Valid (rest.drop ((DecodeRune (b :: rest)).2 - 1)) := by
  simp only [Valid, List.length_cons, validLoop]
  rw [validLoop_fuel rest.length _ (rest.drop _) (by simp) (Nat.le_refl _)]

end Utf8

namespace Json

theorem stringLoop_fuel (n m : Nat) (s : Bytes) (hn : s.length ≤ n) (hm : s.length ≤ m) :
    stringLoop n s = stringLoop m s := by
  induction n generalizing m s with
  | zero =>
    cases s with
    | nil => cases m <;> rfl
    | cons b rest => simp at hn
  | succ n ih =>
    cases s with
    | nil => cases m <;> rfl
    | cons b rest =>
      cases m with
      | zero => simp at hm
      | succ m =>
        simp only [List.length_cons, Nat.add_le_add_iff_right] at hn hm
        simp only [stringLoop]
        rw [ih m rest hn hm, ih m (rest.drop _) (by simp; omega) (by simp; omega)]

theorem stringBody_nil : stringBody [] = [] := rfl

theorem stringBody_cons (b : UInt8) (rest : Bytes) :
    stringBody (b :: rest) =
      if b.toNat < 128 then (if htmlSafe b then [b] else escapeByte b) ++ stringBody rest
      else if (Utf8.DecodeRune ((b :: rest).take 4)).1 = Utf8.RuneError
          ∧ (Utf8.DecodeRune ((b :: rest).take 4)).2 = 1 then
        [92, 117, 102, 102, 102, 100] ++ stringBody rest
      else if (Utf8.DecodeRune ((b :: rest).take 4)).1 = 8232
          ∨ (Utf8.DecodeRune ((b :: rest).take 4)).1 = 8233 then
        [92, 117, 50, 48, 50, hexDigit ((Utf8.DecodeRune ((b :: rest).take 4)).1 % 16)]
          ++ stringBody (rest.drop ((Utf8.DecodeRune ((b :: rest).take 4)).2 - 1))
      else
        (b :: rest).take (Utf8.DecodeRune ((b :: rest).take 4)).2
          ++ stringBody (rest.drop ((Utf8.DecodeRune ((b :: rest).take 4)).2 - 1)) := by
  simp only [stringBody, List.length_cons, stringLoop]
  rw [stringLoop_fuel rest.length _ (rest.drop _) (by simp) (Nat.le_refl _)]

end Json

namespace Utf8

theorem DecodeRune_ascii (b : UInt8) (rest : Bytes) (hb : b.toNat < 128) :
    DecodeRune (b :: rest) = (b.toNat, 1) := by
  simp [DecodeRune, hb]

theorem DecodeRune_take_four (b : UInt8) (rest : Bytes) :
    DecodeRune ((b :: rest).take 4) = DecodeRune (b :: rest) := by
  rcases rest with _ | ⟨b1, _ | ⟨b2, _ | ⟨b3, rest3⟩⟩⟩
  · rfl
  · rfl
  · rfl
  · simp only [List.take_succ_cons, List.take_zero]
    by_cases hb : b.toNat < 128
    · rw [DecodeRune_ascii _ _ hb, DecodeRune_ascii _ _ hb]
    · rcases hf : first b.toNat with _ | ⟨sz, lo, hi⟩
      · simp [DecodeRune, hb, hf]
      · have hs := first_some _ _ _ _ hf
        obtain ⟨-, -, -, -, hsz⟩ := hs
        have hb' : 128 ≤ b.toNat := by omega
        rcases hsz with ⟨rfl, -⟩ | ⟨rfl, -⟩ | ⟨rfl, -⟩
        · rw [DecodeRune_two b b1 _ lo hi hb' hf, DecodeRune_two b b1 _ lo hi hb' hf]
        · rw [DecodeRune_three b b1 b2 _ lo hi hb' hf, DecodeRune_three b b1 b2 _ lo hi hb' hf]
        · rw [DecodeRune_four b b1 b2 b3 _ lo hi hb' hf, DecodeRune_four b b1 b2 b3 _ lo hi hb' hf]

theorem DecodeRune_size_pos (b : UInt8) (rest : Bytes) : 1 ≤ (DecodeRune (b :: rest)).2 := by
  by_cases hb : b.toNat < 128
  · rw [DecodeRune_ascii _ _ hb]
  · by_cases h : (DecodeRune (b :: rest)).1 = RuneError ∧ (DecodeRune (b :: rest)).2 = 1
    · omega
    · have := (DecodeRune_valid b rest (by omega) h).1
      omega

end Utf8

/-! ## The pieces of an encoded string -/

namespace Json

theorem encodes_stringBody_aux (n : Nat) :
    ∀ s : Bytes, s.length ≤ n → Encodes (stringBody s) (Utf8.coerce s) := by
  induction n with
  | zero =>
    intro s hs
    cases s with
    | nil => exact Encodes.nil
    | cons b rest => simp at hs
  | succ n ih =>
    intro s hs
    cases s with
    | nil => exact Encodes.nil
    | cons b rest =>
      simp only [List.length_cons, Nat.add_le_add_iff_right] at hs
      rw [stringBody_cons, Utf8.coerce_cons, Utf8.DecodeRune_take_four]
      by_cases hb : b.toNat < 128
      · rw [if_pos hb, Utf8.DecodeRune_ascii _ _ hb]
        have e1 : Utf8.EncodeRune b.toNat = [b] := by
          rw [Utf8.EncodeRune_one _ (by omega), UInt8.ofNat_eq_of_toNat b _ rfl]
        simp only [e1, Nat.sub_self, List.drop_zero]
        by_cases hsafe : htmlSafe b = true
        · rw [if_pos hsafe]
          exact Encodes.cons _ _ _ _ (Piece.safe b hsafe) (ih rest hs)
        · rw [if_neg hsafe]
          exact Encodes.cons _ _ _ _ (Piece.esc b hb (by simpa using hsafe)) (ih rest hs)
      · rw [if_neg hb]
        by_cases hbad : (Utf8.DecodeRune (b :: rest)).1 = Utf8.RuneError
            ∧ (Utf8.DecodeRune (b :: rest)).2 = 1
        · rw [if_pos hbad, hbad.1, hbad.2]
          simp only [Nat.sub_self, List.drop_zero]
          have e1 : Utf8.EncodeRune Utf8.RuneError = [239, 191, 189] := by decide
          rw [e1]
          exact Encodes.cons _ _ _ _ Piece.bad (ih rest hs)
        · rw [if_neg hbad]
          obtain ⟨h2, hle, henc, hhigh, hdec⟩ := Utf8.DecodeRune_valid b rest (by omega) hbad
          have hle' : (Utf8.DecodeRune (b :: rest)).2 ≤ rest.length + 1 := by simpa using hle
          have htail : (rest.drop ((Utf8.DecodeRune (b :: rest)).2 - 1)).length ≤ n := by
            simp; omega
          by_cases hsep : (Utf8.DecodeRune (b :: rest)).1 = 8232
              ∨ (Utf8.DecodeRune (b :: rest)).1 = 8233
          · rw [if_pos hsep]
            exact Encodes.cons _ _ _ _ (Piece.sep _ hsep) (ih _ htail)
          · rw [if_neg hsep, henc]
            refine Encodes.cons _ _ _ _ (Piece.raw _ (Utf8.DecodeRune (b :: rest)).1 ?_ hhigh henc ?_)
              (ih _ htail)
            · rw [List.length_take, List.length_cons, Nat.min_eq_left hle']; exact h2
            · intro t
              rw [hdec t, List.length_take, List.length_cons, Nat.min_eq_left hle']

theorem encodes_stringBody (s : Bytes) : Encodes (stringBody s) (Utf8.coerce s) :=
  encodes_stringBody_aux s.length s (Nat.le_refl _)

end Json

namespace Json

theorem hexDigit_toNat (n : Nat) (h : n < 16) :
    (hexDigit n).toNat = if n < 10 then 48 + n else 87 + n := by
  unfold hexDigit
  split <;> rw [UInt8.toNat_ofNat_mod] <;> omega

theorem hexVal_hexDigit (n : Nat) (h : n < 16) : hexVal (hexDigit n) = some n := by
  have := hexDigit_toNat n h
  unfold hexVal
  split at this
  · rw [if_pos (by omega)]; congr 1; omega
  · rw [if_neg (by omega), if_pos (by omega)]; congr 1; omega

theorem isHex_hexDigit (n : Nat) (h : n < 16) : isHex (hexDigit n) = true := by
  have := hexDigit_toNat n h
  unfold isHex
  split at this <;> simp <;> omega

theorem htmlSafe_iff (b : UInt8) :
    htmlSafe b = true ↔ 32 ≤ b.toNat ∧ b.toNat < 128 ∧ b.toNat ≠ 34 ∧ b.toNat ≠ 38
      ∧ b.toNat ≠ 60 ∧ b.toNat ≠ 62 ∧ b.toNat ≠ 92 := by
  simp [htmlSafe]

theorem unquoteLoop_succ_cons (fuel : Nat) (c : UInt8) (cs : Bytes) :
    unquoteLoop (fuel + 1) (c :: cs) =
      if c.toNat = 92 then
        match cs with
        | [] => none
        | e :: cs1 =>
          if e.toNat = 34 ∨ e.toNat = 92 ∨ e.toNat = 47 ∨ e.toNat = 39 then
            (unquoteLoop fuel cs1).map (e :: ·)
          else if e.toNat = 98 then (unquoteLoop fuel cs1).map (8 :: ·)
          else if e.toNat = 102 then (unquoteLoop fuel cs1).map (12 :: ·)
          else if e.toNat = 110 then (unquoteLoop fuel cs1).map (10 :: ·)
          else if e.toNat = 114 then (unquoteLoop fuel cs1).map (13 :: ·)
          else if e.toNat = 116 then (unquoteLoop fuel cs1).map (9 :: ·)
          else if e.toNat = 117 then
            match getu4 (c :: cs) with
            | none => none
            | some rr =>
              if isSurrogate rr then
                if utf16DecodeRune rr (getu4 (cs1.drop 4)) ≠ Utf8.RuneError then
                  (unquoteLoop fuel ((cs1.drop 4).drop 6)).map
                    (Utf8.EncodeRune (utf16DecodeRune rr (getu4 (cs1.drop 4))) ++ ·)
                else (unquoteLoop fuel (cs1.drop 4)).map (Utf8.EncodeRune Utf8.RuneError ++ ·)
              else (unquoteLoop fuel (cs1.drop 4)).map (Utf8.EncodeRune rr ++ ·)
          else none
      else if c.toNat = 34 ∨ c.toNat < 32 then none
      else if c.toNat < 128 then (unquoteLoop fuel cs).map (c :: ·)
      else
        (unquoteLoop fuel (cs.drop ((Utf8.DecodeRune (c :: cs)).2 - 1))).map
          (Utf8.EncodeRune (Utf8.DecodeRune (c :: cs)).1 ++ ·) := rfl

theorem unquoteLoop_plain (b : UInt8) (X : Bytes) (fuel : Nat) (h1 : 32 ≤ b.toNat)
    (h2 : b.toNat < 128) (h3 : b.toNat ≠ 34) (h4 : b.toNat ≠ 92) :
    unquoteLoop (fuel + 1) (b :: X) = (unquoteLoop fuel X).map ([b] ++ ·) := by
  have a : ¬ (b.toNat = 34 ∨ b.toNat < 32) := by omega
  rw [unquoteLoop_succ_cons]
  simp only [h4, a, h2, if_false, if_true, List.cons_append, List.nil_append]

theorem unquoteLoop_short (e c : UInt8) (X : Bytes) (fuel : Nat)
    (h : (e.toNat = 34 ∧ c = e) ∨ (e.toNat = 92 ∧ c = e) ∨ (e.toNat = 98 ∧ c = 8)
      ∨ (e.toNat = 102 ∧ c = 12) ∨ (e.toNat = 110 ∧ c = 10) ∨ (e.toNat = 114 ∧ c = 13)
      ∨ (e.toNat = 116 ∧ c = 9)) :
    unquoteLoop (fuel + 1) (92 :: e :: X) = (unquoteLoop fuel X).map ([c] ++ ·) := by
  have h92 : (92 : UInt8).toNat = 92 := rfl
  rcases h with ⟨h, rfl⟩ | ⟨h, rfl⟩ | ⟨h, rfl⟩ | ⟨h, rfl⟩ | ⟨h, rfl⟩ | ⟨h, rfl⟩ | ⟨h, rfl⟩ <;>
    (rw [unquoteLoop_succ_cons]; simp [h92, h])

end Json

namespace Json

theorem getu4_low (b : UInt8) (X : Bytes) (hb : b.toNat < 128) :
    getu4 (92 :: 117 :: 48 :: 48 :: hexDigit (b.toNat / 16) :: hexDigit (b.toNat % 16) :: X)
      = some b.toNat := by
  have h1 : hexVal (hexDigit (b.toNat / 16)) = some (b.toNat / 16) :=
    hexVal_hexDigit _ (by omega)
  have h2 : hexVal (hexDigit (b.toNat % 16)) = some (b.toNat % 16) :=
    hexVal_hexDigit _ (by omega)
  have h0 : hexVal 48 = some 0 := by decide
  have a : (92 : UInt8).toNat = 92 ∧ (117 : UInt8).toNat = 117 := ⟨rfl, rfl⟩
  simp only [getu4, a, and_self, if_true, h0, h1, h2]
  congr 1
  omega

theorem unquoteLoop_escapeByte (b : UInt8) (X : Bytes) (fuel : Nat) (hb : b.toNat < 128)
    (h : htmlSafe b = false) :
    unquoteLoop (fuel + 1) (escapeByte b ++ X) = (unquoteLoop fuel X).map ([b] ++ ·) := by
  unfold escapeByte
  split_ifs with c1 c2 c3 c4 c5 c6
  · rcases c1 with c1 | c1
    · exact unquoteLoop_short b b X fuel (Or.inr (Or.inl ⟨c1, rfl⟩))
    · exact unquoteLoop_short b b X fuel (Or.inl ⟨c1, rfl⟩)
  · have : b = 8 := UInt8.eq_of_toNat c2
    subst this
    exact unquoteLoop_short 98 8 X fuel (by decide)
  · have : b = 12 := UInt8.eq_of_toNat c3
    subst this
    exact unquoteLoop_short 102 12 X fuel (by decide)
  · have : b = 10 := UInt8.eq_of_toNat c4
    subst this
    exact unquoteLoop_short 110 10 X fuel (by decide)
  · have : b = 13 := UInt8.eq_of_toNat c5
    subst this
    exact unquoteLoop_short 114 13 X fuel (by decide)
  · have : b = 9 := UInt8.eq_of_toNat c6
    subst this
    exact unquoteLoop_short 116 9 X fuel (by decide)
  · have hg := getu4_low b X hb
    have e1 : Utf8.EncodeRune b.toNat = [b] := by
      rw [Utf8.EncodeRune_one _ (by omega), UInt8.ofNat_eq_of_toNat b _ rfl]
    have hs : isSurrogate b.toNat = false := by simp [isSurrogate]; omega
    simp only [List.cons_append, List.nil_append]
    rw [unquoteLoop_succ_cons]
    have a92 : (92 : UInt8).toNat = 92 := rfl
    have a117 : (117 : UInt8).toNat = 117 := rfl
    simp only [a92, a117, if_true, hg, hs, e1]
    simp

end Json

namespace Json

theorem Piece.length_pos (e d : Bytes) (h : Piece e d) : 1 ≤ e.length := by
  cases h with
  | safe b h => simp
  | esc b hb h => unfold escapeByte; split_ifs <;> simp
  | bad => simp
  | sep r h => simp
  | raw p r hlen hhigh henc hdec => omega

theorem unquoteLoop_piece (e d : Bytes) (h : Piece e d) (fuel : Nat) (X : Bytes) :
    unquoteLoop (fuel + 1) (e ++ X) = (unquoteLoop fuel X).map (d ++ ·) := by
  cases h with
  | safe b h =>
    rw [htmlSafe_iff] at h
    exact unquoteLoop_plain b X fuel h.1 h.2.1 h.2.2.1 h.2.2.2.2.2.2
  | esc b hb h => exact unquoteLoop_escapeByte b X fuel hb h
  | bad =>
    simp only [List.cons_append, List.nil_append]
    rw [unquoteLoop_succ_cons]
    rfl
  | sep r h =>
    rcases h with rfl | rfl
    · simp only [List.cons_append, List.nil_append]
      rw [unquoteLoop_succ_cons]
      rfl
    · simp only [List.cons_append, List.nil_append]
      rw [unquoteLoop_succ_cons]
      rfl
  | raw p r hlen hhigh henc hdec =>
    rcases e with _ | ⟨x, p1⟩
    · simp at hlen
    · have hx : 128 ≤ x.toNat := hhigh x (by simp)
      have a1 : ¬ x.toNat = 92 := by omega
      have a2 : ¬ (x.toNat = 34 ∨ x.toNat < 32) := by omega
      have a3 : ¬ x.toNat < 128 := by omega
      have hd := hdec X
      simp only [List.cons_append] at hd ⊢
      rw [unquoteLoop_succ_cons]
      simp only [a1, a2, a3, if_false, hd, henc, List.length_cons, Nat.add_sub_cancel,
        List.drop_left, List.cons_append]

theorem unquoteLoop_encodes (E D : Bytes) (h : Encodes E D) :
    ∀ fuel, E.length ≤ fuel → unquoteLoop fuel E = some D := by
  induction h with
  | nil =>
    intro fuel _
    cases fuel <;> rfl
  | cons e d E D hp _ ih =>
    intro fuel hf
    have hpos := Piece.length_pos e d hp
    rw [List.length_append] at hf
    obtain ⟨fuel1, rfl⟩ : ∃ k, fuel = k + 1 := ⟨fuel - 1, by omega⟩
    rw [unquoteLoop_piece e d hp fuel1 E, ih fuel1 (by omega)]
    rfl

theorem unquoteBytes_stringBody (s : Bytes) :
    unquoteBytes (stringBody s) = some (Utf8.coerce s) :=
  unquoteLoop_encodes _ _ (encodes_stringBody s) _ (Nat.le_refl _)

end Json

namespace Json

theorem rescanString_cons (c : UInt8) (cs : Bytes) :
    rescanString (c :: cs) =
      if c.toNat = 92 then
        match cs with
        | [] => ([c], [])
        | e :: cs1 => (c :: e :: (rescanString cs1).1, (rescanString cs1).2)
      else if c.toNat = 34 then ([], cs)
      else (c :: (rescanString cs).1, (rescanString cs).2) := by
  conv => lhs; unfold rescanString
  rfl

theorem rescanString_plain (p X : Bytes) (hp : ∀ x ∈ p, x.toNat ≠ 92 ∧ x.toNat ≠ 34) :
    rescanString (p ++ X) = (p ++ (rescanString X).1, (rescanString X).2) := by
  induction p with
  | nil => rfl
  | cons x p ih =>
    have hx := hp x (by simp)
    rw [List.cons_append, rescanString_cons, if_neg hx.1, if_neg hx.2,
      ih (fun y hy => hp y (by simp [hy]))]
    rfl

theorem rescanString_escape (e : UInt8) (X : Bytes) :
    rescanString (92 :: e :: X) = (92 :: e :: (rescanString X).1, (rescanString X).2) := by
  rw [rescanString_cons]
  rfl

theorem hexDigit_plain (n : Nat) (h : n < 16) :
    (hexDigit n).toNat ≠ 92 ∧ (hexDigit n).toNat ≠ 34 := by
  have := hexDigit_toNat n h
  split at this <;> omega

theorem rescanString_piece (e d : Bytes) (h : Piece e d) (X : Bytes) :
    rescanString (e ++ X) = (e ++ (rescanString X).1, (rescanString X).2) := by
  cases h with
  | safe b h =>
    rw [htmlSafe_iff] at h
    exact rescanString_plain [b] X (by simp; omega)
  | esc b hb h =>
    unfold escapeByte
    split_ifs
    all_goals try exact rescanString_escape _ X
    have h1 := hexDigit_plain (b.toNat / 16) (by omega)
    have h2 := hexDigit_plain (b.toNat % 16) (by omega)
    simp only [List.cons_append, List.nil_append]
    have hp := rescanString_plain [48, 48, hexDigit (b.toNat / 16), hexDigit (b.toNat % 16)] X
        (by
          intro x hx
          simp at hx
          rcases hx with rfl | rfl | rfl
          · decide
          · exact h1
          · exact h2)
    simp only [List.cons_append, List.nil_append] at hp
    rw [rescanString_escape, hp]
  | bad =>
    have hp := rescanString_plain [102, 102, 102, 100] X (by decide)
    simp only [List.cons_append, List.nil_append] at hp ⊢
    rw [rescanString_escape, hp]
  | sep r h =>
    have hp := rescanString_plain [50, 48, 50, hexDigit (r % 16)] X
        (by
          intro x hx
          simp at hx
          rcases hx with rfl | rfl | rfl | rfl
          · decide
          · decide
          · decide
          · exact hexDigit_plain _ (by omega))
    simp only [List.cons_append, List.nil_append] at hp ⊢
    rw [rescanString_escape, hp]
  | raw p r hlen hhigh henc hdec =>
    exact rescanString_plain e X (fun x hx => by have := hhigh x hx; omega)

theorem rescanString_encodes (E D : Bytes) (h : Encodes E D) (rest : Bytes) :
    rescanString (E ++ 34 :: rest) = (E, rest) := by
  induction h with
  | nil =>
    rw [List.nil_append, rescanString_cons]
    rfl
  | cons e d E D hp _ ih =>
    rw [List.append_assoc, rescanString_piece e d hp, ih]

theorem rescanString_stringBody (s rest : Bytes) :
    rescanString (stringBody s ++ 34 :: rest) = (stringBody s, rest) :=
  rescanString_encodes _ _ (encodes_stringBody s) rest

end Json

namespace Json

theorem scanAll_cons (s : Scanner) (c : UInt8) (rest : Bytes) :
    scanAll s (c :: rest) =
      match (dispatch { s with bytes := s.bytes + 1 } c).err with
      | some _ => dispatch { s with bytes := s.bytes + 1 } c
      | none => scanAll (dispatch { s with bytes := s.bytes + 1 } c) rest := by
  conv => lhs; unfold scanAll

theorem scanAll_plain (ps : List ParseState) (et : Bool) (n : Nat) (c : UInt8) (X : Bytes)
    (h1 : 32 ≤ c.toNat) (h2 : c.toNat ≠ 34) (h3 : c.toNat ≠ 92) :
    scanAll ⟨Step.stateInString, ps, none, et, n⟩ (c :: X)
      = scanAll ⟨Step.stateInString, ps, none, et, n + 1⟩ X := by
  have a : ¬ c.toNat < 32 := by omega
  rw [scanAll_cons]
  simp only [dispatch, h2, h3, a, if_false]

theorem scanAll_plain_list (ps : List ParseState) (et : Bool) (p : Bytes) :
    ∀ (n : Nat) (X : Bytes), (∀ x ∈ p, 32 ≤ x.toNat ∧ x.toNat ≠ 34 ∧ x.toNat ≠ 92) →
    scanAll ⟨Step.stateInString, ps, none, et, n⟩ (p ++ X)
      = scanAll ⟨Step.stateInString, ps, none, et, n + p.length⟩ X := by
  induction p with
  | nil => intro n X _; rfl
  | cons x p ih =>
    intro n X hp
    have hx := hp x (by simp)
    rw [List.cons_append, scanAll_plain ps et n x _ hx.1 hx.2.1 hx.2.2,
      ih (n + 1) X (fun y hy => hp y (by simp [hy]))]
    simp only [List.length_cons]
    congr 2
    omega

theorem scanAll_backslash (ps : List ParseState) (et : Bool) (n : Nat) (X : Bytes) :
    scanAll ⟨Step.stateInString, ps, none, et, n⟩ (92 :: X)
      = scanAll ⟨Step.stateInStringEsc, ps, none, et, n + 1⟩ X := rfl

theorem scanAll_escU (ps : List ParseState) (et : Bool) (n : Nat) (X : Bytes) :
    scanAll ⟨Step.stateInStringEsc, ps, none, et, n⟩ (117 :: X)
      = scanAll ⟨Step.stateInStringEscU, ps, none, et, n + 1⟩ X := rfl

theorem scanAll_hex (st next : Step) (ps : List ParseState) (et : Bool) (n : Nat) (h : UInt8)
    (X : Bytes) (a : isHex h = true)
    (hst : ∀ (s : Scanner) (c : UInt8),
      dispatch { s with step := st } c = hexStep { s with step := st } c next) :
    scanAll ⟨st, ps, none, et, n⟩ (h :: X) = scanAll ⟨next, ps, none, et, n + 1⟩ X := by
  rw [scanAll_cons]
  have := hst ⟨st, ps, none, et, n + 1⟩ h
  simp only at this
  simp only [this, hexStep, a, if_true]

theorem scanAll_short (ps : List ParseState) (et : Bool) (n : Nat) (e : UInt8) (X : Bytes)
    (he : e.toNat = 98 ∨ e.toNat = 102 ∨ e.toNat = 110 ∨ e.toNat = 114 ∨ e.toNat = 116
        ∨ e.toNat = 92 ∨ e.toNat = 47 ∨ e.toNat = 34) :
    scanAll ⟨Step.stateInString, ps, none, et, n⟩ (92 :: e :: X)
      = scanAll ⟨Step.stateInString, ps, none, et, n + 2⟩ X := by
  rw [scanAll_backslash, scanAll_cons]
  simp only [dispatch, he, if_true]

theorem scanAll_u4 (ps : List ParseState) (et : Bool) (n : Nat) (h1 h2 h3 h4 : UInt8)
    (X : Bytes) (a1 : isHex h1 = true) (a2 : isHex h2 = true) (a3 : isHex h3 = true)
    (a4 : isHex h4 = true) :
    scanAll ⟨Step.stateInString, ps, none, et, n⟩ (92 :: 117 :: h1 :: h2 :: h3 :: h4 :: X)
      = scanAll ⟨Step.stateInString, ps, none, et, n + 6⟩ X := by
  rw [scanAll_backslash, scanAll_escU,
    scanAll_hex Step.stateInStringEscU Step.stateInStringEscU1 ps et _ h1 _ a1 (fun _ _ => rfl),
    scanAll_hex Step.stateInStringEscU1 Step.stateInStringEscU12 ps et _ h2 _ a2 (fun _ _ => rfl),
    scanAll_hex Step.stateInStringEscU12 Step.stateInStringEscU123 ps et _ h3 _ a3
      (fun _ _ => rfl),
    scanAll_hex Step.stateInStringEscU123 Step.stateInString ps et _ h4 _ a4 (fun _ _ => rfl)]

end Json

namespace Json

theorem scanAll_piece (e d : Bytes) (h : Piece e d) (ps : List ParseState) (et : Bool)
    (n : Nat) (X : Bytes) :
    scanAll ⟨Step.stateInString, ps, none, et, n⟩ (e ++ X)
      = scanAll ⟨Step.stateInString, ps, none, et, n + e.length⟩ X := by
  cases h with
  | safe b h =>
    rw [htmlSafe_iff] at h
    exact scanAll_plain ps et n b X h.1 h.2.2.1 h.2.2.2.2.2.2
  | esc b hb h =>
    unfold escapeByte
    split_ifs with c1
    · rcases c1 with c1 | c1
      · exact scanAll_short ps et n b X (by omega)
      · exact scanAll_short ps et n b X (by omega)
    · exact scanAll_short ps et n 98 X (by decide)
    · exact scanAll_short ps et n 102 X (by decide)
    · exact scanAll_short ps et n 110 X (by decide)
    · exact scanAll_short ps et n 114 X (by decide)
    · exact scanAll_short ps et n 116 X (by decide)
    · exact scanAll_u4 ps et n 48 48 _ _ X (by decide) (by decide)
        (isHex_hexDigit _ (by omega)) (isHex_hexDigit _ (by omega))
  | bad => exact scanAll_u4 ps et n 102 102 102 100 X (by decide) (by decide) (by decide) (by decide)
  | sep r h =>
    exact scanAll_u4 ps et n 50 48 50 _ X (by decide) (by decide) (by decide)
      (isHex_hexDigit _ (by omega))
  | raw p r hlen hhigh henc hdec =>
    exact scanAll_plain_list ps et e n X (fun x hx => by have := hhigh x hx; omega)

theorem scanAll_encodes (E D : Bytes) (h : Encodes E D) (ps : List ParseState) (et : Bool) :
    ∀ (n : Nat) (X : Bytes),
    scanAll ⟨Step.stateInString, ps, none, et, n⟩ (E ++ X)
      = scanAll ⟨Step.stateInString, ps, none, et, n + E.length⟩ X := by
  induction h with
  | nil => intro n X; rfl
  | cons e d E D hp _ ih =>
    intro n X
    rw [List.append_assoc, scanAll_piece e d hp, ih, List.length_append, Nat.add_assoc]

theorem scanAll_appendString (s : Bytes) (st : Step) (ps : List ParseState) (et : Bool)
    (n : Nat) (X : Bytes)
    (hst : ∀ (sc : Scanner), sc.err = none →
      dispatch { sc with step := st } 34 = { sc with step := Step.stateInString }) :
    scanAll ⟨st, ps, none, et, n⟩ (appendString s ++ X)
      = scanAll ⟨Step.stateEndValue, ps, none, et, n + (appendString s).length⟩ X := by
  unfold appendString
  rw [List.cons_append, scanAll_cons]
  have h1 := hst ⟨st, ps, none, et, n + 1⟩ rfl
  simp only at h1
  simp only [h1]
  rw [List.append_assoc, scanAll_encodes _ _ (encodes_stringBody s)]
  have h2 : ∀ m (Y : Bytes), scanAll ⟨Step.stateInString, ps, none, et, m⟩ (34 :: Y)
      = scanAll ⟨Step.stateEndValue, ps, none, et, m + 1⟩ Y := fun _ _ => rfl
  rw [List.singleton_append, h2]
  simp only [List.length_cons, List.length_append, List.length_nil]
  congr 2
  omega

end Json

/-! ## Decoding the encoded response -/

theorem Response.Marshal_eq (r : Response) :
    r.Marshal = Except.ok (asc "\x7b\"type\":" ++ (Json.appendString r.Type_
      ++ (asc ",\"version\":" ++ (Json.appendString r.Version
      ++ (asc ",\"hash\":" ++ (Json.appendString r.Hash
      ++ (asc ",\"content\":" ++ (Json.appendString r.Content ++ asc "\x7d")))))))) := by
  simp only [Response.Marshal, List.append_assoc]

namespace Json

theorem dispatch_beginValue_quote (sc : Scanner) (_h : sc.err = none) :
    dispatch { sc with step := Step.stateBeginValue } 34
      = { sc with step := Step.stateInString } := rfl

theorem checkValid_marshal (t v h c : Bytes) :
    checkValid (asc "\x7b\"type\":" ++ (appendString t
      ++ (asc ",\"version\":" ++ (appendString v
      ++ (asc ",\"hash\":" ++ (appendString h
      ++ (asc ",\"content\":" ++ (appendString c ++ asc "\x7d")))))))) = none := by
  have e1 : ∀ X, scanAll Scanner.reset (asc "\x7b\"type\":" ++ X)
      = scanAll ⟨Step.stateBeginValue, [ParseState.parseObjectValue], none, false, 8⟩ X :=
    fun _ => rfl
  have e2 : ∀ n X, scanAll ⟨Step.stateEndValue, [ParseState.parseObjectValue], none, false, n⟩
        (asc ",\"version\":" ++ X)
      = scanAll ⟨Step.stateBeginValue, [ParseState.parseObjectValue], none, false, n + 11⟩ X :=
    fun _ _ => rfl
  have e3 : ∀ n X, scanAll ⟨Step.stateEndValue, [ParseState.parseObjectValue], none, false, n⟩
        (asc ",\"hash\":" ++ X)
      = scanAll ⟨Step.stateBeginValue, [ParseState.parseObjectValue], none, false, n + 8⟩ X :=
    fun _ _ => rfl
  have e4 : ∀ n X, scanAll ⟨Step.stateEndValue, [ParseState.parseObjectValue], none, false, n⟩
        (asc ",\"content\":" ++ X)
      = scanAll ⟨Step.stateBeginValue, [ParseState.parseObjectValue], none, false, n + 11⟩ X :=
    fun _ _ => rfl
  have e5 : ∀ n, (scanAll ⟨Step.stateEndValue, [ParseState.parseObjectValue], none, false, n⟩
        (asc "\x7d")).eof = none :=
    fun _ => rfl
  unfold checkValid
  rw [e1, scanAll_appendString t _ _ _ _ _ dispatch_beginValue_quote,
    e2, scanAll_appendString v _ _ _ _ _ dispatch_beginValue_quote,
    e3, scanAll_appendString h _ _ _ _ _ dispatch_beginValue_quote,
    e4, scanAll_appendString c _ _ _ _ _ dispatch_beginValue_quote, e5]

end Json

namespace Json

theorem skipSpace_cons (c : UInt8) (cs : Bytes) (h : isSpace c = false) :
    skipSpace (c :: cs) = c :: cs := by
  simp [skipSpace, h]

theorem value_string (fields : List Bytes) (i : Nat) (st : DecodeState) (s rest : Bytes) :
    value fields (some i) st (appendString s ++ rest)
      = some ({ st with vals := st.vals.set i (Utf8.coerce s) }, rest) := by
  have a34 : (34 : UInt8).toNat = 34 := rfl
  simp only [appendString, List.cons_append, List.append_assoc, List.singleton_append, value,
    a34, if_true, rescanString_stringBody, unquoteBytes_stringBody, List.nil_append]

theorem object_succ (fields : List Bytes) (fuel : Nat) (st : DecodeState) (data : Bytes) :
    object fields (fuel + 1) st data =
      match skipSpace data with
      | [] => none
      | c :: cs =>
        if c.toNat = 125 then some (st, cs)
        else if c.toNat ≠ 34 then none
        else
          match unquoteBytes (rescanString cs).1 with
          | none => none
          | some key =>
            match skipSpace (rescanString cs).2 with
            | [] => none
            | c2 :: cs2 =>
              if c2.toNat ≠ 58 then none
              else
                match value fields (findField fields key) st (skipSpace cs2) with
                | none => none
                | some (st1, rest) =>
                  match skipSpace rest with
                  | [] => none
                  | c3 :: cs3 =>
                    if c3.toNat = 44 then object fields fuel st1 cs3
                    else if c3.toNat = 125 then some (st1, cs3)
                    else none := rfl

theorem rescanString_key (key rest : Bytes) (hk : ∀ x ∈ key, x.toNat ≠ 92 ∧ x.toNat ≠ 34) :
    rescanString (key ++ 34 :: rest) = (key, rest) := by
  have e : rescanString (34 :: rest) = ([], rest) := by
    rw [rescanString_cons]
    rfl
  rw [rescanString_plain key _ hk, e, List.append_nil]

/-- One member `"key":"literal"` of an object whose key names field `i`. -/
theorem object_member (fields : List Bytes) (fuel : Nat) (st : DecodeState) (key : Bytes)
    (i : Nat) (s rest : Bytes) (hk1 : ∀ x ∈ key, x.toNat ≠ 92 ∧ x.toNat ≠ 34)
    (hk2 : unquoteBytes key = some key) (hk3 : findField fields key = some i) :
    object fields (fuel + 1) st (34 :: (key ++ 34 :: 58 :: (appendString s ++ rest))) =
      match skipSpace rest with
      | [] => none
      | c3 :: cs3 =>
        if c3.toNat = 44 then
          object fields fuel { st with vals := st.vals.set i (Utf8.coerce s) } cs3
        else if c3.toNat = 125 then
          some ({ st with vals := st.vals.set i (Utf8.coerce s) }, cs3)
        else none := by
  have a34 : (34 : UInt8).toNat = 34 := rfl
  have a58 : (58 : UInt8).toNat = 58 := rfl
  have s34 : ∀ Y, skipSpace (34 :: Y) = 34 :: Y := fun Y => skipSpace_cons _ _ rfl
  have s58 : ∀ Y, skipSpace (58 :: Y) = 58 :: Y := fun Y => skipSpace_cons _ _ rfl
  have sq : skipSpace (appendString s ++ rest) = appendString s ++ rest := by
    unfold appendString
    exact s34 _
  rw [object_succ, s34]
  simp only [a34, Nat.reduceEqDiff, if_false, ne_eq, not_true_eq_false, rescanString_key _ _ hk1,
    hk2, s58, a58, sq, hk3, value_string]

end Json

namespace Json

theorem decode_marshal (t v h c : Bytes) :
    decode Response.jsonNames (asc "\x7b\"type\":" ++ (appendString t
      ++ (asc ",\"version\":" ++ (appendString v
      ++ (asc ",\"hash\":" ++ (appendString h
      ++ (asc ",\"content\":" ++ (appendString c ++ asc "\x7d"))))))))
      = some ⟨[Utf8.coerce t, Utf8.coerce v, Utf8.coerce h, Utf8.coerce c], none⟩ := by
  have k1 : ∀ X : Bytes, asc "\x7b\"type\":" ++ X = 123 :: 34 :: (asc "type" ++ 34 :: 58 :: X) :=
    fun _ => rfl
  have k2 : ∀ X : Bytes, asc ",\"version\":" ++ X
      = 44 :: 34 :: (asc "version" ++ 34 :: 58 :: X) := fun _ => rfl
  have k3 : ∀ X : Bytes, asc ",\"hash\":" ++ X = 44 :: 34 :: (asc "hash" ++ 34 :: 58 :: X) :=
    fun _ => rfl
  have k4 : ∀ X : Bytes, asc ",\"content\":" ++ X
      = 44 :: 34 :: (asc "content" ++ 34 :: 58 :: X) := fun _ => rfl
  have k5 : asc "\x7d" = [125] := rfl
  have s123 : ∀ Y, skipSpace (123 :: Y) = 123 :: Y := fun Y => skipSpace_cons _ _ rfl
  have s44 : ∀ Y, skipSpace (44 :: Y) = 44 :: Y := fun Y => skipSpace_cons _ _ rfl
  have s125 : ∀ Y, skipSpace (125 :: Y) = 125 :: Y := fun Y => skipSpace_cons _ _ rfl
  have a44 : (44 : UInt8).toNat = 44 := rfl
  have a123 : (123 : UInt8).toNat = 123 := rfl
  have a125 : (125 : UInt8).toNat = 125 := rfl
  rw [k1, k2, k3, k4, k5]
  unfold decode
  simp only [s123, a123, if_true]
  obtain ⟨fuel, hfuel⟩ : ∃ fuel, (123 :: 34 :: (asc "type" ++ 34 :: 58 :: (appendString t
      ++ 44 :: 34 :: (asc "version" ++ 34 :: 58 :: (appendString v
      ++ 44 :: 34 :: (asc "hash" ++ 34 :: 58 :: (appendString h
      ++ 44 :: 34 :: (asc "content" ++ 34 :: 58 :: (appendString c ++ [125])))))))) : Bytes).length
      = fuel + 4 := by
    refine Nat.exists_eq_add_of_le' ?_
    simp only [List.length_cons, List.length_append]
    omega
  rw [hfuel]
  rw [object_member Response.jsonNames _ _ (asc "type") 0 t _ (by decide) (by decide) (by decide)]
  simp only [s44, a44, if_true]
  rw [object_member Response.jsonNames _ _ (asc "version") 1 v _ (by decide) (by decide)
    (by decide)]
  simp only [s44, a44, if_true]
  rw [object_member Response.jsonNames _ _ (asc "hash") 2 h _ (by decide) (by decide) (by decide)]
  simp only [s44, a44, if_true]
  rw [object_member Response.jsonNames _ _ (asc "content") 3 c _ (by decide) (by decide)
    (by decide)]
  simp only [s125, a125]
  rfl

end Json

/-! ## Well-formed strings are left alone -/

namespace Utf8

theorem first_two (n : Nat) (h1 : 194 ≤ n) (h2 : n < 224) : first n = some (2, 128, 191) := by
  unfold first
  rw [if_neg (by omega), if_pos h2]

theorem first_three (n : Nat) (h1 : 224 ≤ n) (h2 : n < 240) :
    first n = some (3, if n = 224 then 160 else 128, if n = 237 then 159 else 191) := by
  unfold first
  split_ifs <;> first | rfl | omega

theorem first_four (n : Nat) (h1 : 240 ≤ n) (h2 : n ≤ 244) :
    first n = some (4, if n = 240 then 144 else 128, if n = 244 then 143 else 191) := by
  unfold first
  split_ifs <;> first | rfl | omega

/-- Decoding what `EncodeRune` wrote gives a rune with the same encoding, and
its width. -/
theorem DecodeRune_EncodeRune (r : Nat) (t : Bytes) :
    EncodeRune (DecodeRune (EncodeRune r ++ t)).1 = EncodeRune r
      ∧ (DecodeRune (EncodeRune r ++ t)).2 = (EncodeRune r).length := by
  by_cases h1 : r ≤ 127
  · rw [EncodeRune_one r h1]
    have hb : (UInt8.ofNat r).toNat = r := by rw [UInt8.toNat_ofNat_mod]; omega
    rw [List.singleton_append, DecodeRune_ascii _ _ (by omega), hb, EncodeRune_one r h1]
    exact ⟨rfl, rfl⟩
  · by_cases h2 : r ≤ 2047
    · rw [EncodeRune_two r (by omega) h2]
      have hb : (UInt8.ofNat (192 + r / 64)).toNat = 192 + r / 64 := by
        rw [UInt8.toNat_ofNat_mod]; omega
      have hb1 : (UInt8.ofNat (128 + r % 64)).toNat = 128 + r % 64 := by
        rw [UInt8.toNat_ofNat_mod]; omega
      have hf := first_two (192 + r / 64) (by omega) (by omega)
      rw [← hb] at hf
      simp only [List.cons_append, List.nil_append]
      rw [DecodeRune_two _ _ t 128 191 (by omega) hf, hb, hb1, if_neg (by omega)]
      have e : (192 + r / 64) % 32 * 64 + (128 + r % 64) % 64 = r := by omega
      simp only [e, EncodeRune_two r (by omega) h2]
      exact ⟨trivial, rfl⟩
    · by_cases h3 : 1114111 < r ∨ (55296 ≤ r ∧ r ≤ 57343)
      · rw [EncodeRune_bad r h3]
        have hf : first (239 : UInt8).toNat = some (3, 128, 191) := by decide
        simp only [List.cons_append, List.nil_append]
        rw [DecodeRune_three 239 191 189 t 128 191 (by decide) hf]
        exact ⟨by decide, rfl⟩
      · by_cases h4 : r ≤ 65535
        · rw [EncodeRune_three r (by omega) h4 (by omega)]
          have hb : (UInt8.ofNat (224 + r / 4096)).toNat = 224 + r / 4096 := by
            rw [UInt8.toNat_ofNat_mod]; omega
          have hb1 : (UInt8.ofNat (128 + r / 64 % 64)).toNat = 128 + r / 64 % 64 := by
            rw [UInt8.toNat_ofNat_mod]; omega
          have hb2 : (UInt8.ofNat (128 + r % 64)).toNat = 128 + r % 64 := by
            rw [UInt8.toNat_ofNat_mod]; omega
          have hf := first_three (224 + r / 4096) (by omega) (by omega)
          rw [← hb] at hf
          simp only [List.cons_append, List.nil_append]
          rw [DecodeRune_three _ _ _ t _ _ (by omega) hf, hb, hb1, hb2,
            if_neg (by split_ifs <;> omega), if_neg (by omega)]
          have e : (224 + r / 4096) % 16 * 4096 + (128 + r / 64 % 64) % 64 * 64
              + (128 + r % 64) % 64 = r := by omega
          simp only [e, EncodeRune_three r (by omega) h4 (by omega)]
          exact ⟨trivial, rfl⟩
        · rw [EncodeRune_four r (by omega) (by omega)]
          have hb : (UInt8.ofNat (240 + r / 262144)).toNat = 240 + r / 262144 := by
            rw [UInt8.toNat_ofNat_mod]; omega
          have hb1 : (UInt8.ofNat (128 + r / 4096 % 64)).toNat = 128 + r / 4096 % 64 := by
            rw [UInt8.toNat_ofNat_mod]; omega
          have hb2 : (UInt8.ofNat (128 + r / 64 % 64)).toNat = 128 + r / 64 % 64 := by
            rw [UInt8.toNat_ofNat_mod]; omega
          have hb3 : (UInt8.ofNat (128 + r % 64)).toNat = 128 + r % 64 := by
            rw [UInt8.toNat_ofNat_mod]; omega
          have hf := first_four (240 + r / 262144) (by omega) (by omega)
          rw [← hb] at hf
          simp only [List.cons_append, List.nil_append]
          rw [DecodeRune_four _ _ _ _ t _ _ (by omega) hf, hb, hb1, hb2, hb3,
            if_neg (by split_ifs <;> omega), if_neg (by omega), if_neg (by omega)]
          have e : (240 + r / 262144) % 8 * 262144 + (128 + r / 4096 % 64) % 64 * 4096
              + (128 + r / 64 % 64) % 64 * 64 + (128 + r % 64) % 64 = r := by omega
          simp only [e, EncodeRune_four r (by omega) (by omega)]
          exact ⟨trivial, rfl⟩

end Utf8

namespace Utf8

theorem EncodeRune_ne_nil (r : Nat) : EncodeRune r ≠ [] := by
  unfold EncodeRune
  split_ifs <;> simp

theorem WellFormed.ascii (c : UInt8) (rest : Bytes) (hc : c.toNat < 128)
    (h : WellFormed rest) : WellFormed (c :: rest) := by
  have e : EncodeRune c.toNat = [c] := by
    rw [EncodeRune_one _ (by omega), UInt8.ofNat_eq_of_toNat c _ rfl]
  have := WellFormed.rune c.toNat rest h
  rwa [e] at this

theorem WellFormed.of_ascii (s : Bytes) (h : ∀ x ∈ s, x.toNat < 128) : WellFormed s := by
  induction s with
  | nil => exact WellFormed.nil
  | cons c rest ih =>
    exact WellFormed.ascii c rest (h c (by simp)) (ih (fun y hy => h y (by simp [hy])))

theorem coerce_wellFormed (s : Bytes) (h : WellFormed s) : coerce s = s := by
  induction h with
  | nil => rfl
  | rune r rest _ ih =>
    obtain ⟨h1, h2⟩ := DecodeRune_EncodeRune r rest
    rcases he : EncodeRune r with _ | ⟨x, xs⟩
    · exact absurd he (EncodeRune_ne_nil r)
    · rw [he] at h1 h2
      simp only [List.cons_append] at h1 h2 ⊢
      rw [coerce_cons, h1, h2]
      simp only [List.length_cons, Nat.add_sub_cancel, List.drop_left, ih, List.cons_append]

theorem wellFormed_of_valid_aux (n : Nat) :
    ∀ s : Bytes, s.length ≤ n → Valid s = true → WellFormed s := by
  induction n with
  | zero =>
    intro s hs _
    cases s with
    | nil => exact WellFormed.nil
    | cons b rest => simp at hs
  | succ n ih =>
    intro s hs hv
    cases s with
    | nil => exact WellFormed.nil
    | cons b rest =>
      simp only [List.length_cons, Nat.add_le_add_iff_right] at hs
      rw [Valid_cons] at hv
      by_cases hb : b.toNat < 128
      · rw [DecodeRune_ascii _ _ hb] at hv
        simp only [Nat.sub_self, List.drop_zero] at hv
        rw [if_neg (by unfold RuneError; omega)] at hv
        exact WellFormed.ascii b rest hb (ih rest hs hv)
      · by_cases hbad : (DecodeRune (b :: rest)).1 = RuneError ∧ (DecodeRune (b :: rest)).2 = 1
        · rw [if_pos hbad] at hv
          exact absurd hv (by simp)
        · rw [if_neg hbad] at hv
          obtain ⟨h2, hle, henc, -, -⟩ := DecodeRune_valid b rest (by omega) hbad
          have hle' : (DecodeRune (b :: rest)).2 ≤ rest.length + 1 := by simpa using hle
          have hw := ih (rest.drop ((DecodeRune (b :: rest)).2 - 1)) (by simp; omega) hv
          have := WellFormed.rune (DecodeRune (b :: rest)).1 _ hw
          rw [henc] at this
          obtain ⟨k, hk⟩ : ∃ k, (DecodeRune (b :: rest)).2 = k + 1 :=
            ⟨(DecodeRune (b :: rest)).2 - 1, by omega⟩
          rw [hk] at this
          simpa using this

/-- Valid UTF-8 passes through JSON encoding and decoding unchanged. -/
theorem coerce_of_valid (s : Bytes) (h : Valid s = true) : coerce s = s :=
  coerce_wellFormed s (wellFormed_of_valid_aux s.length s (Nat.le_refl _) h)

end Utf8

namespace Json

theorem unquoteLoop_nil (fuel : Nat) : unquoteLoop fuel [] = some [] := by
  cases fuel <;> rfl

theorem unquoteLoop_zero_cons (c : UInt8) (cs : Bytes) : unquoteLoop 0 (c :: cs) = none := rfl

theorem unquoteLoop_wellFormed (fuel : Nat) :
    ∀ (s D : Bytes), unquoteLoop fuel s = some D → Utf8.WellFormed D := by
  induction fuel with
  | zero =>
    intro s D h
    cases s with
    | nil =>
      rw [unquoteLoop_nil] at h
      cases h
      exact Utf8.WellFormed.nil
    | cons c cs =>
      rw [unquoteLoop_zero_cons] at h
      cases h
  | succ fuel ih =>
    intro s D h
    cases s with
    | nil =>
      rw [unquoteLoop_nil] at h
      cases h
      exact Utf8.WellFormed.nil
    | cons c cs =>
      rw [unquoteLoop_succ_cons] at h
      have key : ∀ (X piece : Bytes), (unquoteLoop fuel X).map (piece ++ ·) = some D →
          (∀ rest, Utf8.WellFormed rest → Utf8.WellFormed (piece ++ rest)) →
          Utf8.WellFormed D := by
        intro X piece hm hp
        obtain ⟨a, ha, rfl⟩ := Option.map_eq_some'.mp hm
        exact hp a (ih X a ha)
      have key1 : ∀ (X : Bytes) (e : UInt8), (unquoteLoop fuel X).map (e :: ·) = some D →
          e.toNat < 128 → Utf8.WellFormed D := by
        intro X e hm he
        exact key X [e] hm (fun rest hr => Utf8.WellFormed.ascii e rest he hr)
      have keyR : ∀ (X : Bytes) (r : Nat),
          (unquoteLoop fuel X).map (Utf8.EncodeRune r ++ ·) = some D → Utf8.WellFormed D := by
        intro X r hm
        exact key X _ hm (fun rest hr => Utf8.WellFormed.rune r rest hr)
      by_cases c1 : c.toNat = 92
      · rw [if_pos c1] at h
        cases cs with
        | nil => cases h
        | cons e cs1 =>
          dsimp only at h
          by_cases d1 : e.toNat = 34 ∨ e.toNat = 92 ∨ e.toNat = 47 ∨ e.toNat = 39
          · rw [if_pos d1] at h
            exact key1 _ _ h (by omega)
          rw [if_neg d1] at h
          by_cases d2 : e.toNat = 98
          · rw [if_pos d2] at h
            exact key1 _ _ h (by decide)
          rw [if_neg d2] at h
          by_cases d3 : e.toNat = 102
          · rw [if_pos d3] at h
            exact key1 _ _ h (by decide)
          rw [if_neg d3] at h
          by_cases d4 : e.toNat = 110
          · rw [if_pos d4] at h
            exact key1 _ _ h (by decide)
          rw [if_neg d4] at h
          by_cases d5 : e.toNat = 114
          · rw [if_pos d5] at h
            exact key1 _ _ h (by decide)
          rw [if_neg d5] at h
          by_cases d6 : e.toNat = 116
          · rw [if_pos d6] at h
            exact key1 _ _ h (by decide)
          rw [if_neg d6] at h
          by_cases d7 : e.toNat = 117
          · rw [if_pos d7] at h
            cases hg : getu4 (c :: e :: cs1) with
            | none =>
              rw [hg] at h
              cases h
            | some rr =>
              rw [hg] at h
              dsimp only at h
              by_cases g1 : isSurrogate rr = true
              · rw [if_pos g1] at h
                by_cases g2 : utf16DecodeRune rr (getu4 (cs1.drop 4)) ≠ Utf8.RuneError
                · rw [if_pos g2] at h
                  exact keyR _ _ h
                · rw [if_neg g2] at h
                  exact keyR _ _ h
              · rw [if_neg g1] at h
                exact keyR _ _ h
          · rw [if_neg d7] at h
            cases h
      · rw [if_neg c1] at h
        by_cases c2 : c.toNat = 34 ∨ c.toNat < 32
        · rw [if_pos c2] at h
          cases h
        · rw [if_neg c2] at h
          by_cases c3 : c.toNat < 128
          · rw [if_pos c3] at h
            exact key1 _ _ h c3
          · rw [if_neg c3] at h
            exact keyR _ _ h

theorem unquoteBytes_wellFormed (s D : Bytes) (h : unquoteBytes s = some D) :
    Utf8.WellFormed D :=
  unquoteLoop_wellFormed _ s D h

end Json

namespace Json

theorem saveError_vals (st : DecodeState) (e : JsonError) : (st.saveError e).vals = st.vals := by
  unfold DecodeState.saveError
  split <;> rfl

theorem mismatch_vals (st : DecodeState) (fields : List Bytes) (target : Option Nat)
    (kind : String) : (st.mismatch fields target kind).vals = st.vals := by
  unfold DecodeState.mismatch
  split
  · exact saveError_vals _ _
  · rfl

theorem AllWellFormed.set (vals : List Bytes) (i : Nat) (s : Bytes) (h : AllWellFormed vals)
    (hs : Utf8.WellFormed s) : AllWellFormed (vals.set i s) := by
  intro v hv
  rcases List.mem_or_eq_of_mem_set hv with hv | rfl
  · exact h v hv
  · exact hs

theorem value_wellFormed (fields : List Bytes) (target : Option Nat) (st st1 : DecodeState)
    (data rest : Bytes) (h : value fields target st data = some (st1, rest))
    (hw : AllWellFormed st.vals) : AllWellFormed st1.vals := by
  unfold value at h
  cases data with
  | nil => cases h
  | cons c cs =>
    dsimp only at h
    by_cases c1 : c.toNat = 34
    · rw [if_pos c1] at h
      cases hu : unquoteBytes (rescanString cs).1 with
      | none =>
        rw [hu] at h
        cases h
      | some s =>
        rw [hu] at h
        have hs := unquoteBytes_wellFormed _ _ hu
        cases target with
        | none =>
          dsimp only at h
          cases h
          exact hw
        | some i =>
          dsimp only at h
          cases h
          exact AllWellFormed.set _ _ _ hw hs
    rw [if_neg c1] at h
    have keep : ∀ (o : Option Bytes) (kind : String),
        o.map (fun r => (st.mismatch fields target kind, r)) = some (st1, rest) →
        AllWellFormed st1.vals := by
      intro o kind ho
      obtain ⟨a, -, ha⟩ := Option.map_eq_some'.mp ho
      cases ha
      rw [mismatch_vals]
      exact hw
    by_cases c2 : c.toNat = 123
    · rw [if_pos c2] at h
      exact keep _ _ h
    rw [if_neg c2] at h
    by_cases c3 : c.toNat = 91
    · rw [if_pos c3] at h
      exact keep _ _ h
    rw [if_neg c3] at h
    by_cases c4 : c.toNat = 110
    · rw [if_pos c4] at h
      cases h
      exact hw
    rw [if_neg c4] at h
    by_cases c5 : c.toNat = 116
    · rw [if_pos c5] at h
      cases h
      rw [mismatch_vals]
      exact hw
    rw [if_neg c5] at h
    by_cases c6 : c.toNat = 102
    · rw [if_pos c6] at h
      cases h
      rw [mismatch_vals]
      exact hw
    rw [if_neg c6] at h
    by_cases c7 : c.toNat = 45 ∨ isDigit c = true
    · rw [if_pos c7] at h
      cases h
      rw [mismatch_vals]
      exact hw
    · rw [if_neg c7] at h
      cases h

theorem object_wellFormed (fields : List Bytes) (fuel : Nat) :
    ∀ (st st1 : DecodeState) (data rest : Bytes),
    object fields fuel st data = some (st1, rest) → AllWellFormed st.vals →
    AllWellFormed st1.vals := by
  induction fuel with
  | zero =>
    intro st st1 data rest h _
    cases h
  | succ fuel ih =>
    intro st st1 data rest h hw
    rw [object_succ] at h
    cases hd : skipSpace data with
    | nil =>
      rw [hd] at h
      cases h
    | cons c cs =>
      rw [hd] at h
      dsimp only at h
      by_cases c1 : c.toNat = 125
      · rw [if_pos c1] at h
        cases h
        exact hw
      rw [if_neg c1] at h
      by_cases c2 : c.toNat ≠ 34
      · rw [if_pos c2] at h
        cases h
      rw [if_neg c2] at h
      cases hu : unquoteBytes (rescanString cs).1 with
      | none =>
        rw [hu] at h
        cases h
      | some key =>
        rw [hu] at h
        dsimp only at h
        cases hk : skipSpace (rescanString cs).2 with
        | nil =>
          rw [hk] at h
          cases h
        | cons c2 cs2 =>
          rw [hk] at h
          dsimp only at h
          by_cases c3 : c2.toNat ≠ 58
          · rw [if_pos c3] at h
            cases h
          rw [if_neg c3] at h
          cases hv : value fields (findField fields key) st (skipSpace cs2) with
          | none =>
            rw [hv] at h
            cases h
          | some res =>
            obtain ⟨st2, rest2⟩ := res
            rw [hv] at h
            dsimp only at h
            have hw2 := value_wellFormed _ _ _ _ _ _ hv hw
            cases hr : skipSpace rest2 with
            | nil =>
              rw [hr] at h
              cases h
            | cons c3 cs3 =>
              rw [hr] at h
              dsimp only at h
              by_cases c4 : c3.toNat = 44
              · rw [if_pos c4] at h
                exact ih _ _ _ _ h hw2
              rw [if_neg c4] at h
              by_cases c5 : c3.toNat = 125
              · rw [if_pos c5] at h
                cases h
                exact hw2
              · rw [if_neg c5] at h
                cases h

theorem decode_wellFormed (fields : List Bytes) (data : Bytes) (st : DecodeState)
    (h : decode fields data = some st) : AllWellFormed st.vals := by
  have h0 : AllWellFormed (fields.map fun _ => ([] : Bytes)) := by
    intro v hv
    obtain ⟨_, _, rfl⟩ := List.mem_map.mp hv
    exact Utf8.WellFormed.nil
  unfold decode at h
  dsimp only at h
  cases hd : skipSpace data with
  | nil =>
    rw [hd] at h
    cases h
  | cons c cs =>
    rw [hd] at h
    dsimp only at h
    by_cases c1 : c.toNat = 123
    · rw [if_pos c1] at h
      obtain ⟨⟨st1, rest⟩, ho, ha⟩ := Option.map_eq_some'.mp h
      cases ha
      exact object_wellFormed _ _ _ _ _ _ ho h0
    rw [if_neg c1] at h
    have keep : ∀ e : JsonError,
        some ((⟨fields.map fun _ => [], none⟩ : DecodeState).saveError e) = some st →
        AllWellFormed st.vals := by
      intro e he
      cases he
      rw [saveError_vals]
      exact h0
    by_cases c2 : c.toNat = 110
    · rw [if_pos c2] at h
      cases h
      exact h0
    rw [if_neg c2] at h
    by_cases c3 : c.toNat = 91
    · rw [if_pos c3] at h
      exact keep _ h
    rw [if_neg c3] at h
    by_cases c4 : c.toNat = 34
    · rw [if_pos c4] at h
      exact keep _ h
    rw [if_neg c4] at h
    by_cases c5 : c.toNat = 116 ∨ c.toNat = 102
    · rw [if_pos c5] at h
      exact keep _ h
    · rw [if_neg c5] at h
      exact keep _ h

theorem Unmarshal_allWellFormed (fields : List Bytes) (data : Bytes) (vals : List Bytes)
    (h : Unmarshal fields data = Except.ok vals) : AllWellFormed vals := by
  unfold Unmarshal at h
  cases hc : checkValid data with
  | some e =>
    rw [hc] at h
    cases h
  | none =>
    rw [hc] at h
    dsimp only at h
    cases hd : decode fields data with
    | none =>
      rw [hd] at h
      cases h
    | some st =>
      rw [hd] at h
      dsimp only at h
      have hw := decode_wellFormed _ _ _ hd
      cases hs : st.savedError with
      | some e =>
        rw [hs] at h
        cases h
      | none =>
        rw [hs] at h
        cases h
        exact hw

theorem AllWellFormed.getD (vals : List Bytes) (i : Nat) (h : AllWellFormed vals) :
    Utf8.WellFormed (vals.getD i []) := by
  by_cases hi : i < vals.length
  · rw [List.getD_eq_getElem _ _ hi]
    exact h _ (List.getElem_mem hi)
  · rw [List.getD_eq_default _ _ (by omega)]
    exact Utf8.WellFormed.nil

end Json

/-- The strings `json.Unmarshal` stores in a `Payload` are well-formed UTF-8. -/
theorem Payload.Unmarshal_wellFormed (data : Bytes) (p : Payload)
    (h : Payload.Unmarshal data = Except.ok p) :
    Utf8.WellFormed p.Type_ ∧ Utf8.WellFormed p.Version ∧ Utf8.WellFormed p.Hash := by
  unfold Payload.Unmarshal at h
  cases hu : Json.Unmarshal Payload.jsonNames data with
  | error e =>
    rw [hu] at h
    cases h
  | ok vals =>
    rw [hu] at h
    cases h
    have hw := Json.Unmarshal_allWellFormed _ _ _ hu
    exact ⟨hw.getD _ 0, hw.getD _ 1, hw.getD _ 2⟩

/-- Decoding the encoded response gives back its fields, each coerced to
well-formed UTF-8. -/
theorem Response.Unmarshal_Marshal (r : Response) (out : Bytes)
    (h : r.Marshal = Except.ok out) :
    Response.Unmarshal out = Except.ok ⟨Utf8.coerce r.Type_, Utf8.coerce r.Version,
      Utf8.coerce r.Hash, Utf8.coerce r.Content⟩ := by
  rw [Response.Marshal_eq] at h
  cases h
  unfold Response.Unmarshal Json.Unmarshal
  rw [Json.checkValid_marshal, Json.decode_marshal]
  rfl

/-! ## The handler, case by case -/

theorem setDefaults_Type (p : Payload) :
    (setDefaults p).Type_ = if p.Type_ = [] then asc "core" else p.Type_ := by
  unfold setDefaults
  by_cases h1 : p.Type_ = [] <;> by_cases h2 : p.Version = [] <;> simp [h1, h2]

theorem setDefaults_Version (p : Payload) :
    (setDefaults p).Version = if p.Version = [] then asc "1.0.0" else p.Version := by
  unfold setDefaults
  by_cases h1 : p.Type_ = [] <;> by_cases h2 : p.Version = [] <;> simp [h1, h2]

theorem setDefaults_Hash (p : Payload) : (setDefaults p).Hash = p.Hash := by
  unfold setDefaults
  by_cases h1 : p.Type_ = [] <;> by_cases h2 : p.Version = [] <;> simp [h1, h2]

theorem VersionChecker_decodeError (env : Env) (payload : Bytes) (e : Json.JsonError)
    (h : Payload.Unmarshal payload = Except.error e) :
    VersionChecker env payload =
      ⟨[], some (GoError.unmarshal e),
        [Event.logError "problem with unmarshal: %s" [LogArg.err (GoError.unmarshal e)]]⟩ := by
  unfold VersionChecker
  rw [h]

theorem VersionChecker_statError (env : Env) (payload : Bytes) (p : Payload) (e : OsError)
    (h : Payload.Unmarshal payload = Except.ok p)
    (hs : env.stat (filePath (setDefaults p)) = some e) :
    VersionChecker env payload =
      ⟨[], some (GoError.errorf ("file not found: " ++ e.msg)),
        [Event.stat (filePath (setDefaults p)),
         Event.logError "file not found: %s" [LogArg.osErr e]]⟩ := by
  unfold VersionChecker
  rw [h]
  simp only [hs]

theorem VersionChecker_readError (env : Env) (payload : Bytes) (p : Payload) (e : OsError)
    (h : Payload.Unmarshal payload = Except.ok p)
    (hs : env.stat (filePath (setDefaults p)) = none)
    (hr : env.readFile (filePath (setDefaults p)) = Except.error e) :
    VersionChecker env payload =
      ⟨[], some (GoError.errorf ("failed to read file: " ++ e.msg)),
        [Event.stat (filePath (setDefaults p)), Event.readFile (filePath (setDefaults p)),
         Event.logError "failed to read file: %s" [LogArg.osErr e]]⟩ := by
  unfold VersionChecker
  rw [h]
  simp only [hs, hr]

theorem Response.Marshal_ok (r : Response) : ∃ out, r.Marshal = Except.ok out :=
  ⟨_, rfl⟩

theorem VersionChecker_success (env : Env) (payload : Bytes) (p : Payload) (c out : Bytes)
    (h : Payload.Unmarshal payload = Except.ok p)
    (hs : env.stat (filePath (setDefaults p)) = none)
    (hr : env.readFile (filePath (setDefaults p)) = Except.ok c)
    (hm : (buildResponse (setDefaults p) c).Marshal = Except.ok out) :
    VersionChecker env payload =
      ⟨out, none,
        [Event.stat (filePath (setDefaults p)), Event.readFile (filePath (setDefaults p)),
         Event.logInfo "File hash is: %s" [LogArg.str (sprintfHex (Sha256.Sum256 c))],
         Event.logInfo "responce: %s" [LogArg.response
           ⟨(setDefaults p).Type_, (setDefaults p).Version, sprintfHex (Sha256.Sum256 c), c⟩]]
        ++ saveToDB env (setDefaults p) out⟩ := by
  unfold VersionChecker
  rw [h]
  simp only [hs, hr, hm]

/-- A call that returns no error decoded its payload, found the file and read
it. -/
theorem VersionChecker_ok_inv (env : Env) (payload : Bytes)
    (h : (VersionChecker env payload).err = none) :
    ∃ p c, Payload.Unmarshal payload = Except.ok p
      ∧ env.stat (filePath (setDefaults p)) = none
      ∧ env.readFile (filePath (setDefaults p)) = Except.ok c := by
  cases hp : Payload.Unmarshal payload with
  | error e =>
    rw [VersionChecker_decodeError env payload e hp] at h
    cases h
  | ok p =>
    cases hs : env.stat (filePath (setDefaults p)) with
    | some e =>
      rw [VersionChecker_statError env payload p e hp hs] at h
      cases h
    | none =>
      cases hr : env.readFile (filePath (setDefaults p)) with
      | error e =>
        rw [VersionChecker_readError env payload p e hp hs hr] at h
        cases h
      | ok c => exact ⟨p, c, rfl, hs, hr⟩

theorem sprintfHex_ascii (b : Bytes) : ∀ x ∈ sprintfHex b, x.toNat < 128 := by
  induction b with
  | nil => intro x hx; simp [sprintfHex] at hx
  | cons y rest ih =>
    intro x hx
    simp only [sprintfHex, List.mem_cons] at hx
    have hy := UInt8.toNat_lt_256 y
    rcases hx with rfl | rfl | hx
    · have := Json.hexDigit_toNat (y.toNat / 16) (by omega)
      split at this <;> omega
    · have := Json.hexDigit_toNat (y.toNat % 16) (by omega)
      split at this <;> omega
    · exact ih x hx

theorem coerce_sprintfHex (b : Bytes) : Utf8.coerce (sprintfHex b) = sprintfHex b :=
  Utf8.coerce_wellFormed _ (Utf8.WellFormed.of_ascii _ (sprintfHex_ascii b))

theorem setDefaults_wellFormed (p : Payload) (hT : Utf8.WellFormed p.Type_)
    (hV : Utf8.WellFormed p.Version) :
    Utf8.WellFormed (setDefaults p).Type_ ∧ Utf8.WellFormed (setDefaults p).Version := by
  rw [setDefaults_Type, setDefaults_Version]
  constructor
  · split
    · exact Utf8.WellFormed.of_ascii _ (by decide)
    · exact hT
  · split
    · exact Utf8.WellFormed.of_ascii _ (by decide)
    · exact hV

theorem buildResponse_fields (p : Payload) (c : Bytes) :
    (buildResponse p c).Type_ = p.Type_ ∧ (buildResponse p c).Version = p.Version
      ∧ (buildResponse p c).Hash = sprintfHex (Sha256.Sum256 c)
      ∧ (buildResponse p c).Content =
          if p.Hash = [] ∨ p.Hash ≠ sprintfHex (Sha256.Sum256 c) then [] else c := by
  unfold buildResponse
  by_cases h : p.Hash = [] ∨ p.Hash ≠ sprintfHex (Sha256.Sum256 c)
  · rw [if_pos h, if_pos h]
    exact ⟨rfl, rfl, rfl, rfl⟩
  · rw [if_neg h, if_neg h]
    exact ⟨rfl, rfl, rfl, rfl⟩

/-- What the caller reads back from a successful call: the defaulted type and
version, the hash of the file, and the content, coerced to well-formed UTF-8,
if the payload's hash is that hash, else the empty string. -/
theorem VersionChecker_decoded (env : Env) (payload : Bytes) (p : Payload) (c : Bytes)
    (h : Payload.Unmarshal payload = Except.ok p)
    (hs : env.stat (filePath (setDefaults p)) = none)
    (hr : env.readFile (filePath (setDefaults p)) = Except.ok c) :
    (VersionChecker env payload).err = none
      ∧ Response.Unmarshal (VersionChecker env payload).out =
        Except.ok ⟨(setDefaults p).Type_, (setDefaults p).Version, sprintfHex (Sha256.Sum256 c),
          if p.Hash = [] ∨ p.Hash ≠ sprintfHex (Sha256.Sum256 c) then [] else Utf8.coerce c⟩ := by
  obtain ⟨out, hm⟩ := Response.Marshal_ok (buildResponse (setDefaults p) c)
  rw [VersionChecker_success env payload p c out h hs hr hm]
  refine ⟨rfl, ?_⟩
  obtain ⟨hT, hV, -⟩ := Payload.Unmarshal_wellFormed payload p h
  obtain ⟨hT', hV'⟩ := setDefaults_wellFormed p hT hV
  obtain ⟨f1, f2, f3, f4⟩ := buildResponse_fields (setDefaults p) c
  simp only
  rw [Response.Unmarshal_Marshal _ out hm, f1, f2, f3, f4, Utf8.coerce_wellFormed _ hT',
    Utf8.coerce_wellFormed _ hV', coerce_sprintfHex, setDefaults_Hash]
  by_cases hh : p.Hash = [] ∨ p.Hash ≠ sprintfHex (Sha256.Sum256 c)
  · rw [if_pos hh, if_pos hh]
    rfl
  · rw [if_neg hh, if_neg hh]

/-! ## The claims -/

theorem sprintfHex_Sum256_ne_nil (data : Bytes) : sprintfHex (Sha256.Sum256 data) ≠ [] := by
  simp [Sha256.Sum256, Sha256.be32, sprintfHex]

theorem coerce_eq_nil (c : Bytes) : Utf8.coerce c = [] ↔ c = [] := by
  constructor
  · intro h
    cases c with
    | nil => rfl
    | cons b rest =>
      rw [Utf8.coerce_cons] at h
      exact absurd (List.append_eq_nil.mp h).1 (Utf8.EncodeRune_ne_nil _)
  · rintro rfl
    rfl

/-- C1, as the code has it: if the file at `filepath.Join(type, version+".json")`
exists with content `c`, `c` is valid UTF-8 and the payload's hash is the
lower-case hexadecimal SHA-256 digest of `c`, then `VersionChecker` returns no
error and decoding the returned JSON into `Response` gives `Content` equal to
`c`. -/
theorem matching_hash_returns_valid_content (env : Env) (payload : Bytes) (p : Payload)
    (c : Bytes) (hp : Payload.Unmarshal payload = Except.ok p)
    (hs : env.stat (filePath (setDefaults p)) = none)
    (hr : env.readFile (filePath (setDefaults p)) = Except.ok c)
    (hh : p.Hash = sprintfHex (Sha256.Sum256 c)) (hv : Utf8.Valid c = true) :
    (VersionChecker env payload).err = none
      ∧ ∃ r, Response.Unmarshal (VersionChecker env payload).out = Except.ok r
          ∧ r.Content = c := by
  obtain ⟨h1, h2⟩ := VersionChecker_decoded env payload p c hp hs hr
  refine ⟨h1, _, h2, ?_⟩
  have hn : ¬ (p.Hash = [] ∨ p.Hash ≠ sprintfHex (Sha256.Sum256 c)) := by
    rintro (h | h)
    · exact sprintfHex_Sum256_ne_nil c (hh ▸ h)
    · exact h hh
  simp only [if_neg hn]
  exact Utf8.coerce_of_valid c hv

set_option maxRecDepth 100000 in
/-- C1, witness: the repository's test case `ValidPayload`. -/
theorem matching_hash_returns_valid_content_witness :
    (Payload.Unmarshal testPayload = Except.ok ⟨asc "test", asc "1.0.0",
        asc "2f713eb06fb4e9f199cdd7cf3972dea686459f56306ce22d8114008370bf471b"⟩
      ∧ exampleEnv.stat (filePath (setDefaults ⟨asc "test", asc "1.0.0",
        asc "2f713eb06fb4e9f199cdd7cf3972dea686459f56306ce22d8114008370bf471b"⟩)) = none
      ∧ exampleEnv.readFile (filePath (setDefaults ⟨asc "test", asc "1.0.0",
        asc "2f713eb06fb4e9f199cdd7cf3972dea686459f56306ce22d8114008370bf471b"⟩))
          = Except.ok testContent
      ∧ asc "2f713eb06fb4e9f199cdd7cf3972dea686459f56306ce22d8114008370bf471b"
          = sprintfHex (Sha256.Sum256 testContent)
      ∧ Utf8.Valid testContent = true)
    ∧ ((VersionChecker exampleEnv testPayload).err = none
      ∧ ∃ r, Response.Unmarshal (VersionChecker exampleEnv testPayload).out = Except.ok r
          ∧ r.Content = testContent) :=
  ⟨by decide,
   matching_hash_returns_valid_content exampleEnv testPayload
    ⟨asc "test", asc "1.0.0",
      asc "2f713eb06fb4e9f199cdd7cf3972dea686459f56306ce22d8114008370bf471b"⟩
    testContent (by decide) (by decide) (by decide) (by decide) (by decide)⟩

set_option maxRecDepth 100000 in
/-- C1, counterexample: the file `bin/1.0.0.json` holds the byte `0xff`, the
payload carries the digest of that content, the call returns no error, and the
`Content` decoded from the result is the three bytes of U+FFFD, not `0xff`. -/
theorem matching_hash_invalid_utf8_counterexample :
    Payload.Unmarshal binPayload = Except.ok ⟨asc "bin", [],
        asc "a8100ae6aa1940d0b663bb31cd466142ebbdbd5187131b92d93818987832eb89"⟩
      ∧ filePath (setDefaults ⟨asc "bin", [],
        asc "a8100ae6aa1940d0b663bb31cd466142ebbdbd5187131b92d93818987832eb89"⟩)
          = asc "bin/1.0.0.json"
      ∧ exampleEnv.stat (asc "bin/1.0.0.json") = none
      ∧ exampleEnv.readFile (asc "bin/1.0.0.json") = Except.ok [255]
      ∧ asc "a8100ae6aa1940d0b663bb31cd466142ebbdbd5187131b92d93818987832eb89"
          = sprintfHex (Sha256.Sum256 [255])
      ∧ (VersionChecker exampleEnv binPayload).err = none
      ∧ Response.Unmarshal (VersionChecker exampleEnv binPayload).out
          = Except.ok ⟨asc "bin", asc "1.0.0",
              asc "a8100ae6aa1940d0b663bb31cd466142ebbdbd5187131b92d93818987832eb89",
              [239, 191, 189]⟩
      ∧ ([239, 191, 189] : Bytes) ≠ [255] := by
  decide

/-- C2, as the code has it: for every payload whose supplied hash matches the
hash computed for the located file, the content is not suppressed: the content
field of the response is the file's content (bytes that are not valid UTF-8
replaced by U+FFFD), and it is empty only if the file is empty. -/
theorem matching_hash_keeps_content (env : Env) (payload : Bytes) (p : Payload)
    (c : Bytes) (hp : Payload.Unmarshal payload = Except.ok p)
    (hs : env.stat (filePath (setDefaults p)) = none)
    (hr : env.readFile (filePath (setDefaults p)) = Except.ok c)
    (hh : p.Hash = sprintfHex (Sha256.Sum256 c)) :
    (buildResponse (setDefaults p) c).Content = c
      ∧ ∃ r, Response.Unmarshal (VersionChecker env payload).out = Except.ok r
          ∧ r.Content = Utf8.coerce c ∧ (r.Content = [] ↔ c = []) := by
  have hn : ¬ (p.Hash = [] ∨ p.Hash ≠ sprintfHex (Sha256.Sum256 c)) := by
    rintro (h | h)
    · exact sprintfHex_Sum256_ne_nil c (hh ▸ h)
    · exact h hh
  constructor
  · rw [(buildResponse_fields (setDefaults p) c).2.2.2, setDefaults_Hash, if_neg hn]
  · obtain ⟨-, h2⟩ := VersionChecker_decoded env payload p c hp hs hr
    refine ⟨_, h2, ?_, ?_⟩
    · simp only [if_neg hn]
    · simp only [if_neg hn]
      exact coerce_eq_nil c

set_option maxRecDepth 100000 in
/-- C2, witness: the repository's test case `ValidPayload`. -/
theorem matching_hash_keeps_content_witness :
    (Payload.Unmarshal testPayload = Except.ok ⟨asc "test", asc "1.0.0",
        asc "2f713eb06fb4e9f199cdd7cf3972dea686459f56306ce22d8114008370bf471b"⟩
      ∧ exampleEnv.stat (filePath (setDefaults ⟨asc "test", asc "1.0.0",
        asc "2f713eb06fb4e9f199cdd7cf3972dea686459f56306ce22d8114008370bf471b"⟩)) = none
      ∧ exampleEnv.readFile (filePath (setDefaults ⟨asc "test", asc "1.0.0",
        asc "2f713eb06fb4e9f199cdd7cf3972dea686459f56306ce22d8114008370bf471b"⟩))
          = Except.ok testContent
      ∧ asc "2f713eb06fb4e9f199cdd7cf3972dea686459f56306ce22d8114008370bf471b"
          = sprintfHex (Sha256.Sum256 testContent))
    ∧ ((buildResponse (setDefaults ⟨asc "test", asc "1.0.0",
        asc "2f713eb06fb4e9f199cdd7cf3972dea686459f56306ce22d8114008370bf471b"⟩)
          testContent).Content = testContent
      ∧ ∃ r, Response.Unmarshal (VersionChecker exampleEnv testPayload).out = Except.ok r
          ∧ r.Content = Utf8.coerce testContent ∧ (r.Content = [] ↔ testContent = [])) :=
  ⟨by decide,
   matching_hash_keeps_content exampleEnv testPayload
    ⟨asc "test", asc "1.0.0",
      asc "2f713eb06fb4e9f199cdd7cf3972dea686459f56306ce22d8114008370bf471b"⟩
    testContent (by decide) (by decide) (by decide) (by decide)⟩

set_option maxRecDepth 100000 in
/-- C2, counterexample: the repository's test case `ValidPayload`.  The
supplied hash is the hash computed for `test/1.0.0.json`, and the content
field of the response is the file's content, which is not empty. -/
theorem matching_hash_not_suppressed_counterexample :
    Payload.Unmarshal testPayload = Except.ok ⟨asc "test", asc "1.0.0",
        asc "2f713eb06fb4e9f199cdd7cf3972dea686459f56306ce22d8114008370bf471b"⟩
      ∧ exampleEnv.readFile (asc "test/1.0.0.json") = Except.ok testContent
      ∧ asc "2f713eb06fb4e9f199cdd7cf3972dea686459f56306ce22d8114008370bf471b"
          = sprintfHex (Sha256.Sum256 testContent)
      ∧ (VersionChecker exampleEnv testPayload).out
          = asc ("\x7b\"type\":\"test\",\"version\":\"1.0.0\",\"hash\":"
            ++ "\"2f713eb06fb4e9f199cdd7cf3972dea686459f56306ce22d8114008370bf471b\","
            ++ "\"content\":\"\x7b\\\"content\\\": \\\"test content\\\"\x7d\"\x7d")
      ∧ Response.Unmarshal (VersionChecker exampleEnv testPayload).out
          = Except.ok ⟨asc "test", asc "1.0.0",
              asc "2f713eb06fb4e9f199cdd7cf3972dea686459f56306ce22d8114008370bf471b",
              testContent⟩
      ∧ testContent ≠ [] := by
  decide

/-- C3: for every payload whose hash differs from the hexadecimal SHA-256
digest of the located file (an empty or absent hash included),
`VersionChecker` returns no error and the `Content` of the decoded response is
the empty string, whatever the file contains. -/
theorem differing_hash_blanks_content (env : Env) (payload : Bytes) (p : Payload)
    (c : Bytes) (hp : Payload.Unmarshal payload = Except.ok p)
    (hs : env.stat (filePath (setDefaults p)) = none)
    (hr : env.readFile (filePath (setDefaults p)) = Except.ok c)
    (hh : p.Hash ≠ sprintfHex (Sha256.Sum256 c)) :
    (VersionChecker env payload).err = none
      ∧ ∃ r, Response.Unmarshal (VersionChecker env payload).out = Except.ok r
          ∧ r.Content = [] := by
  obtain ⟨h1, h2⟩ := VersionChecker_decoded env payload p c hp hs hr
  refine ⟨h1, _, h2, ?_⟩
  simp only [if_pos (Or.inr hh : p.Hash = [] ∨ p.Hash ≠ sprintfHex (Sha256.Sum256 c))]

set_option maxRecDepth 100000 in
/-- C3, witness: the repository's test case `DifferentHash`. -/
theorem differing_hash_blanks_content_witness :
    (Payload.Unmarshal
        (asc "\x7b\"type\": \"test\", \"version\": \"1.0.0\", \"hash\": \"different_hash\"\x7d")
        = Except.ok ⟨asc "test", asc "1.0.0", asc "different_hash"⟩
      ∧ exampleEnv.stat (filePath (setDefaults ⟨asc "test", asc "1.0.0", asc "different_hash"⟩))
          = none
      ∧ exampleEnv.readFile
          (filePath (setDefaults ⟨asc "test", asc "1.0.0", asc "different_hash"⟩))
          = Except.ok testContent
      ∧ asc "different_hash" ≠ sprintfHex (Sha256.Sum256 testContent))
    ∧ ((VersionChecker exampleEnv
        (asc "\x7b\"type\": \"test\", \"version\": \"1.0.0\", \"hash\": \"different_hash\"\x7d")).err
          = none
      ∧ ∃ r, Response.Unmarshal (VersionChecker exampleEnv
          (asc "\x7b\"type\": \"test\", \"version\": \"1.0.0\", \"hash\": \"different_hash\"\x7d")).out
            = Except.ok r
          ∧ r.Content = []) :=
  ⟨by decide,
   differing_hash_blanks_content exampleEnv _ ⟨asc "test", asc "1.0.0", asc "different_hash"⟩
    testContent (by decide) (by decide) (by decide) (by decide)⟩

theorem VersionChecker_fileAccess (env : Env) (payload : Bytes) (p : Payload)
    (hp : Payload.Unmarshal payload = Except.ok p) :
    (VersionChecker env payload).events.filter Event.isFileAccess
        = [Event.stat (filePath (setDefaults p))]
      ∨ (VersionChecker env payload).events.filter Event.isFileAccess
        = [Event.stat (filePath (setDefaults p)), Event.readFile (filePath (setDefaults p))] := by
  cases hs : env.stat (filePath (setDefaults p)) with
  | some e =>
    rw [VersionChecker_statError env payload p e hp hs]
    exact Or.inl rfl
  | none =>
    cases hr : env.readFile (filePath (setDefaults p)) with
    | error e =>
      rw [VersionChecker_readError env payload p e hp hs hr]
      exact Or.inr rfl
    | ok c =>
      obtain ⟨out, hm⟩ := Response.Marshal_ok (buildResponse (setDefaults p) c)
      rw [VersionChecker_success env payload p c out hp hs hr hm]
      right
      simp only [saveToDB]
      split <;> rfl

/-- C4: where the payload's type is absent or empty `VersionChecker` uses
`core`, and where its version is absent or empty it uses `1.0.0`: the file it
stats and reads is `filepath.Join` of the defaulted type and version, and the
`Type` and `Version` of the decoded response are the defaulted values. -/
theorem empty_type_and_version_take_defaults (env : Env) (payload : Bytes) (p : Payload)
    (hp : Payload.Unmarshal payload = Except.ok p) :
    ∃ t v,
      (p.Type_ = [] → t = asc "core") ∧ (p.Type_ ≠ [] → t = p.Type_)
      ∧ (p.Version = [] → v = asc "1.0.0") ∧ (p.Version ≠ [] → v = p.Version)
      ∧ ((VersionChecker env payload).events.filter Event.isFileAccess
            = [Event.stat (Filepath.Join [t, v ++ asc ".json"])]
          ∨ (VersionChecker env payload).events.filter Event.isFileAccess
            = [Event.stat (Filepath.Join [t, v ++ asc ".json"]),
               Event.readFile (Filepath.Join [t, v ++ asc ".json"])])
      ∧ ((VersionChecker env payload).err = none →
          ∃ r, Response.Unmarshal (VersionChecker env payload).out = Except.ok r
            ∧ r.Type_ = t ∧ r.Version = v) := by
  refine ⟨(setDefaults p).Type_, (setDefaults p).Version, ?_, ?_, ?_, ?_,
    VersionChecker_fileAccess env payload p hp, ?_⟩
  · intro h; rw [setDefaults_Type, if_pos h]
  · intro h; rw [setDefaults_Type, if_neg h]
  · intro h; rw [setDefaults_Version, if_pos h]
  · intro h; rw [setDefaults_Version, if_neg h]
  · intro herr
    obtain ⟨p', c, hp', hs, hr⟩ := VersionChecker_ok_inv env payload herr
    rw [hp] at hp'
    cases hp'
    exact ⟨_, (VersionChecker_decoded env payload p c hp hs hr).2, rfl, rfl⟩

set_option maxRecDepth 100000 in
/-- C4, witness: the repository's test case `EmptyPayload` reads
`core/1.0.0.json` and answers type `core`, version `1.0.0`. -/
theorem empty_type_and_version_take_defaults_witness :
    Payload.Unmarshal (asc "\x7b\"type\": \"\", \"version\": \"\", \"hash\": \"\"\x7d")
        = Except.ok ⟨[], [], []⟩
    ∧ (∃ t v,
      (([] : Bytes) = [] → t = asc "core") ∧ (([] : Bytes) ≠ [] → t = [])
      ∧ (([] : Bytes) = [] → v = asc "1.0.0") ∧ (([] : Bytes) ≠ [] → v = [])
      ∧ ((VersionChecker exampleEnv
            (asc "\x7b\"type\": \"\", \"version\": \"\", \"hash\": \"\"\x7d")).events.filter
              Event.isFileAccess
            = [Event.stat (Filepath.Join [t, v ++ asc ".json"])]
          ∨ (VersionChecker exampleEnv
            (asc "\x7b\"type\": \"\", \"version\": \"\", \"hash\": \"\"\x7d")).events.filter
              Event.isFileAccess
            = [Event.stat (Filepath.Join [t, v ++ asc ".json"]),
               Event.readFile (Filepath.Join [t, v ++ asc ".json"])])
      ∧ ((VersionChecker exampleEnv
            (asc "\x7b\"type\": \"\", \"version\": \"\", \"hash\": \"\"\x7d")).err = none →
          ∃ r, Response.Unmarshal (VersionChecker exampleEnv
              (asc "\x7b\"type\": \"\", \"version\": \"\", \"hash\": \"\"\x7d")).out = Except.ok r
            ∧ r.Type_ = t ∧ r.Version = v))
    ∧ (VersionChecker exampleEnv
          (asc "\x7b\"type\": \"\", \"version\": \"\", \"hash\": \"\"\x7d")).events.filter
            Event.isFileAccess
        = [Event.stat (asc "core/1.0.0.json"), Event.readFile (asc "core/1.0.0.json")]
    ∧ (VersionChecker exampleEnv
          (asc "\x7b\"type\": \"\", \"version\": \"\", \"hash\": \"\"\x7d")).out
        = asc ("\x7b\"type\":\"core\",\"version\":\"1.0.0\",\"hash\":"
            ++ "\"44136fa355b3678a1146ad16f7e8649e94fb4fc21fe77e8310c060f61caaff8a\","
            ++ "\"content\":\"\"\x7d")
    ∧ Payload.Unmarshal (asc "\x7b\x7d") = Except.ok ⟨[], [], []⟩ :=
  ⟨by decide,
   empty_type_and_version_take_defaults exampleEnv _ ⟨[], [], []⟩ (by decide),
   by decide, by decide, by decide⟩

/-- C5: for every payload string that does not decode into `Payload`,
`VersionChecker` returns the empty string together with the decoder's error,
unchanged, and makes no call on the file system. -/
theorem undecodable_payload_returns_decoder_error (env : Env) (payload : Bytes)
    (e : Json.JsonError) (h : Payload.Unmarshal payload = Except.error e) :
    (VersionChecker env payload).out = []
      ∧ (VersionChecker env payload).err = some (GoError.unmarshal e)
      ∧ (VersionChecker env payload).events.filter Event.isFileAccess = [] := by
  rw [VersionChecker_decodeError env payload e h]
  exact ⟨rfl, rfl, rfl⟩

set_option maxRecDepth 100000 in
/-- C5, witness: the repository's test case `InvalidPayload`, the text
`invalid_json`. -/
theorem undecodable_payload_returns_decoder_error_witness :
    Payload.Unmarshal (asc "invalid_json")
        = Except.error (Json.JsonError.invalidSyntax ⟨some 105, "looking for beginning of value", 1⟩)
    ∧ ((VersionChecker exampleEnv (asc "invalid_json")).out = []
      ∧ (VersionChecker exampleEnv (asc "invalid_json")).err
          = some (GoError.unmarshal
              (Json.JsonError.invalidSyntax ⟨some 105, "looking for beginning of value", 1⟩))
      ∧ (VersionChecker exampleEnv (asc "invalid_json")).events.filter Event.isFileAccess = []) :=
  ⟨by decide, undecodable_payload_returns_decoder_error exampleEnv _ _ (by decide)⟩

/-- C6: for every payload that decodes and whose defaulted type and version
name a path `filepath.Join(type, version+".json")` for which `os.Stat` fails,
`VersionChecker` returns the empty string together with an error whose message
starts with `file not found: `. -/
theorem missing_file_returns_not_found (env : Env) (payload : Bytes) (p : Payload)
    (e : OsError) (hp : Payload.Unmarshal payload = Except.ok p)
    (hs : env.stat (Filepath.Join [(setDefaults p).Type_, (setDefaults p).Version ++ asc ".json"])
      = some e) :
    (VersionChecker env payload).out = []
      ∧ ∃ msg rest, (VersionChecker env payload).err = some (GoError.errorf msg)
          ∧ msg = "file not found: " ++ rest := by
  rw [VersionChecker_statError env payload p e hp hs]
  exact ⟨rfl, _, e.msg, rfl, rfl⟩

set_option maxRecDepth 100000 in
/-- C6, witness: the repository's test case `NotExistingFile`. -/
theorem missing_file_returns_not_found_witness :
    (Payload.Unmarshal
        (asc "\x7b\"type\": \"not_exist\", \"version\": \"9.9.9\", \"hash\": \"\"\x7d")
        = Except.ok ⟨asc "not_exist", asc "9.9.9", []⟩
      ∧ exampleEnv.stat (Filepath.Join [(setDefaults ⟨asc "not_exist", asc "9.9.9", []⟩).Type_,
          (setDefaults ⟨asc "not_exist", asc "9.9.9", []⟩).Version ++ asc ".json"])
        = some ⟨"no such file or directory"⟩)
    ∧ ((VersionChecker exampleEnv
        (asc "\x7b\"type\": \"not_exist\", \"version\": \"9.9.9\", \"hash\": \"\"\x7d")).out = []
      ∧ ∃ msg rest, (VersionChecker exampleEnv
          (asc "\x7b\"type\": \"not_exist\", \"version\": \"9.9.9\", \"hash\": \"\"\x7d")).err
            = some (GoError.errorf msg)
          ∧ msg = "file not found: " ++ rest) :=
  ⟨by decide,
   missing_file_returns_not_found exampleEnv _ ⟨asc "not_exist", asc "9.9.9", []⟩
    ⟨"no such file or directory"⟩ (by decide) (by decide)⟩

/-- C7: on every successful call the `Hash` of the response is the lower-case
hexadecimal SHA-256 digest of the exact bytes of the file that was read,
whatever hash the payload supplied and whether or not the content is
returned. -/
theorem response_hash_is_digest_of_file (env : Env) (payload : Bytes)
    (h : (VersionChecker env payload).err = none) :
    ∃ path c r,
      (VersionChecker env payload).events.filter Event.isFileAccess
          = [Event.stat path, Event.readFile path]
      ∧ env.readFile path = Except.ok c
      ∧ Response.Unmarshal (VersionChecker env payload).out = Except.ok r
      ∧ r.Hash = sprintfHex (Sha256.Sum256 c) := by
  obtain ⟨p, c, hp, hs, hr⟩ := VersionChecker_ok_inv env payload h
  refine ⟨filePath (setDefaults p), c, _, ?_, hr,
    (VersionChecker_decoded env payload p c hp hs hr).2, rfl⟩
  obtain ⟨out, hm⟩ := Response.Marshal_ok (buildResponse (setDefaults p) c)
  rw [VersionChecker_success env payload p c out hp hs hr hm]
  simp only [saveToDB]
  split <;> rfl

set_option maxRecDepth 100000 in
/-- C7, witness: the byte `0xff` in `bin/1.0.0.json`, whose content is not
returned as it is, and its digest in the response. -/
theorem response_hash_is_digest_of_file_witness :
    (VersionChecker exampleEnv binPayload).err = none
    ∧ (∃ path c r,
      (VersionChecker exampleEnv binPayload).events.filter Event.isFileAccess
          = [Event.stat path, Event.readFile path]
      ∧ exampleEnv.readFile path = Except.ok c
      ∧ Response.Unmarshal (VersionChecker exampleEnv binPayload).out = Except.ok r
      ∧ r.Hash = sprintfHex (Sha256.Sum256 c)) :=
  ⟨by decide, response_hash_is_digest_of_file exampleEnv binPayload (by decide)⟩

theorem setDefaults_nonempty (p : Payload) (hT : p.Type_ ≠ []) (hV : p.Version ≠ []) :
    setDefaults p = p := by
  unfold setDefaults
  simp [hT, hV]

/-- C8: for every payload with a non-empty type `t` and a non-empty version
`v` for which the file exists, the `Type` and `Version` of the decoded response
are exactly `t` and `v`. -/
theorem nonempty_type_and_version_are_echoed (env : Env) (payload : Bytes) (p : Payload)
    (c : Bytes) (hp : Payload.Unmarshal payload = Except.ok p)
    (hT : p.Type_ ≠ []) (hV : p.Version ≠ [])
    (hs : env.stat (Filepath.Join [p.Type_, p.Version ++ asc ".json"]) = none)
    (hr : env.readFile (Filepath.Join [p.Type_, p.Version ++ asc ".json"]) = Except.ok c) :
    ∃ r, Response.Unmarshal (VersionChecker env payload).out = Except.ok r
      ∧ r.Type_ = p.Type_ ∧ r.Version = p.Version := by
  have hd := setDefaults_nonempty p hT hV
  have h2 := (VersionChecker_decoded env payload p c hp (by rw [hd]; exact hs)
    (by rw [hd]; exact hr)).2
  rw [hd] at h2
  exact ⟨_, h2, rfl, rfl⟩

set_option maxRecDepth 100000 in
/-- C8, witness: the repository's test case `ValidPayload`, type `test` and
version `1.0.0`. -/
theorem nonempty_type_and_version_are_echoed_witness :
    (Payload.Unmarshal testPayload = Except.ok ⟨asc "test", asc "1.0.0",
        asc "2f713eb06fb4e9f199cdd7cf3972dea686459f56306ce22d8114008370bf471b"⟩
      ∧ asc "test" ≠ [] ∧ asc "1.0.0" ≠ []
      ∧ exampleEnv.stat (Filepath.Join [asc "test", asc "1.0.0" ++ asc ".json"]) = none
      ∧ exampleEnv.readFile (Filepath.Join [asc "test", asc "1.0.0" ++ asc ".json"])
          = Except.ok testContent)
    ∧ (∃ r, Response.Unmarshal (VersionChecker exampleEnv testPayload).out = Except.ok r
      ∧ r.Type_ = asc "test" ∧ r.Version = asc "1.0.0") :=
  ⟨by decide,
   nonempty_type_and_version_are_echoed exampleEnv testPayload
    ⟨asc "test", asc "1.0.0",
      asc "2f713eb06fb4e9f199cdd7cf3972dea686459f56306ce22d8114008370bf471b"⟩
    testContent (by decide) (by decide) (by decide) (by decide) (by decide)⟩

/-- C9: on every successful call `VersionChecker` issues exactly one
`StorageWrite` call carrying exactly one record, with Collection
`ZeptoLabVersionChecker`, Key the defaulted type, `/` and the defaulted
version, UserID `00000000-0000-0000-0000-000000000000`, and Value the JSON
string `VersionChecker` returns. -/
theorem success_issues_one_storage_write (env : Env) (payload : Bytes)
    (h : (VersionChecker env payload).err = none) :
    ∃ p, Payload.Unmarshal payload = Except.ok p
      ∧ (VersionChecker env payload).events.filter Event.isStorageWrite
        = [Event.storageWrite [⟨asc "ZeptoLabVersionChecker",
            (if p.Type_ = [] then asc "core" else p.Type_) ++ asc "/"
              ++ (if p.Version = [] then asc "1.0.0" else p.Version),
            asc "00000000-0000-0000-0000-000000000000",
            (VersionChecker env payload).out⟩]] := by
  obtain ⟨p, c, hp, hs, hr⟩ := VersionChecker_ok_inv env payload h
  refine ⟨p, hp, ?_⟩
  obtain ⟨out, hm⟩ := Response.Marshal_ok (buildResponse (setDefaults p) c)
  rw [VersionChecker_success env payload p c out hp hs hr hm, ← setDefaults_Type,
    ← setDefaults_Version]
  simp only [saveToDB]
  split <;> rfl

set_option maxRecDepth 100000 in
/-- C9, witness: the repository's test case `ValidPayload`. -/
theorem success_issues_one_storage_write_witness :
    (VersionChecker exampleEnv testPayload).err = none
    ∧ (∃ p, Payload.Unmarshal testPayload = Except.ok p
      ∧ (VersionChecker exampleEnv testPayload).events.filter Event.isStorageWrite
        = [Event.storageWrite [⟨asc "ZeptoLabVersionChecker",
            (if p.Type_ = [] then asc "core" else p.Type_) ++ asc "/"
              ++ (if p.Version = [] then asc "1.0.0" else p.Version),
            asc "00000000-0000-0000-0000-000000000000",
            (VersionChecker exampleEnv testPayload).out⟩]]) :=
  ⟨by decide, success_issues_one_storage_write exampleEnv testPayload (by decide)⟩

/-- C10: the storage write is fire-and-forget: for every payload and file
system state, the string and the error `VersionChecker` returns are the same
whatever `StorageWrite` answers; a storage failure is never reported to the
caller. -/
theorem storage_result_does_not_change_answer (stat : Bytes → Option OsError)
    (readFile : Bytes → Except OsError Bytes)
    (write1 write2 : List StorageWrite → Option String) (payload : Bytes) :
    (VersionChecker ⟨stat, readFile, write1⟩ payload).out
        = (VersionChecker ⟨stat, readFile, write2⟩ payload).out
      ∧ (VersionChecker ⟨stat, readFile, write1⟩ payload).err
        = (VersionChecker ⟨stat, readFile, write2⟩ payload).err := by
  cases hp : Payload.Unmarshal payload with
  | error e =>
    rw [VersionChecker_decodeError _ payload e hp, VersionChecker_decodeError _ payload e hp]
    exact ⟨rfl, rfl⟩
  | ok p =>
    cases hs : stat (filePath (setDefaults p)) with
    | some e =>
      rw [VersionChecker_statError ⟨stat, readFile, write1⟩ payload p e hp hs,
        VersionChecker_statError ⟨stat, readFile, write2⟩ payload p e hp hs]
      exact ⟨rfl, rfl⟩
    | none =>
      cases hr : readFile (filePath (setDefaults p)) with
      | error e =>
        rw [VersionChecker_readError ⟨stat, readFile, write1⟩ payload p e hp hs hr,
          VersionChecker_readError ⟨stat, readFile, write2⟩ payload p e hp hs hr]
        exact ⟨rfl, rfl⟩
      | ok c =>
        obtain ⟨out, hm⟩ := Response.Marshal_ok (buildResponse (setDefaults p) c)
        rw [VersionChecker_success ⟨stat, readFile, write1⟩ payload p c out hp hs hr hm,
          VersionChecker_success ⟨stat, readFile, write2⟩ payload p c out hp hs hr hm]
        exact ⟨rfl, rfl⟩

theorem Response.Unmarshal_Marshal_valid (r : Response) (out : Bytes)
    (h : r.Marshal = Except.ok out) : Json.checkValid out = none := by
  rw [Response.Marshal_eq] at h
  cases h
  exact Json.checkValid_marshal _ _ _ _

/-- C11, as the code has it: for every successful call the returned string is
valid JSON, `json.Unmarshal` of it into `Response` succeeds, the decoded
`Type`, `Version` and `Hash` are equal to those of the `Response` value that
was marshalled, and the decoded `Content` is that value's `Content` with every
byte that is not valid UTF-8 replaced by U+FFFD, hence equal to it whenever the
content is valid UTF-8. -/
theorem decoding_undoes_encoding_up_to_coercion (env : Env) (payload : Bytes)
    (h : (VersionChecker env payload).err = none) :
    ∃ p c r, Payload.Unmarshal payload = Except.ok p
      ∧ env.readFile (filePath (setDefaults p)) = Except.ok c
      ∧ (buildResponse (setDefaults p) c).Marshal = Except.ok (VersionChecker env payload).out
      ∧ Json.checkValid (VersionChecker env payload).out = none
      ∧ Response.Unmarshal (VersionChecker env payload).out = Except.ok r
      ∧ r.Type_ = (buildResponse (setDefaults p) c).Type_
      ∧ r.Version = (buildResponse (setDefaults p) c).Version
      ∧ r.Hash = (buildResponse (setDefaults p) c).Hash
      ∧ r.Content = Utf8.coerce (buildResponse (setDefaults p) c).Content
      ∧ (Utf8.Valid (buildResponse (setDefaults p) c).Content = true →
          r.Content = (buildResponse (setDefaults p) c).Content) := by
  obtain ⟨p, c, hp, hs, hr⟩ := VersionChecker_ok_inv env payload h
  obtain ⟨out, hm⟩ := Response.Marshal_ok (buildResponse (setDefaults p) c)
  have hout : (VersionChecker env payload).out = out := by
    rw [VersionChecker_success env payload p c out hp hs hr hm]
  obtain ⟨hT, hV, -⟩ := Payload.Unmarshal_wellFormed payload p hp
  obtain ⟨hT', hV'⟩ := setDefaults_wellFormed p hT hV
  obtain ⟨f1, f2, f3, -⟩ := buildResponse_fields (setDefaults p) c
  refine ⟨p, c, _, hp, hr, hout ▸ hm, ?_, hout ▸ Response.Unmarshal_Marshal _ out hm, ?_, ?_, ?_,
    rfl, ?_⟩
  · rw [hout]
    exact Response.Unmarshal_Marshal_valid _ out hm
  · rw [f1]
    exact Utf8.coerce_wellFormed _ hT'
  · rw [f2]
    exact Utf8.coerce_wellFormed _ hV'
  · rw [f3]
    exact coerce_sprintfHex _
  · intro hv
    exact Utf8.coerce_of_valid _ hv

set_option maxRecDepth 100000 in
/-- C11, witness: the repository's test case `ValidPayload`. -/
theorem decoding_undoes_encoding_up_to_coercion_witness :
    (VersionChecker exampleEnv testPayload).err = none
    ∧ (∃ p c r, Payload.Unmarshal testPayload = Except.ok p
      ∧ exampleEnv.readFile (filePath (setDefaults p)) = Except.ok c
      ∧ (buildResponse (setDefaults p) c).Marshal
          = Except.ok (VersionChecker exampleEnv testPayload).out
      ∧ Json.checkValid (VersionChecker exampleEnv testPayload).out = none
      ∧ Response.Unmarshal (VersionChecker exampleEnv testPayload).out = Except.ok r
      ∧ r.Type_ = (buildResponse (setDefaults p) c).Type_
      ∧ r.Version = (buildResponse (setDefaults p) c).Version
      ∧ r.Hash = (buildResponse (setDefaults p) c).Hash
      ∧ r.Content = Utf8.coerce (buildResponse (setDefaults p) c).Content
      ∧ (Utf8.Valid (buildResponse (setDefaults p) c).Content = true →
          r.Content = (buildResponse (setDefaults p) c).Content)) :=
  ⟨by decide, decoding_undoes_encoding_up_to_coercion exampleEnv testPayload (by decide)⟩

set_option maxRecDepth 100000 in
/-- C11, counterexample: for the file `bin/1.0.0.json`, the byte `0xff`, and a
payload with its digest, the call succeeds, the `Response` value that is
marshalled has `Content` `0xff`, and the `Content` decoded from the returned
string is the three bytes of U+FFFD. -/
theorem decoded_content_differs_counterexample :
    (VersionChecker exampleEnv binPayload).err = none
      ∧ Payload.Unmarshal binPayload = Except.ok ⟨asc "bin", [],
          asc "a8100ae6aa1940d0b663bb31cd466142ebbdbd5187131b92d93818987832eb89"⟩
      ∧ exampleEnv.readFile (filePath (setDefaults ⟨asc "bin", [],
          asc "a8100ae6aa1940d0b663bb31cd466142ebbdbd5187131b92d93818987832eb89"⟩))
          = Except.ok [255]
      ∧ (buildResponse (setDefaults ⟨asc "bin", [],
          asc "a8100ae6aa1940d0b663bb31cd466142ebbdbd5187131b92d93818987832eb89"⟩) [255]).Marshal
          = Except.ok (VersionChecker exampleEnv binPayload).out
      ∧ (buildResponse (setDefaults ⟨asc "bin", [],
          asc "a8100ae6aa1940d0b663bb31cd466142ebbdbd5187131b92d93818987832eb89"⟩) [255]).Content
          = [255]
      ∧ (VersionChecker exampleEnv binPayload).out
          = asc ("\x7b\"type\":\"bin\",\"version\":\"1.0.0\",\"hash\":"
            ++ "\"a8100ae6aa1940d0b663bb31cd466142ebbdbd5187131b92d93818987832eb89\","
            ++ "\"content\":\"\\ufffd\"\x7d")
      ∧ Response.Unmarshal (VersionChecker exampleEnv binPayload).out
          = Except.ok ⟨asc "bin", asc "1.0.0",
              asc "a8100ae6aa1940d0b663bb31cd466142ebbdbd5187131b92d93818987832eb89",
              [239, 191, 189]⟩
      ∧ ([239, 191, 189] : Bytes) ≠ [255] := by
  decide

theorem appendString_nil : Json.appendString [] = [34, 34] := rfl

/-- C12, as the code has it: for every payload whose hash differs from the
computed hash, the content field of the JSON string `VersionChecker` returns is
the empty string literal, not `null`: the string ends in `,"content":""` and
the closing brace, and the `Content` decoded from it is empty. -/
theorem differing_hash_content_is_empty_literal (env : Env) (payload : Bytes) (p : Payload)
    (c : Bytes) (hp : Payload.Unmarshal payload = Except.ok p)
    (hs : env.stat (filePath (setDefaults p)) = none)
    (hr : env.readFile (filePath (setDefaults p)) = Except.ok c)
    (hh : p.Hash ≠ sprintfHex (Sha256.Sum256 c)) :
    List.IsSuffix (asc ",\"content\":\"\"\x7d") (VersionChecker env payload).out
      ∧ ¬ List.IsSuffix (asc ",\"content\":null\x7d") (VersionChecker env payload).out
      ∧ ∃ r, Response.Unmarshal (VersionChecker env payload).out = Except.ok r
          ∧ r.Content = [] := by
  obtain ⟨out, hm⟩ := Response.Marshal_ok (buildResponse (setDefaults p) c)
  have hout : (VersionChecker env payload).out = out := by
    rw [VersionChecker_success env payload p c out hp hs hr hm]
  have hc : (buildResponse (setDefaults p) c).Content = [] := by
    rw [(buildResponse_fields (setDefaults p) c).2.2.2, setDefaults_Hash, if_pos (Or.inr hh)]
  have hm' := hm
  rw [Response.Marshal_eq, hc, appendString_nil] at hm'
  cases hm'
  have hsuf : ∃ t : Bytes, (VersionChecker env payload).out
      = t ++ (asc ",\"content\":\"" ++ [34, 125]) := by
    rw [hout]
    refine ⟨asc "\x7b\"type\":" ++ (Json.appendString (buildResponse (setDefaults p) c).Type_
      ++ (asc ",\"version\":" ++ (Json.appendString (buildResponse (setDefaults p) c).Version
      ++ (asc ",\"hash\":" ++ Json.appendString (buildResponse (setDefaults p) c).Hash)))), ?_⟩
    simp only [List.append_assoc]
    rfl
  obtain ⟨t, ht⟩ := hsuf
  refine ⟨⟨t, ?_⟩, ?_, (differing_hash_blanks_content env payload p c hp hs hr hh).2⟩
  · rw [ht]
    rfl
  · rintro ⟨u, hu⟩
    rw [ht] at hu
    have e : asc ",\"content\":null\x7d" = asc ",\"content\":nu" ++ [108, 108, 125] := rfl
    have e2 : asc ",\"content\":\"" ++ [34, 125] = asc ",\"content\":" ++ [34, 34, 125] := rfl
    rw [e, e2, ← List.append_assoc, ← List.append_assoc] at hu
    have := (List.append_inj' hu rfl).2
    exact absurd this (by decide)

set_option maxRecDepth 100000 in
/-- C12, witness: the repository's test case `DifferentHash`. -/
theorem differing_hash_content_is_empty_literal_witness :
    (Payload.Unmarshal differentHashPayload
        = Except.ok ⟨asc "test", asc "1.0.0", asc "different_hash"⟩
      ∧ exampleEnv.stat (filePath (setDefaults ⟨asc "test", asc "1.0.0", asc "different_hash"⟩))
          = none
      ∧ exampleEnv.readFile
          (filePath (setDefaults ⟨asc "test", asc "1.0.0", asc "different_hash"⟩))
          = Except.ok testContent
      ∧ asc "different_hash" ≠ sprintfHex (Sha256.Sum256 testContent))
    ∧ (List.IsSuffix (asc ",\"content\":\"\"\x7d")
        (VersionChecker exampleEnv differentHashPayload).out
      ∧ ¬ List.IsSuffix (asc ",\"content\":null\x7d")
        (VersionChecker exampleEnv differentHashPayload).out
      ∧ ∃ r, Response.Unmarshal (VersionChecker exampleEnv differentHashPayload).out
            = Except.ok r
          ∧ r.Content = []) :=
  ⟨by decide,
   differing_hash_content_is_empty_literal exampleEnv differentHashPayload
    ⟨asc "test", asc "1.0.0", asc "different_hash"⟩ testContent
    (by decide) (by decide) (by decide) (by decide)⟩

set_option maxRecDepth 100000 in
/-- C12, counterexample: the repository's test case `DifferentHash`.  The
supplied hash differs from the computed one, and the returned string carries
`"content":""`, an empty string literal; it is not the string with
`"content":null`. -/
theorem differing_hash_content_not_null_counterexample :
    Payload.Unmarshal differentHashPayload
        = Except.ok ⟨asc "test", asc "1.0.0", asc "different_hash"⟩
      ∧ exampleEnv.readFile (asc "test/1.0.0.json") = Except.ok testContent
      ∧ asc "different_hash" ≠ sprintfHex (Sha256.Sum256 testContent)
      ∧ (VersionChecker exampleEnv differentHashPayload).out
          = asc ("\x7b\"type\":\"test\",\"version\":\"1.0.0\",\"hash\":"
            ++ "\"2f713eb06fb4e9f199cdd7cf3972dea686459f56306ce22d8114008370bf471b\","
            ++ "\"content\":\"\"\x7d")
      ∧ (VersionChecker exampleEnv differentHashPayload).out
          ≠ asc ("\x7b\"type\":\"test\",\"version\":\"1.0.0\",\"hash\":"
            ++ "\"2f713eb06fb4e9f199cdd7cf3972dea686459f56306ce22d8114008370bf471b\","
            ++ "\"content\":null\x7d") := by
  decide

/-- The file-system calls of a call whose payload decodes: `os.Stat` on
`filepath.Join` of the defaulted type and version and, only after a successful
existence check, `os.ReadFile` on the same path; nothing else. -/
theorem one_path_for_stat_and_read (env : Env) (payload : Bytes) (p : Payload)
    (hp : Payload.Unmarshal payload = Except.ok p) :
    (∀ e, env.stat (Filepath.Join [if p.Type_ = [] then asc "core" else p.Type_,
        (if p.Version = [] then asc "1.0.0" else p.Version) ++ asc ".json"]) = some e →
      (VersionChecker env payload).events.filter Event.isFileAccess
        = [Event.stat (Filepath.Join [if p.Type_ = [] then asc "core" else p.Type_,
            (if p.Version = [] then asc "1.0.0" else p.Version) ++ asc ".json"])])
    ∧ (env.stat (Filepath.Join [if p.Type_ = [] then asc "core" else p.Type_,
        (if p.Version = [] then asc "1.0.0" else p.Version) ++ asc ".json"]) = none →
      (VersionChecker env payload).events.filter Event.isFileAccess
        = [Event.stat (Filepath.Join [if p.Type_ = [] then asc "core" else p.Type_,
            (if p.Version = [] then asc "1.0.0" else p.Version) ++ asc ".json"]),
           Event.readFile (Filepath.Join [if p.Type_ = [] then asc "core" else p.Type_,
            (if p.Version = [] then asc "1.0.0" else p.Version) ++ asc ".json"])]) := by
  have hpath : filePath (setDefaults p)
      = Filepath.Join [if p.Type_ = [] then asc "core" else p.Type_,
          (if p.Version = [] then asc "1.0.0" else p.Version) ++ asc ".json"] := by
    unfold filePath
    rw [setDefaults_Type, setDefaults_Version]
  rw [← hpath]
  constructor
  · intro e hs
    rw [VersionChecker_statError env payload p e hp hs]
    rfl
  · intro hs
    cases hr : env.readFile (filePath (setDefaults p)) with
    | error e =>
      rw [VersionChecker_readError env payload p e hp hs hr]
      rfl
    | ok c =>
      obtain ⟨out, hm⟩ := Response.Marshal_ok (buildResponse (setDefaults p) c)
      rw [VersionChecker_success env payload p c out hp hs hr hm]
      simp only [saveToDB]
      split <;> rfl

set_option maxRecDepth 100000 in
/-- The repository's test case `ValidPayload` stats and reads
`test/1.0.0.json` and nothing else. -/
theorem one_path_for_stat_and_read_witness :
    Payload.Unmarshal testPayload = Except.ok ⟨asc "test", asc "1.0.0",
        asc "2f713eb06fb4e9f199cdd7cf3972dea686459f56306ce22d8114008370bf471b"⟩
    ∧ ((∀ e, exampleEnv.stat (Filepath.Join [if asc "test" = [] then asc "core" else asc "test",
        (if asc "1.0.0" = [] then asc "1.0.0" else asc "1.0.0") ++ asc ".json"]) = some e →
      (VersionChecker exampleEnv testPayload).events.filter Event.isFileAccess
        = [Event.stat (Filepath.Join [if asc "test" = [] then asc "core" else asc "test",
            (if asc "1.0.0" = [] then asc "1.0.0" else asc "1.0.0") ++ asc ".json"])])
    ∧ (exampleEnv.stat (Filepath.Join [if asc "test" = [] then asc "core" else asc "test",
        (if asc "1.0.0" = [] then asc "1.0.0" else asc "1.0.0") ++ asc ".json"]) = none →
      (VersionChecker exampleEnv testPayload).events.filter Event.isFileAccess
        = [Event.stat (Filepath.Join [if asc "test" = [] then asc "core" else asc "test",
            (if asc "1.0.0" = [] then asc "1.0.0" else asc "1.0.0") ++ asc ".json"]),
           Event.readFile (Filepath.Join [if asc "test" = [] then asc "core" else asc "test",
            (if asc "1.0.0" = [] then asc "1.0.0" else asc "1.0.0") ++ asc ".json"])]))
    ∧ (VersionChecker exampleEnv testPayload).events.filter Event.isFileAccess
        = [Event.stat (asc "test/1.0.0.json"), Event.readFile (asc "test/1.0.0.json")] :=
  ⟨by decide,
   one_path_for_stat_and_read exampleEnv testPayload
    ⟨asc "test", asc "1.0.0",
      asc "2f713eb06fb4e9f199cdd7cf3972dea686459f56306ce22d8114008370bf471b"⟩ (by decide),
   by decide⟩

/-- C14: for every payload that decodes and whose path passes the existence
check but whose content cannot be read, `VersionChecker` returns the empty
string together with an error whose message starts with
`failed to read file: `. -/
theorem unreadable_file_returns_read_error (env : Env) (payload : Bytes) (p : Payload)
    (e : OsError) (hp : Payload.Unmarshal payload = Except.ok p)
    (hs : env.stat (Filepath.Join [(setDefaults p).Type_, (setDefaults p).Version ++ asc ".json"])
      = none)
    (hr : env.readFile
      (Filepath.Join [(setDefaults p).Type_, (setDefaults p).Version ++ asc ".json"])
      = Except.error e) :
    (VersionChecker env payload).out = []
      ∧ ∃ msg rest, (VersionChecker env payload).err = some (GoError.errorf msg)
          ∧ msg = "failed to read file: " ++ rest := by
  rw [VersionChecker_readError env payload p e hp hs hr]
  exact ⟨rfl, _, e.msg, rfl, rfl⟩

set_option maxRecDepth 100000 in
/-- C14, witness: `core/1.0.0.json` is a directory and the payload is empty. -/
theorem unreadable_file_returns_read_error_witness :
    (Payload.Unmarshal (asc "\x7b\x7d") = Except.ok ⟨[], [], []⟩
      ∧ directoryEnv.stat (Filepath.Join [(setDefaults ⟨[], [], []⟩).Type_,
          (setDefaults ⟨[], [], []⟩).Version ++ asc ".json"]) = none
      ∧ directoryEnv.readFile (Filepath.Join [(setDefaults ⟨[], [], []⟩).Type_,
          (setDefaults ⟨[], [], []⟩).Version ++ asc ".json"])
        = Except.error ⟨"read core/1.0.0.json: is a directory"⟩)
    ∧ ((VersionChecker directoryEnv (asc "\x7b\x7d")).out = []
      ∧ ∃ msg rest, (VersionChecker directoryEnv (asc "\x7b\x7d")).err
            = some (GoError.errorf msg)
          ∧ msg = "failed to read file: " ++ rest) :=
  ⟨by decide,
   unreadable_file_returns_read_error directoryEnv (asc "\x7b\x7d") ⟨[], [], []⟩
    ⟨"read core/1.0.0.json: is a directory"⟩ (by decide) (by decide) (by decide)⟩

theorem Response.Marshal_ne_nil (r : Response) (out : Bytes) (h : r.Marshal = Except.ok out) :
    out ≠ [] := by
  rw [Response.Marshal_eq] at h
  cases h
  have e : ∀ X : Bytes, asc "\x7b\"type\":" ++ X ≠ [] := fun X => by
    intro hx
    have := congrArg List.length hx
    rw [List.length_append] at this
    have h8 : (asc "\x7b\"type\":").length = 8 := rfl
    rw [h8] at this
    simp at this
  exact e _

/-- C15: `VersionChecker` returns a non-nil error if and only if the payload
fails to decode, the file fails the existence check, or the file fails to be
read; marshalling a `Response` never fails, so the "failed to marshal
response" branch is never taken; and the returned string is empty exactly when
the error is non-nil. -/
theorem error_iff_decode_stat_or_read_fails (env : Env) (payload : Bytes) :
    ((VersionChecker env payload).err ≠ none ↔
      (∃ e, Payload.Unmarshal payload = Except.error e)
      ∨ (∃ p e, Payload.Unmarshal payload = Except.ok p
          ∧ env.stat (filePath (setDefaults p)) = some e)
      ∨ (∃ p e, Payload.Unmarshal payload = Except.ok p
          ∧ env.stat (filePath (setDefaults p)) = none
          ∧ env.readFile (filePath (setDefaults p)) = Except.error e))
    ∧ (∀ r : Response, ∃ out, r.Marshal = Except.ok out)
    ∧ (∀ args, Event.logError "failed to marshal response: %s" args
        ∉ (VersionChecker env payload).events)
    ∧ (∀ rest, (VersionChecker env payload).err
        ≠ some (GoError.errorf ("failed to marshal response: " ++ rest)))
    ∧ ((VersionChecker env payload).out = [] ↔ (VersionChecker env payload).err ≠ none) := by
  refine ⟨?_, Response.Marshal_ok, ?_⟩
  · constructor
    · intro h
      cases hp : Payload.Unmarshal payload with
      | error e => exact Or.inl ⟨e, rfl⟩
      | ok p =>
        cases hs : env.stat (filePath (setDefaults p)) with
        | some e => exact Or.inr (Or.inl ⟨p, e, rfl, hs⟩)
        | none =>
          cases hr : env.readFile (filePath (setDefaults p)) with
          | error e => exact Or.inr (Or.inr ⟨p, e, rfl, hs, hr⟩)
          | ok c =>
            obtain ⟨out, hm⟩ := Response.Marshal_ok (buildResponse (setDefaults p) c)
            rw [VersionChecker_success env payload p c out hp hs hr hm] at h
            exact absurd rfl h
    · rintro (⟨e, hp⟩ | ⟨p, e, hp, hs⟩ | ⟨p, e, hp, hs, hr⟩)
      · rw [VersionChecker_decodeError env payload e hp]
        simp
      · rw [VersionChecker_statError env payload p e hp hs]
        simp
      · rw [VersionChecker_readError env payload p e hp hs hr]
        simp
  · cases hp : Payload.Unmarshal payload with
    | error e =>
      rw [VersionChecker_decodeError env payload e hp]
      refine ⟨?_, ?_, ?_⟩
      · intro args hm
        simp at hm
      · intro rest h
        cases h
      · simp
    | ok p =>
      cases hs : env.stat (filePath (setDefaults p)) with
      | some e =>
        rw [VersionChecker_statError env payload p e hp hs]
        refine ⟨?_, ?_, ?_⟩
        · intro args hm
          simp at hm
        · intro rest h
          simp only [Option.some.injEq, GoError.errorf.injEq] at h
          have := congrArg (fun s => s.data.drop 1) h
          simp at this
        · simp
      | none =>
        cases hr : env.readFile (filePath (setDefaults p)) with
        | error e =>
          rw [VersionChecker_readError env payload p e hp hs hr]
          refine ⟨?_, ?_, ?_⟩
          · intro args hm
            simp at hm
          · intro rest h
            simp only [Option.some.injEq, GoError.errorf.injEq] at h
            have := congrArg (fun s => s.data.drop 10) h
            simp at this
          · simp
        | ok c =>
          obtain ⟨out, hm⟩ := Response.Marshal_ok (buildResponse (setDefaults p) c)
          rw [VersionChecker_success env payload p c out hp hs hr hm]
          refine ⟨?_, ?_, ?_⟩
          · intro args hmem
            simp only [saveToDB] at hmem
            split at hmem <;> simp at hmem
          · intro rest h
            cases h
          · simp only [ne_eq, not_true_eq_false, iff_false]
            exact Response.Marshal_ne_nil _ out hm

theorem saveToDB_writes (env : Env) (p : Payload) (response : Bytes) :
    Event.storageWrite [⟨collectionName, p.Type_ ++ asc "/" ++ p.Version,
        asc "00000000-0000-0000-0000-000000000000", response⟩] ∈ saveToDB env p response := by
  simp only [saveToDB]
  split <;> exact List.mem_cons_self _ _

/-- C16: `StorageWrite` is called if and only if `VersionChecker` returns no
error: on each of the error returns no storage write is issued. -/
theorem storage_write_iff_no_error (env : Env) (payload : Bytes) :
    ((∃ writes, Event.storageWrite writes ∈ (VersionChecker env payload).events)
        ↔ (VersionChecker env payload).err = none)
    ∧ ((VersionChecker env payload).err ≠ none →
        (VersionChecker env payload).events.filter Event.isStorageWrite = []) := by
  cases hp : Payload.Unmarshal payload with
  | error e =>
    rw [VersionChecker_decodeError env payload e hp]
    simp [Event.isStorageWrite]
  | ok p =>
    cases hs : env.stat (filePath (setDefaults p)) with
    | some e =>
      rw [VersionChecker_statError env payload p e hp hs]
      simp [Event.isStorageWrite]
    | none =>
      cases hr : env.readFile (filePath (setDefaults p)) with
      | error e =>
        rw [VersionChecker_readError env payload p e hp hs hr]
        simp [Event.isStorageWrite]
      | ok c =>
        obtain ⟨out, hm⟩ := Response.Marshal_ok (buildResponse (setDefaults p) c)
        rw [VersionChecker_success env payload p c out hp hs hr hm]
        exact ⟨⟨fun _ => rfl,
          fun _ => ⟨_, List.mem_append_right _ (saveToDB_writes env (setDefaults p) out)⟩⟩,
          fun h => absurd rfl h⟩

set_option maxRecDepth 100000 in
/-- The three error returns evaluated: an undecodable payload, a missing file
and an unreadable file leave the trace without a storage write. -/
theorem failed_requests_write_nothing :
    (VersionChecker exampleEnv (asc "invalid_json")).events.filter Event.isStorageWrite = []
      ∧ (VersionChecker exampleEnv
          (asc "\x7b\"type\": \"not_exist\", \"version\": \"9.9.9\", \"hash\": \"\"\x7d")).events.filter
            Event.isStorageWrite = []
      ∧ (VersionChecker directoryEnv (asc "\x7b\x7d")).events.filter Event.isStorageWrite = [] := by
  decide

theorem sprintfHex_length (b : Bytes) : (sprintfHex b).length = 2 * b.length := by
  induction b with
  | nil => rfl
  | cons x rest ih =>
    simp only [sprintfHex, List.length_cons, ih]
    omega

theorem Sum256_length (data : Bytes) : (Sha256.Sum256 data).length = 32 := by
  simp [Sha256.Sum256, Sha256.be32]

theorem sprintfHex_lowerHex (b : Bytes) : ∀ x ∈ sprintfHex b, isLowerHex x = true := by
  induction b with
  | nil => intro x hx; simp [sprintfHex] at hx
  | cons y rest ih =>
    intro x hx
    simp only [sprintfHex, List.mem_cons] at hx
    have hy := UInt8.toNat_lt_256 y
    rcases hx with rfl | rfl | hx
    · have := Json.hexDigit_toNat (y.toNat / 16) (by omega)
      unfold isLowerHex
      split at this <;> simp <;> omega
    · have := Json.hexDigit_toNat (y.toNat % 16) (by omega)
      unfold isLowerHex
      split at this <;> simp <;> omega
    · exact ih x hx

/-- C17: the computed hash is always exactly 64 characters drawn from `0-9a-f`,
hence never empty, so the test `p.Hash == "" || p.Hash != hash` is the test
`p.Hash != hash`: for every payload and file, the response built by the
handler is the one whose `Content` is the file content if `p.Hash == hash` and
the empty string otherwise. -/
theorem empty_hash_test_is_redundant (p : Payload) (c : Bytes) :
    (sprintfHex (Sha256.Sum256 c)).length = 64
      ∧ (∀ x ∈ sprintfHex (Sha256.Sum256 c), isLowerHex x = true)
      ∧ sprintfHex (Sha256.Sum256 c) ≠ []
      ∧ ((p.Hash = [] ∨ p.Hash ≠ sprintfHex (Sha256.Sum256 c))
          ↔ p.Hash ≠ sprintfHex (Sha256.Sum256 c))
      ∧ buildResponse p c = buildResponseSpec p c
      ∧ (buildResponse p c).Content
          = if p.Hash = sprintfHex (Sha256.Sum256 c) then c else [] := by
  have hlen : (sprintfHex (Sha256.Sum256 c)).length = 64 := by
    rw [sprintfHex_length, Sum256_length]
  have hne : sprintfHex (Sha256.Sum256 c) ≠ [] := by
    intro h
    rw [h] at hlen
    simp at hlen
  have hiff : (p.Hash = [] ∨ p.Hash ≠ sprintfHex (Sha256.Sum256 c))
      ↔ p.Hash ≠ sprintfHex (Sha256.Sum256 c) := by
    constructor
    · rintro (h | h)
      · intro h2
        exact hne (h2 ▸ h)
      · exact h
    · exact Or.inr
  have hb : buildResponse p c = buildResponseSpec p c := by
    unfold buildResponse buildResponseSpec
    by_cases h : p.Hash = sprintfHex (Sha256.Sum256 c)
    · have hn : ¬ (p.Hash = [] ∨ p.Hash ≠ sprintfHex (Sha256.Sum256 c)) := by
        rw [hiff]
        exact fun h2 => h2 h
      simp only [if_neg hn, if_pos h]
    · simp only [if_pos (Or.inr h : p.Hash = [] ∨ p.Hash ≠ sprintfHex (Sha256.Sum256 c)),
        if_neg h]
  refine ⟨hlen, sprintfHex_lowerHex _, hne, hiff, hb, ?_⟩
  rw [hb]
  rfl

set_option maxRecDepth 100000 in
/-- C18: `VersionChecker` accepts every type and version string without
validation, so the lookup is not confined to the working directory: for the
payload with type `..` and version `x`, on every host the path handed to the
existence check is `../x.json`, and where that file exists it is the path of
the read too. -/
theorem lookup_escapes_working_directory :
    Payload.Unmarshal parentPayload = Except.ok ⟨asc "..", asc "x", []⟩
      ∧ filePath (setDefaults ⟨asc "..", asc "x", []⟩) = asc "../x.json"
      ∧ (∀ env : Env,
          (VersionChecker env parentPayload).events.filter Event.isFileAccess
              = [Event.stat (asc "../x.json")]
          ∨ (VersionChecker env parentPayload).events.filter Event.isFileAccess
              = [Event.stat (asc "../x.json"), Event.readFile (asc "../x.json")])
      ∧ (VersionChecker parentEnv parentPayload).events.filter Event.isFileAccess
          = [Event.stat (asc "../x.json"), Event.readFile (asc "../x.json")]
      ∧ (VersionChecker parentEnv parentPayload).err = none
      ∧ (asc "../").isPrefixOf (filePath (setDefaults ⟨asc "..", asc "x", []⟩)) = true := by
  have hp : Payload.Unmarshal parentPayload = Except.ok ⟨asc "..", asc "x", []⟩ := by decide
  have hpath : filePath (setDefaults ⟨asc "..", asc "x", []⟩) = asc "../x.json" := by decide
  refine ⟨hp, hpath, ?_, by decide, by decide, by decide⟩
  intro env
  have := VersionChecker_fileAccess env parentPayload _ hp
  rw [hpath] at this
  exact this

/-! ## Rooted and unrooted paths -/

namespace Filepath

theorem cleanLoop_succ_cons (rooted : Bool) (fuel : Nat) (c : UInt8) (rest out : Bytes)
    (dotdot : Nat) :
    cleanLoop rooted (fuel + 1) (c :: rest) out dotdot =
      if c = Separator then cleanLoop rooted fuel rest out dotdot
      else if c.toNat = 46 ∧ (rest = [] ∨ rest.head? = some Separator) then
        cleanLoop rooted fuel rest out dotdot
      else if c.toNat = 46 ∧ rest.head? = some 46
          ∧ (rest.tail = [] ∨ rest.tail.head? = some Separator) then
        if dotdot < out.length then
          cleanLoop rooted fuel rest.tail (out.take (backtrack out dotdot (out.length - 1))) dotdot
        else if ¬ rooted then
          cleanLoop rooted fuel rest.tail
            ((if 0 < out.length then out ++ [Separator] else out) ++ [46, 46])
            ((if 0 < out.length then out ++ [Separator] else out) ++ [46, 46]).length
        else cleanLoop rooted fuel rest.tail out dotdot
      else
        cleanLoop rooted fuel ((c :: rest).dropWhile (· ≠ Separator))
          ((if (rooted ∧ out.length ≠ 1) ∨ (¬ rooted ∧ out.length ≠ 0) then out ++ [Separator]
            else out) ++ (c :: rest).takeWhile (· ≠ Separator)) dotdot := rfl

theorem backtrack_ge (out : Bytes) (dotdot : Nat) :
    ∀ w, dotdot ≤ w → dotdot ≤ backtrack out dotdot w := by
  intro w
  induction w with
  | zero => intro h; simpa [backtrack] using h
  | succ w ih =>
    intro h
    unfold backtrack
    split
    · rename_i hc
      exact ih (by omega)
    · exact h

theorem IsAbs_append (a b : Bytes) (h : a ≠ []) : IsAbs (a ++ b) = IsAbs a := by
  cases a with
  | nil => exact absurd rfl h
  | cons c rest => rfl

theorem IsAbs_take (a : Bytes) (k : Nat) (hk : 1 ≤ k) : IsAbs (a.take k) = IsAbs a := by
  cases a with
  | nil => simp
  | cons c rest =>
    obtain ⟨j, rfl⟩ : ∃ j, k = j + 1 := ⟨k - 1, by omega⟩
    rfl

theorem IsAbs_take_false (a : Bytes) (k : Nat) (h : IsAbs a = false) :
    IsAbs (a.take k) = false := by
  cases k with
  | zero => simp [IsAbs]
  | succ j => rw [IsAbs_take a (j + 1) (by omega)]; exact h

theorem IsAbs_ne_nil (a : Bytes) (h : IsAbs a = true) : a ≠ [] := by
  intro hn
  rw [hn] at h
  exact absurd h (by simp [IsAbs])

theorem cleanLoop_rooted (fuel : Nat) :
    ∀ (path out : Bytes), IsAbs out = true →
      IsAbs (cleanLoop true fuel path out 1) = true := by
  induction fuel with
  | zero =>
    intro path out h
    cases path <;> exact h
  | succ fuel ih =>
    intro path out h
    cases path with
    | nil => exact h
    | cons c rest =>
      have hne := IsAbs_ne_nil out h
      rw [cleanLoop_succ_cons]
      by_cases c1 : c = Separator
      · rw [if_pos c1]; exact ih _ _ h
      rw [if_neg c1]
      by_cases c2 : c.toNat = 46 ∧ (rest = [] ∨ rest.head? = some Separator)
      · rw [if_pos c2]; exact ih _ _ h
      rw [if_neg c2]
      by_cases c3 : c.toNat = 46 ∧ rest.head? = some 46
          ∧ (rest.tail = [] ∨ rest.tail.head? = some Separator)
      · rw [if_pos c3]
        by_cases c4 : 1 < out.length
        · rw [if_pos c4]
          apply ih
          rw [IsAbs_take _ _ (backtrack_ge out 1 _ (by omega))]
          exact h
        · rw [if_neg c4, if_neg (by simp)]
          exact ih _ _ h
      · rw [if_neg c3]
        apply ih
        by_cases c5 : (true = true ∧ out.length ≠ 1) ∨ (¬ true = true ∧ out.length ≠ 0)
        · rw [if_pos c5, IsAbs_append _ _ (by simp), IsAbs_append _ _ hne]
          exact h
        · rw [if_neg c5, IsAbs_append _ _ hne]
          exact h

theorem cleanLoop_unrooted (fuel : Nat) :
    ∀ (path out : Bytes) (dotdot : Nat), IsAbs out = false →
      IsAbs (cleanLoop false fuel path out dotdot) = false := by
  induction fuel with
  | zero =>
    intro path out dotdot h
    cases path <;> exact h
  | succ fuel ih =>
    intro path out dotdot h
    cases path with
    | nil => exact h
    | cons c rest =>
      rw [cleanLoop_succ_cons]
      by_cases c1 : c = Separator
      · rw [if_pos c1]; exact ih _ _ _ h
      rw [if_neg c1]
      by_cases c2 : c.toNat = 46 ∧ (rest = [] ∨ rest.head? = some Separator)
      · rw [if_pos c2]; exact ih _ _ _ h
      rw [if_neg c2]
      by_cases c3 : c.toNat = 46 ∧ rest.head? = some 46
          ∧ (rest.tail = [] ∨ rest.tail.head? = some Separator)
      · rw [if_pos c3]
        by_cases c4 : dotdot < out.length
        · rw [if_pos c4]
          exact ih _ _ _ (IsAbs_take_false _ _ h)
        · rw [if_neg c4, if_pos (by simp)]
          apply ih
          cases out with
          | nil => rfl
          | cons x xs =>
            rw [if_pos (by simp)]
            exact h
      · rw [if_neg c3]
        apply ih
        cases out with
        | nil =>
          have : (c :: rest).takeWhile (· ≠ Separator)
              = c :: rest.takeWhile (· ≠ Separator) := by
            simp [List.takeWhile, c1]
          simp only [List.length_nil, ne_eq, not_true_eq_false, and_false, or_self, if_false,
            List.nil_append, this]
          simp [IsAbs, c1]
        | cons x xs =>
          by_cases c5 : (false = true ∧ (x :: xs).length ≠ 1)
              ∨ (¬ false = true ∧ (x :: xs).length ≠ 0)
          · rw [if_pos c5]
            exact h
          · rw [if_neg c5]
            exact h

/-- Cleaning keeps a rooted path rooted and an unrooted path unrooted. -/
theorem IsAbs_Clean (path : Bytes) : IsAbs (Clean path) = IsAbs path := by
  cases path with
  | nil => rfl
  | cons c rest =>
    unfold Clean
    by_cases hc : c = Separator
    · simp only [if_pos hc]
      have h := cleanLoop_rooted (c :: rest).length rest [Separator] rfl
      have hne := IsAbs_ne_nil _ h
      rw [if_neg (by simpa using hne), h]
      simp [IsAbs, hc]
    · simp only [if_neg hc]
      have h := cleanLoop_unrooted (c :: rest).length (c :: rest) [] 0 rfl
      have e : IsAbs (c :: rest) = false := by simp [IsAbs, hc]
      rw [e]
      split
      · rfl
      · exact h

theorem IsAbs_Join (t s : Bytes) (ht : t ≠ []) : IsAbs (Join [t, s]) = IsAbs t := by
  have e : Join [t, s] = Clean (t ++ Separator :: s) := by
    simp [Join, ht, joinSep]
  rw [e, IsAbs_Clean, IsAbs_append _ _ ht]

end Filepath

theorem setDefaults_Type_ne_nil (p : Payload) : (setDefaults p).Type_ ≠ [] := by
  rw [setDefaults_Type]
  split
  · decide
  · assumption

/-- C13, as the code has it: the file `VersionChecker` stats and reads is
exactly `filepath.Join(type, version + ".json")` for the defaulted type and
version, handed to `os.Stat` and `os.ReadFile` unchanged; it is taken relative
to the process working directory when the defaulted type does not begin with a
path separator, and is an absolute path, the same for every working directory,
when it does; the same path is used for the existence check and for the read,
the read is made only after a successful existence check, and no other file is
consulted. -/
theorem stat_and_read_path_resolution (env : Env) (payload : Bytes) (p : Payload)
    (hp : Payload.Unmarshal payload = Except.ok p) :
    ∃ t v path,
      (p.Type_ = [] → t = asc "core") ∧ (p.Type_ ≠ [] → t = p.Type_)
      ∧ (p.Version = [] → v = asc "1.0.0") ∧ (p.Version ≠ [] → v = p.Version)
      ∧ path = Filepath.Join [t, v ++ asc ".json"]
      ∧ (∀ e, env.stat path = some e →
          (VersionChecker env payload).events.filter Event.isFileAccess = [Event.stat path])
      ∧ (env.stat path = none →
          (VersionChecker env payload).events.filter Event.isFileAccess
            = [Event.stat path, Event.readFile path])
      ∧ (Filepath.IsAbs t = false →
          Filepath.IsAbs path = false
            ∧ ∀ wd, Filepath.locate wd path = wd ++ asc "/" ++ path)
      ∧ (Filepath.IsAbs t = true →
          Filepath.IsAbs path = true ∧ ∀ wd, Filepath.locate wd path = path) := by
  have hne := setDefaults_Type_ne_nil p
  have habs := Filepath.IsAbs_Join (setDefaults p).Type_ ((setDefaults p).Version ++ asc ".json")
    hne
  have hev := one_path_for_stat_and_read env payload p hp
  rw [← setDefaults_Type, ← setDefaults_Version] at hev
  refine ⟨(setDefaults p).Type_, (setDefaults p).Version, _, ?_, ?_, ?_, ?_, rfl, hev.1, hev.2,
    ?_, ?_⟩
  · intro h; rw [setDefaults_Type, if_pos h]
  · intro h; rw [setDefaults_Type, if_neg h]
  · intro h; rw [setDefaults_Version, if_pos h]
  · intro h; rw [setDefaults_Version, if_neg h]
  · intro h
    rw [h] at habs
    refine ⟨habs, fun wd => ?_⟩
    unfold Filepath.locate
    rw [habs]
    simp only [Bool.false_eq_true, if_false, List.append_assoc]
    rfl
  · intro h
    rw [h] at habs
    refine ⟨habs, fun wd => ?_⟩
    unfold Filepath.locate
    rw [habs]
    rfl

set_option maxRecDepth 100000 in
/-- C13, witness: the repository's test case `ValidPayload` stats and reads
`test/1.0.0.json`, a path that is not rooted. -/
theorem stat_and_read_path_resolution_witness :
    Payload.Unmarshal testPayload = Except.ok ⟨asc "test", asc "1.0.0",
        asc "2f713eb06fb4e9f199cdd7cf3972dea686459f56306ce22d8114008370bf471b"⟩
    ∧ (∃ t v path,
      (asc "test" = [] → t = asc "core") ∧ (asc "test" ≠ [] → t = asc "test")
      ∧ (asc "1.0.0" = [] → v = asc "1.0.0") ∧ (asc "1.0.0" ≠ [] → v = asc "1.0.0")
      ∧ path = Filepath.Join [t, v ++ asc ".json"]
      ∧ (∀ e, exampleEnv.stat path = some e →
          (VersionChecker exampleEnv testPayload).events.filter Event.isFileAccess
            = [Event.stat path])
      ∧ (exampleEnv.stat path = none →
          (VersionChecker exampleEnv testPayload).events.filter Event.isFileAccess
            = [Event.stat path, Event.readFile path])
      ∧ (Filepath.IsAbs t = false →
          Filepath.IsAbs path = false
            ∧ ∀ wd, Filepath.locate wd path = wd ++ asc "/" ++ path)
      ∧ (Filepath.IsAbs t = true →
          Filepath.IsAbs path = true ∧ ∀ wd, Filepath.locate wd path = path))
    ∧ Filepath.Join [asc "test", asc "1.0.0" ++ asc ".json"] = asc "test/1.0.0.json"
    ∧ Filepath.locate (asc "/srv/app") (asc "test/1.0.0.json")
        = asc "/srv/app/test/1.0.0.json" :=
  ⟨by decide,
   stat_and_read_path_resolution exampleEnv testPayload
    ⟨asc "test", asc "1.0.0",
      asc "2f713eb06fb4e9f199cdd7cf3972dea686459f56306ce22d8114008370bf471b"⟩ (by decide),
   by decide, by decide⟩

set_option maxRecDepth 100000 in
/-- C13, counterexample: for the payload with type `/etc` and version `passwd`
the path handed to the existence check and to the read is `/etc/passwd.json`,
an absolute path: the file it names in a process with working directory
`/srv/app` is `/etc/passwd.json` itself, not a file under `/srv/app`. -/
theorem rooted_type_is_not_relative_counterexample :
    Payload.Unmarshal rootedPayload = Except.ok ⟨asc "/etc", asc "passwd", []⟩
      ∧ filePath (setDefaults ⟨asc "/etc", asc "passwd", []⟩) = asc "/etc/passwd.json"
      ∧ (VersionChecker rootedEnv rootedPayload).events.filter Event.isFileAccess
          = [Event.stat (asc "/etc/passwd.json"), Event.readFile (asc "/etc/passwd.json")]
      ∧ (VersionChecker rootedEnv rootedPayload).err = none
      ∧ Filepath.IsAbs (asc "/etc/passwd.json") = true
      ∧ Filepath.locate (asc "/srv/app") (asc "/etc/passwd.json") = asc "/etc/passwd.json"
      ∧ Filepath.locate (asc "/srv/app") (asc "/etc/passwd.json")
          ≠ asc "/srv/app" ++ asc "/" ++ asc "/etc/passwd.json"
      ∧ (asc "/srv/app/").isPrefixOf
          (Filepath.locate (asc "/srv/app") (asc "/etc/passwd.json")) = false := by
  decide
